import Mathlib

/-!
# webgpu-headers-gen: the schema-to-header synthesis engine

A shallow embedding of `src/main.go` and `src/header.go`.

* A Go `string` is a sequence of bytes; it is modelled as a list of numbers
  (`GoString`), each element being one byte (a value below 256).
* The writer `w io.Writer` is only ever appended to, so every `writeX(w, yml)`
  is modelled as the function returning the text that the call appends.
* A Go `panic` (and `log.Panic`) aborts the run; a function that can panic
  returns `Option`, with `none` for the abort.
* Library code that no definition below can express from the sources in
  `src/` (the Unicode case table behind `strings.ToUpper` on non-ASCII text
  and the platform-dependent conversion of an out-of-range `float64` to
  `uint64`) is a field of `GoRuntime`, a parameter of the functions using it.
-/

namespace WebgpuHeadersGen

/-! ## Strings -/

/-- A Go string: the list of its bytes. -/
abbrev GoString := List Nat

/-- The bytes of an ASCII literal of the source text. -/
def str (s : String) : GoString := s.toList.map Char.toNat

/-- Go `strings.HasPrefix`: `len(s) >= len(p) && s[:len(p)] == p`. -/
def HasPrefix (s p : GoString) : Bool :=
  decide (p.length ≤ s.length ∧ s.take p.length = p)

/-- Go `strings.TrimPrefix`: `s` without the leading `p`, or `s` itself. -/
def TrimPrefix (s p : GoString) : GoString :=
  if HasPrefix s p then s.drop p.length else s

/-- Go `strings.Compare`: byte-wise lexicographic comparison, returning
`-1`, `0` or `+1`. -/
def stringsCompare : GoString → GoString → Int
  | [], [] => 0
  | [], _ :: _ => -1
  | _ :: _, [] => 1
  | a :: as, b :: bs =>
    if a < b then -1 else if b < a then 1 else stringsCompare as bs

/-- Go `strings.Join`. -/
def stringsJoin (elems : List GoString) (sep : GoString) : GoString :=
  List.intercalate sep elems

/-- Go `utf8.AppendRune`, which `strings.Builder.WriteRune` calls: the UTF-8
encoding of the rune `r` (the encoding of U+FFFD for a surrogate or a value
out of range). -/
def appendRune (r : Nat) : GoString :=
  if r < 0x80 then [r]
  else if r < 0x800 then [0xC0 + r / 64, 0x80 + r % 64]
  else if (0xD800 ≤ r ∧ r ≤ 0xDFFF) ∨ 0x10FFFF < r then [0xEF, 0xBF, 0xBD]
  else if r < 0x10000 then [0xE0 + r / 4096, 0x80 + r / 64 % 64, 0x80 + r % 64]
  else [0xF0 + r / 262144, 0x80 + r / 4096 % 64, 0x80 + r / 64 % 64, 0x80 + r % 64]

/-- Go `unicode.ToUpper` on the runes `rune(c)` of a byte `c`, that is on
U+0000..U+00FF, the only runes `PascalCase` and `CamelCase` pass to it: the
ASCII letters, and the Latin-1 entries of `unicode.CaseRanges`
(U+00B5 maps to U+039C, U+00E0..U+00F6 and U+00F8..U+00FE go down by 32,
U+00FF maps to U+0178). -/
def unicodeToUpper (r : Nat) : Nat :=
  if r ≤ 0x7F then (if 0x61 ≤ r ∧ r ≤ 0x7A then r - 32 else r)
  else if r = 0xB5 then 0x39C
  else if (0xE0 ≤ r ∧ r ≤ 0xF6) ∨ (0xF8 ≤ r ∧ r ≤ 0xFE) then r - 32
  else if r = 0xFF then 0x178
  else r

/-- The library behaviour that the sources in `src/` do not determine. -/
structure GoRuntime where
  /-- Go `strings.Map(unicode.ToUpper, s)`, which `strings.ToUpper` falls back
  to on a string holding a byte that is not ASCII. -/
  MapToUpper : GoString → GoString
  /-- The value of `uint64(math.Pow(2, float64(k)))` for `k ≥ 64`, where the
  `float64` is out of the range of `uint64` and Go leaves the result to the
  implementation. -/
  Pow2ToUint64 : Nat → Nat

/-- Go `strings.ToUpper`: the ASCII fast path, else `strings.Map`. -/
def stringsToUpper (rt : GoRuntime) (s : GoString) : GoString :=
  if s.all (fun c => decide (c < 0x80)) then
    s.map (fun c => if 0x61 ≤ c ∧ c ≤ 0x7A then c - 32 else c)
  else rt.MapToUpper s

/-! ## Data model (`main.go`) -/

/-- The constant `docsEnabled`. -/
def docsEnabled : Bool := true

/-- Type `PointerType`, a string. -/
abbrev PointerType := GoString

/-- Constant `PointerTypeMutable`. -/
def PointerTypeMutable : PointerType := str "mutable"

/-- Constant `PointerTypeImmutable`. -/
def PointerTypeImmutable : PointerType := str "immutable"

/-- The zero value of `PointerType`: no pointer qualifier. -/
def PointerTypeNone : PointerType := []

/-- Type `GlobalConstants`. -/
structure GlobalConstants where
  Name : GoString
  Value : GoString
  Doc : GoString
  deriving DecidableEq, Repr

/-- Type `Global`. -/
structure Global where
  Constants : List GlobalConstants
  deriving DecidableEq, Repr

/-- Type `EnumEntries`. -/
structure EnumEntries where
  Name : GoString
  Value : GoString
  Doc : GoString
  deriving DecidableEq, Repr

/-- Type `Enum`. -/
structure Enum where
  Name : GoString
  Doc : GoString
  Bitmask : Bool
  Entries : List EnumEntries
  deriving DecidableEq, Repr

/-- Type `FunctionReturns` (field `Type` is spelled `Typ`). -/
structure FunctionReturns where
  Doc : GoString
  Typ : GoString
  Pointer : PointerType
  deriving DecidableEq, Repr

/-- Type `FunctionArg` (field `Type` is spelled `Typ`). -/
structure FunctionArg where
  Name : GoString
  Doc : GoString
  Typ : GoString
  Pointer : PointerType
  Optional : Bool
  deriving DecidableEq, Repr

/-- Type `Function`. -/
structure Function where
  Name : GoString
  Doc : GoString
  Returns : FunctionReturns
  Args : List FunctionArg
  deriving DecidableEq, Repr

/-- Type `StructMember` (field `Type` is spelled `Typ`). -/
structure StructMember where
  Name : GoString
  Typ : GoString
  Pointer : PointerType
  Optional : Bool
  Doc : GoString
  deriving DecidableEq, Repr

/-- Type `Struct` (field `Type`, the structural kind, is spelled `Typ`). -/
structure Struct where
  Name : GoString
  Typ : GoString
  Doc : GoString
  Members : List StructMember
  deriving DecidableEq, Repr

/-- Type `Object`. -/
structure Object where
  Name : GoString
  Doc : GoString
  Methods : List Function
  deriving DecidableEq, Repr

/-- Type `Yml`, the schema. -/
structure Yml where
  Copyright : GoString
  Basetypes : List GoString
  Global : Global
  Enums : List Enum
  Callbacks : List Function
  Structs : List Struct
  Objects : List Object
  deriving DecidableEq, Repr

/-! ## Naming transformer (`main.go`) -/

/-- The loop shared by `PascalCase` and `CamelCase`, which differ only in the
initial value of the flag `capitalise`: a byte read while the flag is set is
written upper-cased and clears the flag; otherwise an underscore sets the flag
and is not written, and any other byte is written as the rune of that byte. -/
def caseLoop : Bool → GoString → GoString
  | _, [] => []
  | true, c :: s => appendRune (unicodeToUpper c) ++ caseLoop false s
  | false, c :: s =>
    if c = 0x5F then caseLoop true s else appendRune c ++ caseLoop false s

/-- Function `PascalCase`. -/
def PascalCase (s : GoString) : GoString := caseLoop true s

/-- Function `CamelCase`. -/
def CamelCase (s : GoString) : GoString := caseLoop false s

/-- Function `ConstantCase`. -/
def ConstantCase (rt : GoRuntime) (v : GoString) : GoString := stringsToUpper rt v

/-! ## Type mapper (`main.go`) -/

/-- Function `CValue`. -/
def CValue (s : GoString) : GoString :=
  if s = str "usize_max" then str "SIZE_MAX"
  else if s = str "uint32_max" then str "0xffffffffUL"
  else if s = str "uint64_max" then str "0xffffffffffffffffULL"
  else s

/-- The closure `appendModifiers` of `CType`. -/
def appendModifiers (s : GoString) (pointerType : PointerType) : GoString :=
  if pointerType = PointerTypeImmutable then s ++ str " const *"
  else if pointerType = PointerTypeMutable then s ++ str " *"
  else s

/-- Function `CType`; `none` is the `panic("TODO: " + typ)`. -/
def CType (typ : GoString) (pointerType : PointerType) : Option GoString :=
  if typ = str "bool" then some (appendModifiers (str "WGPUBool") pointerType)
  else if typ = str "string" then some (appendModifiers (str "char") PointerTypeImmutable)
  else if typ = str "uint16" then some (appendModifiers (str "uint16_t") pointerType)
  else if typ = str "uint32" then some (appendModifiers (str "uint32_t") pointerType)
  else if typ = str "uint64" then some (appendModifiers (str "uint64_t") pointerType)
  else if typ = str "usize" then some (appendModifiers (str "size_t") pointerType)
  else if typ = str "int16" then some (appendModifiers (str "int16_t") pointerType)
  else if typ = str "int32" then some (appendModifiers (str "int32_t") pointerType)
  else if typ = str "float32" then some (appendModifiers (str "float") pointerType)
  else if typ = str "float64" then some (appendModifiers (str "double") pointerType)
  else if typ = str "c_void" then some (appendModifiers (str "void") pointerType)
  else if HasPrefix typ (str "enum.") then
    some (appendModifiers (str "WGPU" ++ PascalCase (TrimPrefix typ (str "enum."))) pointerType)
  else if HasPrefix typ (str "struct.") then
    some (appendModifiers (str "WGPU" ++ PascalCase (TrimPrefix typ (str "struct."))) pointerType)
  else if HasPrefix typ (str "callback.") then
    some (appendModifiers (str "WGPU" ++ PascalCase (TrimPrefix typ (str "callback."))) pointerType)
  else if HasPrefix typ (str "object.") then
    some (appendModifiers (str "WGPU" ++ PascalCase (TrimPrefix typ (str "object."))) pointerType)
  else none

/-! ## Comment formatter (`main.go`) -/

/-- The six ASCII bytes for which `unicode.IsSpace` holds (the table
`asciiSpace` of package `strings`). -/
def asciiSpace (c : Nat) : Bool :=
  c = 9 || c = 10 || c = 11 || c = 12 || c = 13 || c = 32

/-- The UTF-8 encodings of the other runes for which `unicode.IsSpace` holds:
U+0085, U+00A0, U+1680, U+2000..U+200A, U+2028, U+2029, U+202F, U+205F and
U+3000. -/
def unicodeSpaces : List GoString :=
  [[0xC2, 0x85], [0xC2, 0xA0], [0xE1, 0x9A, 0x80],
   [0xE2, 0x80, 0x80], [0xE2, 0x80, 0x81], [0xE2, 0x80, 0x82], [0xE2, 0x80, 0x83],
   [0xE2, 0x80, 0x84], [0xE2, 0x80, 0x85], [0xE2, 0x80, 0x86], [0xE2, 0x80, 0x87],
   [0xE2, 0x80, 0x88], [0xE2, 0x80, 0x89], [0xE2, 0x80, 0x8A],
   [0xE2, 0x80, 0xA8], [0xE2, 0x80, 0xA9], [0xE2, 0x80, 0xAF],
   [0xE2, 0x81, 0x9F], [0xE3, 0x80, 0x80]]

/-- The number of bytes of the white-space rune that `s` starts with, given
the encodings `encs` of the non-ASCII ones; `0` when `s` starts with none. -/
def spaceWidth (encs : List GoString) (s : GoString) : Nat :=
  match s with
  | [] => 0
  | c :: _ =>
    if asciiSpace c then 1
    else match encs.find? (fun e => HasPrefix s e) with
      | some e => e.length
      | none => 0

/-- Drops leading white-space runes, at most `n` of them. -/
def trimSpaces (encs : List GoString) : Nat → GoString → GoString
  | 0, s => s
  | n + 1, s =>
    if spaceWidth encs s = 0 then s else trimSpaces encs n (s.drop (spaceWidth encs s))

/-- Go `strings.TrimSpace`: the string without its leading and trailing
white-space runes. A rune decoded at the front (`utf8.DecodeRuneInString`) or
at the back (`utf8.DecodeLastRuneInString`) is white space exactly when the
string starts, respectively ends, with the encoding of a white-space rune; a
string of `n` bytes holds at most `n` runes. -/
def TrimSpace (s : GoString) : GoString :=
  let l := trimSpaces unicodeSpaces s.length s
  (trimSpaces (unicodeSpaces.map List.reverse) l.length l.reverse).reverse

/-- The lines that `bufio.ScanLines` cuts the text into, before the carriage
return is dropped: the text is cut at each newline, and no line is reported
for the empty end of the text after the last newline. -/
def scanLines : GoString → List GoString
  | [] => []
  | c :: s =>
    if c = 10 then [] :: scanLines s
    else match scanLines s with
      | [] => [[c]]
      | l :: ls => (c :: l) :: ls

/-- The function `dropCR` of package `bufio`: drops one final carriage return. -/
def dropCR (data : GoString) : GoString :=
  if data.getLast? = some 13 then data.dropLast else data

/-- Constant `bufio.MaxScanTokenSize`, the size the buffer of a `bufio.Scanner`
grows to: a line that fills it without its newline is `bufio.ErrTooLong`. -/
def MaxScanTokenSize : Nat := 64 * 1024

/-- Function `MultilineComment`; `none` is the `panic(err)` on the error of the
scanner. A negative `indent` writes no space. -/
def MultilineComment (text : GoString) (indent : Int) : Option GoString :=
  let space := List.replicate indent.toNat 32
  let lines := scanLines (TrimSpace text)
  if lines.any (fun line => decide (MaxScanTokenSize ≤ line.length)) then none
  else some (space ++ str "/**\n"
    ++ (lines.map (fun line => space ++ str " * " ++ dropCR line ++ str "\n")).flatten
    ++ space ++ str " */")

/-! ## Library functions used by the emitters (`header.go`) -/

/-- Go `slices.SortStableFunc`: a stable sort by `cmp`. It is modelled by the
stable insertion sort, an element being placed before the first element of the
sorted rest that it does not exceed. -/
def insertStable {α : Type} (cmp : α → α → Int) (a : α) : List α → List α
  | [] => [a]
  | b :: l => if cmp a b ≤ 0 then a :: b :: l else b :: insertStable cmp a l

/-- Go `slices.SortStableFunc` applied to a clone of the list. -/
def sortStableFunc {α : Type} (cmp : α → α → Int) : List α → List α
  | [] => []
  | a :: l => insertStable cmp a (sortStableFunc cmp l)

/-- Go `strconv.ParseUint(s, 10, 64)` on a non-empty or empty `s`: a syntax
error unless `s` is a non-empty run of decimal digits, a range error unless
the value is below `2^64`; `none` is the error. -/
def parseUint (s : GoString) : Option Nat :=
  if s = [] then none
  else if s.all (fun c => decide (48 ≤ c ∧ c ≤ 57)) then
    (if s.foldl (fun acc c => 10 * acc + (c - 48)) 0 < 2 ^ 64 then
      some (s.foldl (fun acc c => 10 * acc + (c - 48)) 0)
    else none)
  else none

/-- One upper-case hexadecimal digit. -/
def hexDigit (d : Nat) : Nat := if d < 10 then 48 + d else 55 + d

/-- The upper-case hexadecimal digits of `v`, most significant first. -/
def hexDigits : Nat → Nat → GoString → GoString
  | 0, _, acc => acc
  | fuel + 1, v, acc =>
    if v < 16 then hexDigit v :: acc
    else hexDigits fuel (v / 16) (hexDigit (v % 16) :: acc)

/-- The verb `%.8X` of package `fmt` on a non-negative integer: upper-case
hexadecimal, padded with zeros on the left to eight digits. -/
def formatHex8 (v : Nat) : GoString :=
  let ds := hexDigits (v + 1) v []
  List.replicate (8 - ds.length) 48 ++ ds

/-- The text appended by a loop whose body appends `f a` for each `a` of the
list in turn; the loop aborts when the body does. -/
def emitAll {α : Type} (f : α → Option GoString) : List α → Option GoString
  | [] => some []
  | a :: l =>
    match f a, emitAll f l with
    | some x, some y => some (x ++ y)
    | _, _ => none

/-- The lines `if docsEnabled { fmt.Fprintln(w, MultilineComment(doc, indent)) }`. -/
def writeDoc (doc : GoString) (indent : Int) : Option GoString :=
  if docsEnabled then
    match MultilineComment doc indent with
    | some c => some (c ++ str "\n")
    | none => none
  else some []

/-- The comparison function of every `slices.SortStableFunc` call of
`header.go`, on the names of the two entities. -/
def compareNames (a b : GoString) : Int :=
  stringsCompare (PascalCase a) (PascalCase b)

/-! ## Declaration emitters (`header.go`) -/

/-- Function `writePreamble`. -/
def writePreamble (yml : Yml) : Option GoString :=
  match MultilineComment yml.Copyright 0 with
  | none => none
  | some c => some (c ++ str "\n" ++ str "\n#ifndef WEBGPU_H_\n#define WEBGPU_H_\n\n#if defined(WGPU_SHARED_LIBRARY)\n#    if defined(_WIN32)\n#        if defined(WGPU_IMPLEMENTATION)\n#            define WGPU_EXPORT __declspec(dllexport)\n#        else\n#            define WGPU_EXPORT __declspec(dllimport)\n#        endif\n#    else  // defined(_WIN32)\n#        if defined(WGPU_IMPLEMENTATION)\n#            define WGPU_EXPORT __attribute__((visibility(\"default\")))\n#        else\n#            define WGPU_EXPORT\n#        endif\n#    endif  // defined(_WIN32)\n#else       // defined(WGPU_SHARED_LIBRARY)\n#    define WGPU_EXPORT\n#endif  // defined(WGPU_SHARED_LIBRARY)\n\n#if !defined(WGPU_OBJECT_ATTRIBUTE)\n#define WGPU_OBJECT_ATTRIBUTE\n#endif\n#if !defined(WGPU_ENUM_ATTRIBUTE)\n#define WGPU_ENUM_ATTRIBUTE\n#endif\n#if !defined(WGPU_STRUCTURE_ATTRIBUTE)\n#define WGPU_STRUCTURE_ATTRIBUTE\n#endif\n#if !defined(WGPU_FUNCTION_ATTRIBUTE)\n#define WGPU_FUNCTION_ATTRIBUTE\n#endif\n#if !defined(WGPU_NULLABLE)\n#define WGPU_NULLABLE\n#endif\n\n#include <stdint.h>\n#include <stddef.h>\n\n")

/-- The objects of `writeForwardDecls` and `writeProcs` after the sort. -/
def sortedObjects (yml : Yml) : List Object :=
  sortStableFunc (fun a b => compareNames a.Name b.Name) yml.Objects

/-- The structs of `writeForwardDecls` and `writeStructs` after the sort. -/
def sortedStructs (yml : Yml) : List Struct :=
  sortStableFunc (fun a b => compareNames a.Name b.Name) yml.Structs

/-- The enums of `writeEnums` after the sort. -/
def sortedEnums (yml : Yml) : List Enum :=
  sortStableFunc (fun a b => compareNames a.Name b.Name) yml.Enums

/-- The callbacks of `writeCallback` after the sort. -/
def sortedCallbacks (yml : Yml) : List Function :=
  sortStableFunc (fun a b => compareNames a.Name b.Name) yml.Callbacks

/-- Function `writeForwardDecls`. -/
def writeForwardDecls (yml : Yml) : Option GoString :=
  some (((sortedObjects yml).map (fun obj =>
      str "typedef struct WGPU" ++ PascalCase obj.Name ++ str "Impl* WGPU"
        ++ PascalCase obj.Name ++ str " WGPU_OBJECT_ATTRIBUTE;\n")).flatten
    ++ str "\n"
    ++ ((sortedStructs yml).map (fun s =>
      str "struct WGPU" ++ PascalCase s.Name ++ str ";\n")).flatten
    ++ str "\n")

/-- Function `writeConstants`. -/
def writeConstants (rt : GoRuntime) (yml : Yml) : Option GoString :=
  emitAll (fun constant =>
    match writeDoc constant.Doc 0 with
    | none => none
    | some d => some (d ++ str "#define WGPU_" ++ ConstantCase rt constant.Name ++ str " ("
        ++ CValue constant.Value ++ str ")\n")) yml.Global.Constants

/-- Function `writeTypeAliases`. -/
def writeTypeAliases (_yml : Yml) : Option GoString :=
  some (str "\ntypedef uint32_t WGPUFlags;\ntypedef uint32_t WGPUBool;\n\n")

/-- The value `uint64(math.Pow(2, float64(entryIndex-1)))` of `writeEnums`:
`2^-1 = 0.5` truncates to `0`, the powers up to `2^63` are exact, and beyond
them the conversion is the one of the runtime. -/
def bitmaskValue (rt : GoRuntime) (entryIndex : Nat) : Nat :=
  if entryIndex = 0 then 0
  else if entryIndex ≤ 64 then 2 ^ (entryIndex - 1)
  else rt.Pow2ToUint64 (entryIndex - 1) % 2 ^ 64

/-- The body of the loop over the entries of an enum in `writeEnums`, the same
in both passes but for `implicit`, the value of an entry that states none. -/
def writeEnumEntry (enumName : GoString) (implicit : Nat) (entry : EnumEntries) :
    Option GoString :=
  match writeDoc entry.Doc 4 with
  | none => none
  | some d =>
    if entry.Value ≠ [] then
      match parseUint entry.Value with
      | none => none
      | some v => some (d ++ str "    WGPU" ++ enumName ++ str "_" ++ PascalCase entry.Name
          ++ str " = 0x" ++ formatHex8 v ++ str ",\n")
    else some (d ++ str "    WGPU" ++ enumName ++ str "_" ++ PascalCase entry.Name
          ++ str " = 0x" ++ formatHex8 implicit ++ str ",\n")

/-- The body of the first loop of `writeEnums`, run on the enums that are
not bitmasks. -/
def writeEnum (enum : Enum) : Option GoString :=
  match writeDoc enum.Doc 0,
    emitAll (fun p => writeEnumEntry (PascalCase enum.Name) p.1 p.2) enum.Entries.enum with
  | some d, some es => some (d ++ str "typedef enum WGPU" ++ PascalCase enum.Name ++ str " \x7b\n"
      ++ es ++ str "    WGPU" ++ PascalCase enum.Name ++ str "_Force32 = 0x7FFFFFFF\n"
      ++ str "\x7d WGPU" ++ PascalCase enum.Name ++ str " WGPU_ENUM_ATTRIBUTE;\n\n")
  | _, _ => none

/-- The body of the second loop of `writeEnums`, run on the bitmask enums. -/
def writeBitmaskEnum (rt : GoRuntime) (enum : Enum) : Option GoString :=
  match writeDoc enum.Doc 0,
    emitAll (fun p => writeEnumEntry (PascalCase enum.Name) (bitmaskValue rt p.1) p.2)
      enum.Entries.enum with
  | some d, some es => some (d ++ str "typedef enum WGPU" ++ PascalCase enum.Name ++ str " \x7b\n"
      ++ es ++ str "    WGPU" ++ PascalCase enum.Name ++ str "_Force32 = 0x7FFFFFFF\n"
      ++ str "\x7d WGPU" ++ PascalCase enum.Name ++ str " WGPU_ENUM_ATTRIBUTE;\n"
      ++ str "typedef WGPUFlags WGPU" ++ PascalCase enum.Name ++ str "Flags WGPU_ENUM_ATTRIBUTE;\n\n")
  | _, _ => none

/-- The enums that the first loop of `writeEnums` does not skip, in the order
it meets them. -/
def plainEnums (yml : Yml) : List Enum :=
  (sortedEnums yml).filter (fun enum => !enum.Bitmask)

/-- The enums that the second loop of `writeEnums` does not skip, in the order
it meets them. -/
def bitmaskEnums (yml : Yml) : List Enum :=
  (sortedEnums yml).filter (fun enum => enum.Bitmask)

/-- Function `writeEnums`. -/
def writeEnums (rt : GoRuntime) (yml : Yml) : Option GoString :=
  match emitAll writeEnum (plainEnums yml), emitAll (writeBitmaskEnum rt) (bitmaskEnums yml) with
  | some a, some b => some (a ++ b)
  | _, _ => none

/-- The enum type names in the order `writeEnums` emits their typedefs. -/
def emittedEnumNames (yml : Yml) : List GoString :=
  (plainEnums yml).map (fun enum => PascalCase enum.Name)
    ++ (bitmaskEnums yml).map (fun enum => PascalCase enum.Name)

/-- The loop over the arguments of a callback or of a method: the list `args`
it appends to. -/
def writeArgs : List FunctionArg → Option (List GoString)
  | [] => some []
  | arg :: rest =>
    match CType arg.Typ arg.Pointer, writeArgs rest with
    | some t, some vs =>
      some (((if arg.Optional then str "WGPU_NULLABLE " else []) ++ t ++ str " "
        ++ CamelCase arg.Name) :: vs)
    | _, _ => none

/-- The body of the loop of `writeCallback`. -/
def writeCallbackOne (cb : Function) : Option GoString :=
  match writeDoc cb.Doc 0 with
  | none => none
  | some d =>
    if cb.Returns.Typ = str "c_void" then
      match writeArgs cb.Args with
      | none => none
      | some args =>
        if args.length = 0 then
          some (d ++ str "typedef " ++ str "void" ++ str " (*WGPU" ++ PascalCase cb.Name
            ++ str ")(void) WGPU_FUNCTION_ATTRIBUTE;\n")
        else
          some (d ++ str "typedef " ++ str "void" ++ str " (*WGPU" ++ PascalCase cb.Name
            ++ str ")(" ++ stringsJoin args (str ", ") ++ str ") WGPU_FUNCTION_ATTRIBUTE;\n")
    else none

/-- Function `writeCallback`. -/
def writeCallback (yml : Yml) : Option GoString :=
  emitAll writeCallbackOne (sortedCallbacks yml)

/-- The test of the first loop of `writeStructs`, which skips a struct having
a member whose type starts with `struct.`. -/
def hasStructMember (s : Struct) : Bool :=
  s.Members.any (fun m => HasPrefix m.Typ (str "struct."))

/-- The `switch s.Type` of `writeStructs`: the line of the leading field of
each kind; `none` is the `log.Panic("TODO")`. -/
def writeStructKind (kind : GoString) : Option GoString :=
  if kind = str "standalone" then some []
  else if kind = str "base_in" then some (str "    WGPUChainedStruct const * nextInChain;" ++ str "\n")
  else if kind = str "extension_in" then some (str "    WGPUChainedStruct chain;" ++ str "\n")
  else if kind = str "base_out" then some (str "    WGPUChainedStructOut * nextInChain;" ++ str "\n")
  else if kind = str "extension_out" then some (str "    WGPUChainedStructOut chain;" ++ str "\n")
  else none

/-- The body of the loop over the members of a struct in `writeStructs`. -/
def writeStructMember (member : StructMember) : Option GoString :=
  match writeDoc member.Doc 4, CType member.Typ member.Pointer with
  | some d, some t =>
    if member.Optional then
      some (d ++ str "    WGPU_NULLABLE " ++ t ++ str " " ++ CamelCase member.Name ++ str ";\n")
    else
      some (d ++ str "    " ++ t ++ str " " ++ CamelCase member.Name ++ str ";\n")
  | _, _ => none

/-- The body of the first loop of `writeStructs` after the test that skips:
the typedef block of one struct. -/
def writeStruct (s : Struct) : Option GoString :=
  match writeDoc s.Doc 0, writeStructKind s.Typ, emitAll writeStructMember s.Members with
  | some d, some k, some ms =>
    some (d ++ str "typedef struct WGPU" ++ PascalCase s.Name ++ str " \x7b\n" ++ k ++ ms
      ++ str "\x7d WGPU" ++ PascalCase s.Name ++ str " WGPU_STRUCTURE_ATTRIBUTE;\n\n")
  | _, _, _ => none

/-- The structs that the first loop of `writeStructs` writes, in its order. -/
def pass1Structs (yml : Yml) : List Struct :=
  (sortedStructs yml).filter (fun s => !hasStructMember s)

/-- The slice `skippedStructs` of `writeStructs` after the first loop: the
structs that the second loop writes, in its order. -/
def skippedStructs (yml : Yml) : List Struct :=
  (sortedStructs yml).filter (fun s => hasStructMember s)

/-- The body of the second loop of `writeStructs`, over `skippedStructs`,
with its own `switch s.Type` and its own loop over the members. -/
def writeSkippedStruct (s : Struct) : Option GoString :=
  match writeDoc s.Doc 0,
    (if s.Typ = str "standalone" then some []
      else if s.Typ = str "base_in" then
        some (str "    WGPUChainedStruct const * nextInChain;" ++ str "\n")
      else if s.Typ = str "extension_in" then some (str "    WGPUChainedStruct chain;" ++ str "\n")
      else if s.Typ = str "base_out" then
        some (str "    WGPUChainedStructOut * nextInChain;" ++ str "\n")
      else if s.Typ = str "extension_out" then
        some (str "    WGPUChainedStructOut chain;" ++ str "\n")
      else none),
    emitAll (fun member =>
      match writeDoc member.Doc 4, CType member.Typ member.Pointer with
      | some d, some t =>
        if member.Optional then
          some (d ++ str "    WGPU_NULLABLE " ++ t ++ str " " ++ CamelCase member.Name ++ str ";\n")
        else
          some (d ++ str "    " ++ t ++ str " " ++ CamelCase member.Name ++ str ";\n")
      | _, _ => none) s.Members with
  | some d, some k, some ms =>
    some (d ++ str "typedef struct WGPU" ++ PascalCase s.Name ++ str " \x7b\n" ++ k ++ ms
      ++ str "\x7d WGPU" ++ PascalCase s.Name ++ str " WGPU_STRUCTURE_ATTRIBUTE;\n\n")
  | _, _, _ => none

/-- Function `writeStructs`. -/
def writeStructs (yml : Yml) : Option GoString :=
  match emitAll writeStruct (pass1Structs yml), emitAll writeSkippedStruct (skippedStructs yml) with
  | some a, some b =>
    some (str "\ntypedef struct WGPUChainedStruct \x7b\n    struct WGPUChainedStruct const * next;\n    WGPUSType sType;\n\x7d WGPUChainedStruct WGPU_STRUCTURE_ATTRIBUTE;\n\ntypedef struct WGPUChainedStructOut \x7b\n    struct WGPUChainedStructOut * next;\n    WGPUSType sType;\n\x7d WGPUChainedStructOut WGPU_STRUCTURE_ATTRIBUTE;\n\n"
      ++ a ++ b)
  | _, _ => none

/-- The two functions that `writeProcs` appends to the methods of every
object. -/
def syntheticMethods : List Function :=
  [ { Name := str "reference", Doc := [],
      Returns := { Doc := [], Typ := str "c_void", Pointer := [] }, Args := [] },
    { Name := str "release", Doc := [],
      Returns := { Doc := [], Typ := str "c_void", Pointer := [] }, Args := [] } ]

/-- The slice `methods` of `writeProcs` for one object: the declared methods,
sorted, and the two synthetic ones appended to them. -/
def procMethods (o : Object) : List Function :=
  sortStableFunc (fun a b => compareNames a.Name b.Name) o.Methods ++ syntheticMethods

/-- The method names of one object in the order `writeProcs` emits them. -/
def emittedMethodNames (o : Object) : List GoString :=
  (procMethods o).map (fun method => PascalCase method.Name)

/-- The return type and the parameter list of one method of `o`: the values
of `returnType` and of `strings.Join(args, ", ")` in the loops over the methods
in `writeProcs`. -/
def writeSignature (o : Object) (method : Function) : Option (GoString × GoString) :=
  match CType method.Returns.Typ method.Returns.Pointer, writeArgs method.Args with
  | some returnType, some args =>
    some (returnType,
      stringsJoin ((str "WGPU" ++ PascalCase o.Name ++ str " " ++ CamelCase o.Name) :: args)
        (str ", "))
  | _, _ => none

/-- The body of the loop over the methods in the first half of `writeProcs`:
the typedef of a function pointer. -/
def writeProcTypedef (o : Object) (method : Function) : Option GoString :=
  match CType method.Returns.Typ method.Returns.Pointer, writeArgs method.Args with
  | some returnType, some args =>
    some (str "typedef " ++ returnType ++ str " (*WGPUProc" ++ PascalCase o.Name
      ++ PascalCase method.Name ++ str ")("
      ++ stringsJoin ((str "WGPU" ++ PascalCase o.Name ++ str " " ++ CamelCase o.Name) :: args)
          (str ", ")
      ++ str ") WGPU_FUNCTION_ATTRIBUTE;\n")
  | _, _ => none

/-- The body of the loop over the methods in the second half of `writeProcs`:
the declaration of an exported function. -/
def writeProcDecl (o : Object) (method : Function) : Option GoString :=
  match CType method.Returns.Typ method.Returns.Pointer, writeArgs method.Args with
  | some returnType, some args =>
    some (str "WGPU_EXPORT " ++ returnType ++ str " wgpu" ++ PascalCase o.Name
      ++ PascalCase method.Name ++ str "("
      ++ stringsJoin ((str "WGPU" ++ PascalCase o.Name ++ str " " ++ CamelCase o.Name) :: args)
          (str ", ")
      ++ str ") WGPU_FUNCTION_ATTRIBUTE;\n")
  | _, _ => none

/-- The body of the first loop over the objects in `writeProcs`. -/
def writeObjectProcs (o : Object) : Option GoString :=
  match emitAll (writeProcTypedef o) (procMethods o) with
  | none => none
  | some ms => some (str "\n" ++ str "// Procs of " ++ PascalCase o.Name ++ str "\n" ++ ms)

/-- The body of the second loop over the objects in `writeProcs`. -/
def writeObjectMethods (o : Object) : Option GoString :=
  match emitAll (writeProcDecl o) (procMethods o) with
  | none => none
  | some ms => some (str "\n" ++ str "// Methods of " ++ PascalCase o.Name ++ str "\n" ++ ms)

/-- Function `writeProcs`. -/
def writeProcs (yml : Yml) : Option GoString :=
  match emitAll writeObjectProcs (sortedObjects yml),
    emitAll writeObjectMethods (sortedObjects yml) with
  | some a, some b =>
    some (str "\n#ifdef __cplusplus\nextern \"C\" \x7b\n#endif\n\n#if !defined(WGPU_SKIP_PROCS)\n"
      ++ a
      ++ str "\n#endif  // !defined(WGPU_SKIP_PROCS)\n\n#if !defined(WGPU_SKIP_DECLARATIONS)\n\n"
      ++ b
      ++ str "\n#endif  // !defined(WGPU_SKIP_DECLARATIONS)\n\n#ifdef __cplusplus\n\x7d // extern \"C\"\n#endif\n\n")
  | _, _ => none

/-- Function `writeFooter`. -/
def writeFooter (_yml : Yml) : Option GoString :=
  some (str "#endif // WEBGPU_H_\n")

/-- The text of two successive writes, when neither aborts. -/
def andThen (a b : Option GoString) : Option GoString :=
  match a, b with
  | some x, some y => some (x ++ y)
  | _, _ => none

/-- Function `writeHeader`. -/
def writeHeader (rt : GoRuntime) (yml : Yml) : Option GoString :=
  andThen (writePreamble yml)
    (andThen (writeConstants rt yml)
      (andThen (writeTypeAliases yml)
        (andThen (writeForwardDecls yml)
          (andThen (writeEnums rt yml)
            (andThen (writeCallback yml)
              (andThen (writeStructs yml)
                (andThen (writeProcs yml) (writeFooter yml))))))))

/-! ## Vocabulary of the statements, and the schemas of the examples -/

/-- An ASCII letter or digit. -/
def isAlnum (c : Nat) : Prop :=
  (48 ≤ c ∧ c ≤ 57) ∨ (65 ≤ c ∧ c ≤ 90) ∨ (97 ≤ c ∧ c ≤ 122)

instance (c : Nat) : Decidable (isAlnum c) := by
  unfold isAlnum
  infer_instance

/-- A lower-case ASCII letter, a digit or the underscore. -/
def isLowerDigitUnderscore (c : Nat) : Prop :=
  (97 ≤ c ∧ c ≤ 122) ∨ (48 ≤ c ∧ c ≤ 57) ∨ c = 0x5F

instance (c : Nat) : Decidable (isLowerDigitUnderscore c) := by
  unfold isLowerDigitUnderscore
  infer_instance

/-- An ASCII character with its lower-case letter made upper-case. -/
def asciiUpper (c : Nat) : Nat := if 97 ≤ c ∧ c ≤ 122 then c - 32 else c

/-- A word with its first character upper-cased and the others unchanged. -/
def upperFirst : GoString → GoString
  | [] => []
  | c :: w => asciiUpper c :: w

/-- Whether two underscores stand next to each other somewhere in the string. -/
def hasAdjacentUnderscores : GoString → Bool
  | [] => false
  | a :: s => (decide (a = 0x5F) && decide (s.head? = some 0x5F)) || hasAdjacentUnderscores s

/-- The primitive type tokens of `CType`. -/
def primitiveTokens : List GoString :=
  [str "bool", str "string", str "uint16", str "uint32", str "uint64", str "usize",
   str "int16", str "int32", str "float32", str "float64", str "c_void"]

/-- A recognized type token: a primitive token, or a token that starts with
one of the prefixes `enum.`, `struct.`, `callback.`, `object.`. -/
def Recognized (t : GoString) : Prop :=
  t ∈ primitiveTokens ∨ HasPrefix t (str "enum.") = true ∨ HasPrefix t (str "struct.") = true
    ∨ HasPrefix t (str "callback.") = true ∨ HasPrefix t (str "object.") = true

instance (t : GoString) : Decidable (Recognized t) := by
  unfold Recognized
  infer_instance

/-- A list of names in non-decreasing byte-wise lexicographic order: no name
is followed, anywhere later in the list, by a name that `strings.Compare`
puts before it. -/
def NonDecreasing (names : List GoString) : Prop :=
  names.Pairwise (fun a b => stringsCompare a b ≤ 0)

instance (names : List GoString) : Decidable (NonDecreasing names) := by
  unfold NonDecreasing
  infer_instance

/-- A runtime for evaluating the examples: the two library functions it
stands for are not reached by them. -/
def exampleRuntime : GoRuntime := { MapToUpper := fun s => s, Pow2ToUint64 := fun _ => 0 }

/-- A schema with the non-bitmask enum `b` and the bitmask enum `a`. -/
def mixedEnumsSchema : Yml :=
  { Copyright := [], Basetypes := [], Global := { Constants := [] },
    Enums := [{ Name := str "b", Doc := [], Bitmask := false, Entries := [] },
              { Name := str "a", Doc := [], Bitmask := true, Entries := [] }],
    Callbacks := [], Structs := [], Objects := [] }

/-- A schema with the two non-bitmask enums `texture_format` and `address_mode`. -/
def plainEnumsSchema : Yml :=
  { Copyright := [], Basetypes := [], Global := { Constants := [] },
    Enums := [{ Name := str "texture_format", Doc := [], Bitmask := false, Entries := [] },
              { Name := str "address_mode", Doc := [], Bitmask := false, Entries := [] }],
    Callbacks := [], Structs := [], Objects := [] }

/-- An object with the single declared method `set_label`. -/
def labelledObject : Object :=
  { Name := str "buffer", Doc := [],
    Methods := [{ Name := str "set_label", Doc := [],
                  Returns := { Doc := [], Typ := str "c_void", Pointer := [] },
                  Args := [{ Name := str "label", Doc := [], Typ := str "string",
                             Pointer := [], Optional := false }] }] }

/-- A member that embeds a struct by value: its type is a struct type and it
has no pointer qualifier (neither `mutable` nor `immutable`). -/
def embedsStructByValue (m : StructMember) : Prop :=
  HasPrefix m.Typ (str "struct.") = true
    ∧ m.Pointer ≠ PointerTypeMutable ∧ m.Pointer ≠ PointerTypeImmutable

instance (m : StructMember) : Decidable (embedsStructByValue m) := by
  unfold embedsStructByValue
  infer_instance

/-- The struct `extent`, with one primitive member. -/
def extentStruct : Struct :=
  { Name := str "extent", Typ := str "standalone", Doc := [],
    Members := [{ Name := str "width", Typ := str "uint32", Pointer := [],
                  Optional := false, Doc := [] }] }

/-- The struct `copy_view`, which embeds the struct `extent` by value. -/
def copyViewStruct : Struct :=
  { Name := str "copy_view", Typ := str "standalone", Doc := [],
    Members := [{ Name := str "size", Typ := str "struct.extent", Pointer := [],
                  Optional := false, Doc := [] }] }

/-- The struct `chain_user`, whose only struct-typed member is a pointer. -/
def chainUserStruct : Struct :=
  { Name := str "chain_user", Typ := str "standalone", Doc := [],
    Members := [{ Name := str "next", Typ := str "struct.extent",
                  Pointer := PointerTypeImmutable, Optional := false, Doc := [] }] }

/-- A schema with the structs `copy_view` and `extent`, in this order. -/
def nestedStructsSchema : Yml :=
  { Copyright := [], Basetypes := [], Global := { Constants := [] }, Enums := [],
    Callbacks := [], Structs := [copyViewStruct, extentStruct], Objects := [] }

/-- A schema with the structs `chain_user` and `extent`. -/
def pointerStructsSchema : Yml :=
  { Copyright := [], Basetypes := [], Global := { Constants := [] }, Enums := [],
    Callbacks := [], Structs := [chainUserStruct, extentStruct], Objects := [] }

/-- A schema with a struct member, a callback argument, a method argument or a
method return whose type token is not recognized. -/
def HasUnrecognizedToken (yml : Yml) : Prop :=
  (∃ s ∈ yml.Structs, ∃ m ∈ s.Members, ¬ Recognized m.Typ)
  ∨ (∃ cb ∈ yml.Callbacks, ∃ arg ∈ cb.Args, ¬ Recognized arg.Typ)
  ∨ (∃ o ∈ yml.Objects, ∃ method ∈ o.Methods, ∃ arg ∈ method.Args, ¬ Recognized arg.Typ)
  ∨ (∃ o ∈ yml.Objects, ∃ method ∈ o.Methods, ¬ Recognized method.Returns.Typ)

instance (yml : Yml) : Decidable (HasUnrecognizedToken yml) := by
  unfold HasUnrecognizedToken
  infer_instance

/-- A schema whose only struct has a member of the unknown type `uint8`. -/
def unknownTokenSchema : Yml :=
  { Copyright := [], Basetypes := [], Global := { Constants := [] }, Enums := [],
    Callbacks := [],
    Structs := [{ Name := str "color", Typ := str "standalone", Doc := [],
                  Members := [{ Name := str "red", Typ := str "uint8", Pointer := [],
                                Optional := false, Doc := [] }] }],
    Objects := [] }

/-- The schema `b` is a reordering of the schema `a`: the lists of enums, of
callbacks, of structs and of objects of `b` are permutations of those of `a`,
and the rest of the schema is the same. -/
def Reordering (a b : Yml) : Prop :=
  b.Copyright = a.Copyright ∧ b.Basetypes = a.Basetypes ∧ b.Global = a.Global
    ∧ b.Enums.Perm a.Enums ∧ b.Callbacks.Perm a.Callbacks
    ∧ b.Structs.Perm a.Structs ∧ b.Objects.Perm a.Objects

instance (a b : Yml) : Decidable (Reordering a b) := by
  unfold Reordering
  infer_instance

/-- The entity names are unique within each category. -/
def UniqueNames (yml : Yml) : Prop :=
  (yml.Enums.map (fun e => e.Name)).Nodup ∧ (yml.Callbacks.map (fun c => c.Name)).Nodup
    ∧ (yml.Structs.map (fun s => s.Name)).Nodup ∧ (yml.Objects.map (fun o => o.Name)).Nodup

instance (yml : Yml) : Decidable (UniqueNames yml) := by
  unfold UniqueNames
  infer_instance

/-- The capitalized names, which are the sort keys, are unique within each
category. -/
def UniqueCapitalizedNames (yml : Yml) : Prop :=
  (yml.Enums.map (fun e => PascalCase e.Name)).Nodup
    ∧ (yml.Callbacks.map (fun c => PascalCase c.Name)).Nodup
    ∧ (yml.Structs.map (fun s => PascalCase s.Name)).Nodup
    ∧ (yml.Objects.map (fun o => PascalCase o.Name)).Nodup

instance (yml : Yml) : Decidable (UniqueCapitalizedNames yml) := by
  unfold UniqueCapitalizedNames
  infer_instance

/-- A schema with the enums `a1` and `a_1`, whose names differ and whose
capitalized names are both `A1`. -/
def collidingEnumsSchema : Yml :=
  { Copyright := [], Basetypes := [], Global := { Constants := [] },
    Enums := [{ Name := str "a1", Doc := [], Bitmask := false,
                Entries := [{ Name := str "x", Value := [], Doc := [] }] },
              { Name := str "a_1", Doc := [], Bitmask := false,
                Entries := [{ Name := str "y", Value := [], Doc := [] }] }],
    Callbacks := [], Structs := [], Objects := [] }

/-- The schema `collidingEnumsSchema` with its two enums in the other order. -/
def collidingEnumsSwapped : Yml :=
  { Copyright := [], Basetypes := [], Global := { Constants := [] },
    Enums := [{ Name := str "a_1", Doc := [], Bitmask := false,
                Entries := [{ Name := str "y", Value := [], Doc := [] }] },
              { Name := str "a1", Doc := [], Bitmask := false,
                Entries := [{ Name := str "x", Value := [], Doc := [] }] }],
    Callbacks := [], Structs := [], Objects := [] }

/-- The schema `nestedStructsSchema` with its two structs in the other order. -/
def nestedStructsSwapped : Yml :=
  { Copyright := [], Basetypes := [], Global := { Constants := [] }, Enums := [],
    Callbacks := [], Structs := [extentStruct, copyViewStruct], Objects := [] }

/-- A lower-case ASCII letter. -/
def isLower (c : Nat) : Prop := 97 ≤ c ∧ c ≤ 122

instance (c : Nat) : Decidable (isLower c) := by
  unfold isLower
  infer_instance

/-- A well-formed lower-case name: one or more non-empty words of lower-case
ASCII letters, joined by single underscores. -/
def IsLowerName (a : GoString) : Prop :=
  ∃ (w : GoString) (ws : List GoString),
    (∀ u ∈ w :: ws, u ≠ [] ∧ ∀ c ∈ u, isLower c) ∧ a = List.intercalate [0x5F] (w :: ws)

/-- The documentation text fits the scanner of `MultilineComment`: no line of
the trimmed text has `bufio.MaxScanTokenSize` bytes or more. -/
def DocFits (text : GoString) : Prop :=
  ∀ line ∈ scanLines (TrimSpace text), line.length < MaxScanTokenSize

instance (text : GoString) : Decidable (DocFits text) := by
  unfold DocFits
  infer_instance

/-- The block comment of a text at an indent: the indented `/**`, one line for
each line of the trimmed text, made of the indent, ` * ` and the line without
its carriage return, and the indented ` */`. -/
def commentBlock (text : GoString) (indent : Nat) : GoString :=
  List.replicate indent 32 ++ str "/**\n"
    ++ ((scanLines (TrimSpace text)).map (fun line =>
        List.replicate indent 32 ++ str " * " ++ dropCR line ++ str "\n")).flatten
    ++ List.replicate indent 32 ++ str " */"

/-- The white-space runes of `strings.TrimSpace`, as byte strings. -/
def whiteSpaceRunes : List GoString :=
  [[9], [10], [11], [12], [13], [32]] ++ unicodeSpaces

/-- A text made of white-space runes only (the empty text is one). -/
def IsWhitespaceOnly (text : GoString) : Prop :=
  ∃ runes : List GoString, (∀ r ∈ runes, r ∈ whiteSpaceRunes) ∧ text = runes.flatten

/-- A text of one line of `bufio.MaxScanTokenSize` letters `a`. -/
def longLine : GoString := List.replicate MaxScanTokenSize 97

/-- The line of a struct member whose type renders as `t`: four spaces,
`WGPU_NULLABLE ` exactly when the member is optional, the type, a space, the
name in camel case, a semicolon and the end of the line. -/
def memberLine (member : StructMember) (t : GoString) : GoString :=
  str "    " ++ (if member.Optional then str "WGPU_NULLABLE " else []) ++ t ++ str " "
    ++ CamelCase member.Name ++ str ";\n"

/-- The text of a struct member: its comment block and its line. -/
def renderMember (member : StructMember) : GoString :=
  commentBlock member.Doc 4 ++ str "\n"
    ++ memberLine member ((CType member.Typ member.Pointer).getD [])

/-- The typedef block of a struct whose leading field is the text `k`: the
comment block, the opening line, the leading field, the members in authored
order and the closing line. -/
def renderStruct (s : Struct) (k : GoString) : GoString :=
  commentBlock s.Doc 0 ++ str "\n" ++ str "typedef struct WGPU" ++ PascalCase s.Name
    ++ str " \x7b\n" ++ k ++ (s.Members.map renderMember).flatten
    ++ str "\x7d WGPU" ++ PascalCase s.Name ++ str " WGPU_STRUCTURE_ATTRIBUTE;\n\n"

/-- The five structural kinds. -/
def structKinds : List GoString :=
  [str "standalone", str "base_in", str "extension_in", str "base_out", str "extension_out"]

/-- A struct that `writeStructs` can write: its kind is one of the five, the
types of its members are recognized, and its documentation and the one of its
members fit the scanner. -/
def StructRenders (s : Struct) : Prop :=
  DocFits s.Doc ∧ s.Typ ∈ structKinds ∧ ∀ m ∈ s.Members, DocFits m.Doc ∧ Recognized m.Typ

instance (s : Struct) : Decidable (StructRenders s) := by
  unfold StructRenders
  infer_instance

/-- The text that `writeStructs` writes before the structs of the schema. -/
def chainedStructsText : GoString :=
  str "\ntypedef struct WGPUChainedStruct \x7b\n    struct WGPUChainedStruct const * next;\n    WGPUSType sType;\n\x7d WGPUChainedStruct WGPU_STRUCTURE_ATTRIBUTE;\n\ntypedef struct WGPUChainedStructOut \x7b\n    struct WGPUChainedStructOut * next;\n    WGPUSType sType;\n\x7d WGPUChainedStructOut WGPU_STRUCTURE_ATTRIBUTE;\n\n"

/-- A member of type `uint32` behind an immutable pointer, optional. -/
def optionalPointerMember : StructMember :=
  { Name := str "entry_count", Typ := str "uint32", Pointer := PointerTypeImmutable,
    Optional := true, Doc := [] }

/-- A member of type `string` with the mutable pointer qualifier, not
optional. -/
def mutableStringMember : StructMember :=
  { Name := str "label", Typ := str "string", Pointer := PointerTypeMutable,
    Optional := false, Doc := [] }

/-- A member of type `string` with the immutable pointer qualifier, optional. -/
def immutableStringMember : StructMember :=
  { Name := str "label", Typ := str "string", Pointer := PointerTypeImmutable,
    Optional := true, Doc := [] }

/-- A struct of the kind `base_in` with one member. -/
def baseInStruct : Struct :=
  { Name := str "buffer_descriptor", Typ := str "base_in", Doc := str "A buffer.",
    Members := [{ Name := str "size", Typ := str "uint64", Pointer := [],
                  Optional := false, Doc := [] }] }

/-- A struct of the unknown kind `extension`. -/
def unknownKindStruct : Struct :=
  { Name := str "limits", Typ := str "extension", Doc := [], Members := [] }

/-- A schema whose only struct has the unknown kind `extension`. -/
def unknownKindSchema : Yml :=
  { Copyright := [], Basetypes := [], Global := { Constants := [] }, Enums := [],
    Callbacks := [], Structs := [unknownKindStruct], Objects := [] }

/-- A standalone struct without members whose documentation is one line of
`bufio.MaxScanTokenSize` bytes. -/
def longDocStruct : Struct :=
  { Name := str "extent", Typ := str "standalone", Doc := longLine, Members := [] }

/-- A schema whose only struct is `longDocStruct`. -/
def longDocStructSchema : Yml :=
  { Copyright := [], Basetypes := [], Global := { Constants := [] }, Enums := [],
    Callbacks := [], Structs := [longDocStruct], Objects := [] }

/-- The typedef line of a method: return type `R`, object name `O`, method
name `M` and parameter list `A`. -/
def typedefLine (R O M A : GoString) : GoString :=
  str "typedef " ++ R ++ str " (*WGPUProc" ++ O ++ M ++ str ")(" ++ A
    ++ str ") WGPU_FUNCTION_ATTRIBUTE;\n"

/-- The declaration line of a method: return type `R`, object name `O`,
method name `M` and parameter list `A`. -/
def declLine (R O M A : GoString) : GoString :=
  str "WGPU_EXPORT " ++ R ++ str " wgpu" ++ O ++ M ++ str "(" ++ A
    ++ str ") WGPU_FUNCTION_ATTRIBUTE;\n"

/-- The handle parameter of the methods of an object: the handle type and the
name of the object in camel case. -/
def objectHandle (o : Object) : GoString :=
  str "WGPU" ++ PascalCase o.Name ++ str " " ++ CamelCase o.Name

/-- The text of one declared argument: `WGPU_NULLABLE ` when it is optional,
its type, a space and its name in camel case. -/
def argText (arg : FunctionArg) : GoString :=
  (if arg.Optional then str "WGPU_NULLABLE " else []) ++ (CType arg.Typ arg.Pointer).getD []
    ++ str " " ++ CamelCase arg.Name

/-- The parameter list of a method of `o`: the handle of the object, then the
declared arguments in authored order, joined by `, `. -/
def parameterList (o : Object) (method : Function) : GoString :=
  stringsJoin (objectHandle o :: method.Args.map argText) (str ", ")

/-- The return type of a method. -/
def returnTypeOf (method : Function) : GoString :=
  (CType method.Returns.Typ method.Returns.Pointer).getD []

/-- A method all of whose types are recognized. -/
def MethodRecognized (method : Function) : Prop :=
  Recognized method.Returns.Typ ∧ ∀ arg ∈ method.Args, Recognized arg.Typ

instance (method : Function) : Decidable (MethodRecognized method) := by
  unfold MethodRecognized
  infer_instance

/-- The text that `writeProcs` writes before the typedefs. -/
def procsHeaderText : GoString :=
  str "\n#ifdef __cplusplus\nextern \"C\" \x7b\n#endif\n\n#if !defined(WGPU_SKIP_PROCS)\n"

/-- The text that `writeProcs` writes between the typedefs and the
declarations. -/
def procsMiddleText : GoString :=
  str "\n#endif  // !defined(WGPU_SKIP_PROCS)\n\n#if !defined(WGPU_SKIP_DECLARATIONS)\n\n"

/-- The text that `writeProcs` writes after the declarations. -/
def procsFooterText : GoString :=
  str "\n#endif  // !defined(WGPU_SKIP_DECLARATIONS)\n\n#ifdef __cplusplus\n\x7d // extern \"C\"\n#endif\n\n"

/-- A schema whose only object is `labelledObject`. -/
def labelledObjectSchema : Yml :=
  { Copyright := [], Basetypes := [], Global := { Constants := [] }, Enums := [],
    Callbacks := [], Structs := [], Objects := [labelledObject] }

/-- The typedef lines of an object, in the order of `writeProcs`, after the
comment that names the object. -/
def objectProcsText (o : Object) : GoString :=
  str "\n" ++ str "// Procs of " ++ PascalCase o.Name ++ str "\n"
    ++ ((procMethods o).map (fun m =>
        typedefLine (returnTypeOf m) (PascalCase o.Name) (PascalCase m.Name)
          (parameterList o m))).flatten

/-- The declaration lines of an object, in the order of `writeProcs`, after
the comment that names the object. -/
def objectMethodsText (o : Object) : GoString :=
  str "\n" ++ str "// Methods of " ++ PascalCase o.Name ++ str "\n"
    ++ ((procMethods o).map (fun m =>
        declLine (returnTypeOf m) (PascalCase o.Name) (PascalCase m.Name)
          (parameterList o m))).flatten

/-- The number that a string of decimal digits denotes. -/
def decimalValue (s : GoString) : Nat := s.foldl (fun acc c => 10 * acc + (c - 48)) 0

/-- A well-formed unsigned base-10 integer literal representable in 64 bits:
a non-empty string of decimal digits whose value is below `2^64`. -/
def IsUint64Literal (s : GoString) : Prop :=
  s ≠ [] ∧ (∀ c ∈ s, 48 ≤ c ∧ c ≤ 57) ∧ decimalValue s < 2 ^ 64

instance (s : GoString) : Decidable (IsUint64Literal s) := by
  unfold IsUint64Literal
  infer_instance

/-- The line of an enum entry with the value `v`. -/
def entryLine (enumName : GoString) (entry : EnumEntries) (v : Nat) : GoString :=
  str "    WGPU" ++ enumName ++ str "_" ++ PascalCase entry.Name ++ str " = 0x" ++ formatHex8 v
    ++ str ",\n"

/-- The value of an enum entry: its explicit decimal value, or `implicit`
when it states none. -/
def entryValue (implicit : Nat) (entry : EnumEntries) : Nat :=
  if entry.Value = [] then implicit else decimalValue entry.Value

/-- An entry that `writeEnums` can write: its documentation fits the scanner
and its explicit value, if it has one, is a well-formed literal. -/
def EntryRenders (entry : EnumEntries) : Prop :=
  DocFits entry.Doc ∧ (entry.Value = [] ∨ IsUint64Literal entry.Value)

instance (entry : EnumEntries) : Decidable (EntryRenders entry) := by
  unfold EntryRenders
  infer_instance

/-- An enum that `writeEnums` can write. -/
def EnumRenders (enum : Enum) : Prop :=
  DocFits enum.Doc ∧ ∀ entry ∈ enum.Entries, EntryRenders entry

instance (enum : Enum) : Decidable (EnumRenders enum) := by
  unfold EnumRenders
  infer_instance

/-- The entries of an enum in authored order, each with its comment block and
its line; the entry at the 0-based position `i` that states no value has the
value `implicit i`. -/
def renderEntries (enumName : GoString) (implicit : Nat → Nat) (entries : List EnumEntries) :
    GoString :=
  (entries.enum.map (fun p =>
    commentBlock p.2.Doc 4 ++ str "\n"
      ++ entryLine enumName p.2 (entryValue (implicit p.1) p.2))).flatten

/-- The typedef block of an enum that is not a bitmask: an entry without a
value at position `i` has the value `i`, and the block ends with the entry
`Force32`. -/
def renderEnum (enum : Enum) : GoString :=
  commentBlock enum.Doc 0 ++ str "\n" ++ str "typedef enum WGPU" ++ PascalCase enum.Name
    ++ str " \x7b\n" ++ renderEntries (PascalCase enum.Name) (fun i => i) enum.Entries
    ++ str "    WGPU" ++ PascalCase enum.Name ++ str "_Force32 = 0x7FFFFFFF\n"
    ++ str "\x7d WGPU" ++ PascalCase enum.Name ++ str " WGPU_ENUM_ATTRIBUTE;\n\n"

/-- The typedef block of a bitmask enum, followed by the typedef of its flags
type. -/
def renderBitmaskEnum (rt : GoRuntime) (enum : Enum) : GoString :=
  commentBlock enum.Doc 0 ++ str "\n" ++ str "typedef enum WGPU" ++ PascalCase enum.Name
    ++ str " \x7b\n" ++ renderEntries (PascalCase enum.Name) (bitmaskValue rt) enum.Entries
    ++ str "    WGPU" ++ PascalCase enum.Name ++ str "_Force32 = 0x7FFFFFFF\n"
    ++ str "\x7d WGPU" ++ PascalCase enum.Name ++ str " WGPU_ENUM_ATTRIBUTE;\n"
    ++ str "typedef WGPUFlags WGPU" ++ PascalCase enum.Name ++ str "Flags WGPU_ENUM_ATTRIBUTE;\n\n"

/-- The enum `kind` with the entries `a`, `b`, `c` and no explicit value. -/
def abcEnum : Enum :=
  { Name := str "kind", Doc := [], Bitmask := false,
    Entries := [{ Name := str "a", Value := [], Doc := [] },
                { Name := str "b", Value := [], Doc := [] },
                { Name := str "c", Value := [], Doc := [] }] }

/-- The enum `mode` whose second entry has the explicit value `16`. -/
def explicitValueEnum : Enum :=
  { Name := str "mode", Doc := [], Bitmask := false,
    Entries := [{ Name := str "a", Value := [], Doc := [] },
                { Name := str "b", Value := str "16", Doc := [] },
                { Name := str "c", Value := [], Doc := [] }] }

/-- The bitmask enum `usage` with the entries `undefined`, `x`, `y` and no
explicit value. -/
def undefinedXYEnum : Enum :=
  { Name := str "usage", Doc := [], Bitmask := true,
    Entries := [{ Name := str "undefined", Value := [], Doc := [] },
                { Name := str "x", Value := [], Doc := [] },
                { Name := str "y", Value := [], Doc := [] }] }

/-- A bitmask enum with 66 entries and no explicit value. -/
def wideBitmaskEnum : Enum :=
  { Name := str "wide", Doc := [], Bitmask := true,
    Entries := List.replicate 66 { Name := str "bit", Value := [], Doc := [] } }

/-- An enum without entries whose documentation is one line of
`bufio.MaxScanTokenSize` bytes. -/
def longDocEnum : Enum :=
  { Name := str "kind", Doc := longLine, Bitmask := false, Entries := [] }

/-- A schema whose only enum is `longDocEnum`. -/
def longDocEnumSchema : Yml :=
  { Copyright := [], Basetypes := [], Global := { Constants := [] },
    Enums := [longDocEnum], Callbacks := [], Structs := [], Objects := [] }

/-- A schema whose only enum has an entry with the explicit value `0x10`. -/
def malformedValueSchema : Yml :=
  { Copyright := [], Basetypes := [], Global := { Constants := [] },
    Enums := [{ Name := str "kind", Doc := [], Bitmask := false,
                Entries := [{ Name := str "a", Value := str "0x10", Doc := [] }] }],
    Callbacks := [], Structs := [], Objects := [] }

/-! # Theorems -/

set_option maxRecDepth 1000000

/-! ## Lemmas on the naming transformer -/

theorem appendRune_ascii {c : Nat} (h : c < 0x80) : appendRune c = [c] := by
  simp [appendRune, h]

theorem unicodeToUpper_alnum {c : Nat} (h : isAlnum c) :
    unicodeToUpper c = asciiUpper c ∧ asciiUpper c < 0x80 := by
  unfold isAlnum at h
  unfold unicodeToUpper asciiUpper
  have h1 : c ≤ 0x7F := by omega
  simp only [h1, if_true]
  refine ⟨trivial, ?_⟩
  split <;> omega

theorem caseLoop_false_word (w rest : GoString) (hw : ∀ c ∈ w, isAlnum c) :
    caseLoop false (w ++ rest) = w ++ caseLoop false rest := by
  induction w with
  | nil => rfl
  | cons c w ih =>
    have hc : isAlnum c := hw c (List.mem_cons_self _ _)
    have hne : c ≠ 0x5F := by unfold isAlnum at hc; omega
    have hlt : c < 0x80 := by unfold isAlnum at hc; omega
    have ih2 := ih (fun d hd => hw d (List.mem_cons_of_mem _ hd))
    simp [caseLoop, hne, appendRune_ascii hlt, ih2]

theorem caseLoop_true_word (w rest : GoString) (hne : w ≠ []) (hw : ∀ c ∈ w, isAlnum c) :
    caseLoop true (w ++ rest) = upperFirst w ++ caseLoop false rest := by
  cases w with
  | nil => exact absurd rfl hne
  | cons c w =>
    have hc : isAlnum c := hw c (List.mem_cons_self _ _)
    obtain ⟨h1, h2⟩ := unicodeToUpper_alnum hc
    have ih2 := caseLoop_false_word w rest (fun d hd => hw d (List.mem_cons_of_mem _ hd))
    simp [caseLoop, upperFirst, h1, appendRune_ascii h2, ih2]

theorem caseLoop_false_sep (rest : GoString) :
    caseLoop false (0x5F :: rest) = caseLoop true rest := by
  simp [caseLoop]

theorem caseLoop_true_words (ws : List GoString) (hne : ws ≠ [])
    (hw : ∀ w ∈ ws, w ≠ [] ∧ ∀ c ∈ w, isAlnum c) :
    caseLoop true (List.intercalate [0x5F] ws) = (ws.map upperFirst).flatten := by
  induction ws with
  | nil => exact absurd rfl hne
  | cons w ws ih =>
    obtain ⟨hw1, hw2⟩ := hw w (List.mem_cons_self _ _)
    cases ws with
    | nil =>
      have := caseLoop_true_word w [] hw1 hw2
      simpa [List.intercalate, caseLoop] using this
    | cons v vs =>
      have ih2 := ih (by simp) (fun u hu => hw u (List.mem_cons_of_mem _ hu))
      have e : List.intercalate [0x5F] (w :: v :: vs)
          = w ++ 0x5F :: List.intercalate [0x5F] (v :: vs) := by
        simp [List.intercalate, List.intersperse]
      rw [e, caseLoop_true_word w _ hw1 hw2, caseLoop_false_sep, ih2]
      simp

theorem caseLoop_false_words (w : GoString) (ws : List GoString)
    (hw : ∀ u ∈ w :: ws, u ≠ [] ∧ ∀ c ∈ u, isAlnum c) :
    caseLoop false (List.intercalate [0x5F] (w :: ws)) = w ++ (ws.map upperFirst).flatten := by
  obtain ⟨_, hw2⟩ := hw w (List.mem_cons_self _ _)
  cases ws with
  | nil =>
    have := caseLoop_false_word w [] hw2
    simpa [List.intercalate, caseLoop] using this
  | cons v vs =>
    have e : List.intercalate [0x5F] (w :: v :: vs)
        = w ++ 0x5F :: List.intercalate [0x5F] (v :: vs) := by
      simp [List.intercalate, List.intersperse]
    rw [e, caseLoop_false_word w _ hw2, caseLoop_false_sep,
      caseLoop_true_words (v :: vs) (by simp) (fun u hu => hw u (List.mem_cons_of_mem _ hu))]

/-- C6. For an identifier made of one or more non-empty words of ASCII letters
and digits joined by single underscores, `PascalCase` is the concatenation of
the words, each with its first character upper-cased and the others unchanged,
and `CamelCase` is the same with the first word left as it is; the four
examples of the doc comments of the source hold. -/
theorem PascalCase_CamelCase_words :
    (∀ (w : GoString) (ws : List GoString),
      (∀ u ∈ w :: ws, u ≠ [] ∧ ∀ c ∈ u, isAlnum c) →
        PascalCase (List.intercalate [0x5F] (w :: ws)) = ((w :: ws).map upperFirst).flatten
        ∧ CamelCase (List.intercalate [0x5F] (w :: ws)) = w ++ (ws.map upperFirst).flatten)
    ∧ PascalCase (str "whole_map_size") = str "WholeMapSize"
    ∧ PascalCase (str "whole_map_SIZE") = str "WholeMapSIZE"
    ∧ CamelCase (str "whole_map_size") = str "wholeMapSize"
    ∧ CamelCase (str "whole_map_SIZE") = str "wholeMapSIZE" := by
  refine ⟨fun w ws hw => ⟨?_, ?_⟩, by decide, by decide, by decide, by decide⟩
  · exact caseLoop_true_words (w :: ws) (by simp) hw
  · exact caseLoop_false_words w ws hw

/-- Witness of C6 on the words `gpu`, `2d` and `TEXTURE`. -/
theorem PascalCase_CamelCase_words_witness :
    PascalCase (List.intercalate [0x5F] [str "gpu", str "2d", str "TEXTURE"])
        = ([str "gpu", str "2d", str "TEXTURE"].map upperFirst).flatten
      ∧ CamelCase (List.intercalate [0x5F] [str "gpu", str "2d", str "TEXTURE"])
        = str "gpu" ++ ([str "2d", str "TEXTURE"].map upperFirst).flatten :=
  PascalCase_CamelCase_words.1 (str "gpu") [str "2d", str "TEXTURE"] (by decide)

/-! ## Underscores in the naming transformer -/

theorem caseLoop_underscore (s : GoString) (hs : ∀ c ∈ s, isLowerDigitUnderscore c) :
    (0x5F ∈ caseLoop true s ↔ s.head? = some 0x5F ∨ hasAdjacentUnderscores s = true)
    ∧ (0x5F ∈ caseLoop false s ↔ hasAdjacentUnderscores s = true) := by
  induction s with
  | nil => simp [caseLoop, hasAdjacentUnderscores]
  | cons c s ih =>
    obtain ⟨ih1, ih2⟩ := ih (fun d hd => hs d (List.mem_cons_of_mem _ hd))
    have hc : isLowerDigitUnderscore c := hs c (List.mem_cons_self _ _)
    unfold isLowerDigitUnderscore at hc
    have hlt : c < 0x80 := by omega
    have hup : unicodeToUpper c < 0x80 ∧ (unicodeToUpper c = 0x5F ↔ c = 0x5F) := by
      unfold unicodeToUpper
      have h1 : c ≤ 0x7F := by omega
      simp only [h1, if_true]
      split <;> omega
    by_cases h5 : c = 0x5F
    · subst h5
      constructor
      · have e1 : unicodeToUpper 0x5F = 0x5F := hup.2.2 rfl
        have e2 : appendRune 0x5F = [0x5F] := by decide
        simp [caseLoop, e1, e2]
      · simp [caseLoop, hasAdjacentUnderscores, ih1]
    · have hup2 : ¬ (0x5F = unicodeToUpper c) := fun h => h5 (hup.2.1 h.symm)
      have h5b : ¬ (0x5F = c) := fun h => h5 h.symm
      constructor
      · simp [caseLoop, appendRune_ascii hup.1, hasAdjacentUnderscores, h5, hup2, ih2]
      · simp [caseLoop, appendRune_ascii hlt, hasAdjacentUnderscores, h5, h5b, ih2]

/-- C7 as the code has it. For an input over lower-case ASCII letters, digits
and underscores, the result of `PascalCase` holds an underscore exactly when
the input starts with an underscore or has two underscores next to each other,
and the result of `CamelCase` holds one exactly when the input has two
underscores next to each other: an underscore met right after a consumed
underscore (or, in `PascalCase`, at the start) is written, not consumed. -/
theorem case_underscore_iff (s : GoString) (hs : ∀ c ∈ s, isLowerDigitUnderscore c) :
    (0x5F ∈ PascalCase s ↔ s.head? = some 0x5F ∨ hasAdjacentUnderscores s = true)
    ∧ (0x5F ∈ CamelCase s ↔ hasAdjacentUnderscores s = true) :=
  caseLoop_underscore s hs

/-- Witness of C7 on `whole_map_size`, whose results hold no underscore. -/
theorem case_underscore_iff_witness :
    (0x5F ∈ PascalCase (str "whole_map_size")
      ↔ (str "whole_map_size").head? = some 0x5F
        ∨ hasAdjacentUnderscores (str "whole_map_size") = true)
    ∧ (0x5F ∈ CamelCase (str "whole_map_size")
      ↔ hasAdjacentUnderscores (str "whole_map_size") = true) :=
  case_underscore_iff (str "whole_map_size") (by decide)

/-- Counterexample to C7. The input `a__b` is made of lower-case letters and
underscores, and both results hold an underscore: `PascalCase` gives `A_b` and
`CamelCase` gives `a_b`. -/
theorem case_underscore_counterexample :
    (∀ c ∈ str "a__b", isLowerDigitUnderscore c)
    ∧ PascalCase (str "a__b") = str "A_b" ∧ CamelCase (str "a__b") = str "a_b"
    ∧ 0x5F ∈ PascalCase (str "a__b") ∧ 0x5F ∈ CamelCase (str "a__b") := by
  decide

/-! ## The type mapper -/

theorem appendModifiers_none (s : GoString) : appendModifiers s PointerTypeNone = s := by
  simp [appendModifiers, PointerTypeNone, PointerTypeImmutable, PointerTypeMutable, str]

theorem appendModifiers_immutable (s : GoString) :
    appendModifiers s PointerTypeImmutable = s ++ str " const *" := by
  simp [appendModifiers]

theorem appendModifiers_mutable (s : GoString) :
    appendModifiers s PointerTypeMutable = s ++ str " *" := by
  simp [appendModifiers, PointerTypeImmutable, PointerTypeMutable, str]

/-- C10. With no pointer qualifier `CType` is the reference mapping: a token
made of one of the four prefixes and a name `n` maps to `WGPU` followed by
`PascalCase n`, and the eleven primitive tokens map to their fixed C types. -/
theorem CType_none_reference_mapping :
    (∀ n : GoString,
      CType (str "enum." ++ n) PointerTypeNone = some (str "WGPU" ++ PascalCase n)
      ∧ CType (str "struct." ++ n) PointerTypeNone = some (str "WGPU" ++ PascalCase n)
      ∧ CType (str "callback." ++ n) PointerTypeNone = some (str "WGPU" ++ PascalCase n)
      ∧ CType (str "object." ++ n) PointerTypeNone = some (str "WGPU" ++ PascalCase n))
    ∧ CType (str "bool") PointerTypeNone = some (str "WGPUBool")
    ∧ CType (str "string") PointerTypeNone = some (str "char const *")
    ∧ CType (str "uint16") PointerTypeNone = some (str "uint16_t")
    ∧ CType (str "uint32") PointerTypeNone = some (str "uint32_t")
    ∧ CType (str "uint64") PointerTypeNone = some (str "uint64_t")
    ∧ CType (str "int16") PointerTypeNone = some (str "int16_t")
    ∧ CType (str "int32") PointerTypeNone = some (str "int32_t")
    ∧ CType (str "usize") PointerTypeNone = some (str "size_t")
    ∧ CType (str "float32") PointerTypeNone = some (str "float")
    ∧ CType (str "float64") PointerTypeNone = some (str "double")
    ∧ CType (str "c_void") PointerTypeNone = some (str "void") := by
  refine ⟨fun n => ⟨?_, ?_, ?_, ?_⟩, by decide, by decide, by decide, by decide, by decide,
    by decide, by decide, by decide, by decide, by decide, by decide⟩
  all_goals
    simp [CType, HasPrefix, TrimPrefix, appendModifiers, PointerTypeNone, PointerTypeImmutable,
      PointerTypeMutable, str]


theorem ite_some_eq_none_step {α : Type} {c : Prop} [Decidable c] {x : α} {rest : Option α}
    {R : Prop} (h : rest = none ↔ ¬ R) : (if c then some x else rest) = none ↔ ¬ (c ∨ R) := by
  by_cases hc : c
  · simp [hc]
  · simp [hc, h]

theorem ite_some_eq_none_last {α : Type} {c : Prop} [Decidable c] {x : α} :
    (if c then some x else none) = none ↔ ¬ c := by
  by_cases hc : c <;> simp [hc]

theorem CType_eq_none_iff (t : GoString) (p : PointerType) :
    CType t p = none ↔ ¬ Recognized t := by
  unfold CType Recognized primitiveTokens
  generalize str "bool" = c1, str "string" = c2, str "uint16" = c3, str "uint32" = c4,
    str "uint64" = c5, str "usize" = c6, str "int16" = c7, str "int32" = c8,
    str "float32" = c9, str "float64" = c10, str "c_void" = c11
  generalize HasPrefix t (str "enum.") = b1, HasPrefix t (str "struct.") = b2,
    HasPrefix t (str "callback.") = b3, HasPrefix t (str "object.") = b4
  simp only [List.mem_cons, List.mem_singleton, List.not_mem_nil, or_false, or_assoc]
  exact ite_some_eq_none_step <| ite_some_eq_none_step <| ite_some_eq_none_step <|
    ite_some_eq_none_step <| ite_some_eq_none_step <| ite_some_eq_none_step <|
    ite_some_eq_none_step <| ite_some_eq_none_step <| ite_some_eq_none_step <|
    ite_some_eq_none_step <| ite_some_eq_none_step <| ite_some_eq_none_step <|
    ite_some_eq_none_step <| ite_some_eq_none_step <| ite_some_eq_none_last

theorem ite_eq_map_step {α : Type} {c : Prop} [Decidable c] {a b a' b' : Option α} {f : α → α}
    (h1 : a = a'.map f) (h2 : b = b'.map f) :
    (if c then a else b) = (if c then a' else b').map f := by
  by_cases hc : c
  · simpa [hc] using h1
  · simpa [hc] using h2

theorem some_appendModifiers_eq_map (x : GoString) (q : PointerType) :
    some (appendModifiers x q)
      = (some (appendModifiers x PointerTypeNone)).map (fun b => appendModifiers b q) := by
  rw [Option.map_some', appendModifiers_none]

/-- For a token other than `string`, the pointer qualifier is applied by
`appendModifiers` to the result without a qualifier. -/
theorem CType_eq_map_none (t : GoString) (q : PointerType) (hs : t ≠ str "string") :
    CType t q = (CType t PointerTypeNone).map (fun b => appendModifiers b q) := by
  unfold CType
  rw [if_neg hs, if_neg hs]
  exact ite_eq_map_step (some_appendModifiers_eq_map _ _) <|
    ite_eq_map_step (some_appendModifiers_eq_map _ _) <|
    ite_eq_map_step (some_appendModifiers_eq_map _ _) <|
    ite_eq_map_step (some_appendModifiers_eq_map _ _) <|
    ite_eq_map_step (some_appendModifiers_eq_map _ _) <|
    ite_eq_map_step (some_appendModifiers_eq_map _ _) <|
    ite_eq_map_step (some_appendModifiers_eq_map _ _) <|
    ite_eq_map_step (some_appendModifiers_eq_map _ _) <|
    ite_eq_map_step (some_appendModifiers_eq_map _ _) <|
    ite_eq_map_step (some_appendModifiers_eq_map _ _) <|
    ite_eq_map_step (some_appendModifiers_eq_map _ _) <|
    ite_eq_map_step (some_appendModifiers_eq_map _ _) <|
    ite_eq_map_step (some_appendModifiers_eq_map _ _) <|
    ite_eq_map_step (some_appendModifiers_eq_map _ _) rfl

theorem CType_string (p : PointerType) : CType (str "string") p = some (str "char const *") := by
  unfold CType
  rw [if_neg (by decide), if_pos rfl]
  rfl

/-- C8 as the code has it. For every recognized type token other than
`string` the pointer qualifier only appends a suffix to the unqualified
mapping: ` const *` for immutable, ` *` for mutable, nothing for none. The
token `string` ignores the qualifier: it maps to `char const *` whatever the
qualifier is. -/
theorem CType_pointer_suffix (t : GoString) (ht : Recognized t) :
    ∃ base, CType t PointerTypeNone = some base
      ∧ (t ≠ str "string" →
          CType t PointerTypeImmutable = some (base ++ str " const *")
          ∧ CType t PointerTypeMutable = some (base ++ str " *"))
      ∧ (t = str "string" → base = str "char const *" ∧ ∀ p, CType t p = some base) := by
  by_cases hs : t = str "string"
  · subst hs
    exact ⟨str "char const *", CType_string _, fun h => absurd rfl h,
      fun _ => ⟨rfl, fun p => CType_string p⟩⟩
  · have hne : CType t PointerTypeNone ≠ none := fun h =>
      ((CType_eq_none_iff t PointerTypeNone).1 h) ht
    obtain ⟨base, hb⟩ := Option.ne_none_iff_exists'.1 hne
    refine ⟨base, hb, fun _ => ⟨?_, ?_⟩, fun h => absurd h hs⟩
    · rw [CType_eq_map_none t _ hs, hb, Option.map_some', appendModifiers_immutable]
    · rw [CType_eq_map_none t _ hs, hb, Option.map_some', appendModifiers_mutable]

/-- Witness of C8 on the token `struct.bind_group_entry`. -/
theorem CType_pointer_suffix_witness :
    ∃ base, CType (str "struct.bind_group_entry") PointerTypeNone = some base
      ∧ (str "struct.bind_group_entry" ≠ str "string" →
          CType (str "struct.bind_group_entry") PointerTypeImmutable
            = some (base ++ str " const *")
          ∧ CType (str "struct.bind_group_entry") PointerTypeMutable = some (base ++ str " *"))
      ∧ (str "struct.bind_group_entry" = str "string" →
          base = str "char const *" ∧ ∀ p, CType (str "struct.bind_group_entry") p = some base) :=
  CType_pointer_suffix (str "struct.bind_group_entry") (by decide)

/-- Counterexample to C8. The token `string` is recognized, and with the
immutable qualifier it maps to `char const *`, which is also its mapping with
no qualifier: the suffix ` const *` is not appended to the unqualified
mapping, and no ` *` is appended for the mutable qualifier. -/
theorem CType_pointer_suffix_counterexample :
    Recognized (str "string")
    ∧ CType (str "string") PointerTypeNone = some (str "char const *")
    ∧ CType (str "string") PointerTypeImmutable = some (str "char const *")
    ∧ CType (str "string") PointerTypeImmutable
        ≠ (CType (str "string") PointerTypeNone).map (fun b => b ++ str " const *")
    ∧ CType (str "string") PointerTypeMutable
        ≠ (CType (str "string") PointerTypeNone).map (fun b => b ++ str " *") := by
  decide

/-! ## The comparison and the stable sort -/

theorem stringsCompare_total (a b : GoString) :
    stringsCompare a b ≤ 0 ∨ stringsCompare b a ≤ 0 := by
  induction a generalizing b with
  | nil => cases b <;> simp [stringsCompare]
  | cons x a ih =>
    cases b with
    | nil => simp [stringsCompare]
    | cons y b =>
      simp only [stringsCompare]
      rcases Nat.lt_trichotomy x y with h | h | h
      · simp [h]
      · subst h
        simpa using ih b
      · right
        simp [h]

theorem stringsCompare_trans (a b c : GoString) (h1 : stringsCompare a b ≤ 0)
    (h2 : stringsCompare b c ≤ 0) : stringsCompare a c ≤ 0 := by
  induction a generalizing b c with
  | nil => cases c <;> simp [stringsCompare]
  | cons x a ih =>
    cases b with
    | nil => simp [stringsCompare] at h1
    | cons y b =>
      cases c with
      | nil => simp [stringsCompare] at h2
      | cons z c =>
        simp only [stringsCompare] at h1 h2 ⊢
        by_cases hxy : x < y
        · by_cases hyz : y < z
          · have : x < z := by omega
            simp [this]
          · by_cases hzy : z < y
            · simp [hyz, hzy] at h2
            · have : x < z := by omega
              simp [this]
        · by_cases hyx : y < x
          · simp [hxy, hyx] at h1
          · have hxy2 : x = y := by omega
            subst hxy2
            by_cases hxz : x < z
            · simp [hxz]
            · by_cases hzx : z < x
              · simp [hxz, hzx] at h2
              · simp only [hxz, hzx, if_false] at h1 h2 ⊢
                simp only [lt_self_iff_false, if_false] at h1
                exact ih b c h1 h2

theorem stringsCompare_antisymm (a b : GoString) (h1 : stringsCompare a b ≤ 0)
    (h2 : stringsCompare b a ≤ 0) : a = b := by
  induction a generalizing b with
  | nil => cases b with
    | nil => rfl
    | cons y b => simp [stringsCompare] at h2
  | cons x a ih =>
    cases b with
    | nil => simp [stringsCompare] at h1
    | cons y b =>
      simp only [stringsCompare] at h1 h2
      by_cases hxy : x < y
      · have : ¬ y < x := by omega
        simp [hxy, this] at h2
      · by_cases hyx : y < x
        · simp [hxy, hyx] at h1
        · have : x = y := by omega
          subst this
          simp only [hxy, if_false] at h1 h2
          rw [ih b h1 h2]

theorem sortStableFunc_eq_insertionSort {α : Type} (cmp : α → α → Int) (l : List α) :
    sortStableFunc cmp l = List.insertionSort (fun a b => cmp a b ≤ 0) l := by
  have hins : ∀ (a : α) (l : List α),
      insertStable cmp a l = List.orderedInsert (fun a b => cmp a b ≤ 0) a l := by
    intro a l
    induction l with
    | nil => rfl
    | cons b l ih => simp [insertStable, List.orderedInsert, ih]
  induction l with
  | nil => rfl
  | cons a l ih => simp [sortStableFunc, List.insertionSort, ih, hins]

theorem sortStableFunc_perm {α : Type} (cmp : α → α → Int) (l : List α) :
    (sortStableFunc cmp l).Perm l := by
  rw [sortStableFunc_eq_insertionSort]
  exact List.perm_insertionSort _ l

theorem mem_sortStableFunc {α : Type} (cmp : α → α → Int) (l : List α) (a : α) :
    a ∈ sortStableFunc cmp l ↔ a ∈ l :=
  (sortStableFunc_perm cmp l).mem_iff

/-- The sort by the capitalized name leaves the list in non-decreasing order
of that name. -/
theorem sortStableFunc_sorted {α : Type} (key : α → GoString) (l : List α) :
    (sortStableFunc (fun a b => stringsCompare (key a) (key b)) l).Pairwise
      (fun a b => stringsCompare (key a) (key b) ≤ 0) := by
  rw [sortStableFunc_eq_insertionSort]
  haveI : IsTotal α (fun a b => stringsCompare (key a) (key b) ≤ 0) :=
    ⟨fun a b => stringsCompare_total (key a) (key b)⟩
  haveI : IsTrans α (fun a b => stringsCompare (key a) (key b) ≤ 0) :=
    ⟨fun a b c => stringsCompare_trans (key a) (key b) (key c)⟩
  exact List.sorted_insertionSort _ l

/-- Two sorted lists with the same elements are equal when the elements have
pairwise different keys. -/
theorem eq_of_perm_of_sorted_of_keys {α : Type} (key : α → GoString) :
    ∀ (l₁ l₂ : List α), l₁.Perm l₂ → (l₁.map key).Nodup →
      l₁.Pairwise (fun a b => stringsCompare (key a) (key b) ≤ 0) →
      l₂.Pairwise (fun a b => stringsCompare (key a) (key b) ≤ 0) → l₁ = l₂ := by
  intro l₁
  induction l₁ with
  | nil => intro l₂ hp _ _ _; exact hp.nil_eq
  | cons a t₁ ih =>
    intro l₂ hp hnd hs₁ hs₂
    cases l₂ with
    | nil => exact absurd hp.symm.nil_eq (by simp)
    | cons b t₂ =>
      have hinj := List.inj_on_of_nodup_map hnd
      have hb : b ∈ a :: t₁ := hp.symm.subset (List.mem_cons_self _ _)
      have ha : a ∈ b :: t₂ := hp.subset (List.mem_cons_self _ _)
      have hab : a = b := by
        rcases List.mem_cons.1 hb with h | h
        · exact h.symm
        · rcases List.mem_cons.1 ha with h' | h'
          · exact h'
          · have k1 := (List.pairwise_cons.1 hs₁).1 b h
            have k2 := (List.pairwise_cons.1 hs₂).1 a h'
            exact hinj (List.mem_cons_self _ _) hb (stringsCompare_antisymm _ _ k1 k2)
      subst hab
      have hp2 : t₁.Perm t₂ := List.Perm.cons_inv hp
      rw [ih t₂ hp2 (List.nodup_cons.1 hnd).2 (List.pairwise_cons.1 hs₁).2
        (List.pairwise_cons.1 hs₂).2]

/-- The sort of a reordered list is the sort of the list, when the
capitalized names are pairwise different. -/
theorem sortStableFunc_eq_of_perm {α : Type} (key : α → GoString) (l₁ l₂ : List α)
    (hp : l₁.Perm l₂) (hnd : (l₂.map key).Nodup) :
    sortStableFunc (fun a b => stringsCompare (key a) (key b)) l₁
      = sortStableFunc (fun a b => stringsCompare (key a) (key b)) l₂ := by
  apply eq_of_perm_of_sorted_of_keys key
  · exact ((sortStableFunc_perm _ l₁).trans hp).trans (sortStableFunc_perm _ l₂).symm
  · exact (((sortStableFunc_perm _ l₁).trans hp).map key).nodup_iff.2 hnd
  · exact sortStableFunc_sorted key l₁
  · exact sortStableFunc_sorted key l₂

/-! ## Loops that write -/

theorem emitAll_eq_none_iff {α : Type} (f : α → Option GoString) (l : List α) :
    emitAll f l = none ↔ ∃ a ∈ l, f a = none := by
  induction l with
  | nil => simp [emitAll]
  | cons a l ih =>
    cases hfa : f a with
    | none => simp [emitAll, hfa]
    | some x =>
      cases hl : emitAll f l with
      | none =>
        have := ih.1 hl
        simp [emitAll, hfa, hl, this]
      | some y =>
        have hno : ¬ ∃ a ∈ l, f a = none := fun h => by
          have := ih.2 h
          rw [hl] at this
          cases this
        simp only [emitAll, hfa, hl, List.mem_cons, exists_eq_or_imp, reduceCtorEq, false_or,
          false_iff]
        exact hno

theorem emitAll_of_mem {α : Type} (f : α → Option GoString) (l : List α) (a : α) (ha : a ∈ l)
    (out : GoString) (h : emitAll f l = some out) :
    ∃ x pre post, f a = some x ∧ out = pre ++ x ++ post := by
  induction l generalizing out with
  | nil => cases ha
  | cons b l ih =>
    cases hfb : f b with
    | none => simp [emitAll, hfb] at h
    | some y =>
      cases hl : emitAll f l with
      | none => simp [emitAll, hfb, hl] at h
      | some z =>
        simp only [emitAll, hfb, hl, Option.some.injEq] at h
        rcases List.mem_cons.1 ha with hab | hal
        · subst hab
          exact ⟨y, [], z, hfb, by simp [← h]⟩
        · obtain ⟨x, pre, post, hx, hz⟩ := ih hal z hl
          exact ⟨x, y ++ pre, post, hx, by simp [← h, hz]⟩

theorem emitAll_append {α : Type} (f : α → Option GoString) (l₁ l₂ : List α) :
    emitAll f (l₁ ++ l₂) = andThen (emitAll f l₁) (emitAll f l₂) := by
  induction l₁ with
  | nil => cases h : emitAll f l₂ <;> simp [emitAll, andThen, h]
  | cons a l ih =>
    cases hfa : f a <;> cases hl : emitAll f l <;> cases hl₂ : emitAll f l₂ <;>
      simp [emitAll, andThen, hfa, hl, hl₂, ih]

theorem emitAll_congr {α : Type} (f g : α → Option GoString) (l : List α)
    (h : ∀ a ∈ l, f a = g a) : emitAll f l = emitAll g l := by
  induction l with
  | nil => rfl
  | cons a l ih =>
    simp only [emitAll]
    rw [h a (List.mem_cons_self _ _), ih (fun b hb => h b (List.mem_cons_of_mem _ hb))]

theorem andThen_eq_none_left {a : Option GoString} (b : Option GoString) (h : a = none) :
    andThen a b = none := by
  subst h
  rfl

theorem andThen_eq_none_right (a : Option GoString) {b : Option GoString} (h : b = none) :
    andThen a b = none := by
  subst h
  cases a <;> rfl

/-! ## Emission order of the enums and of the methods -/

theorem sortedEnums_sorted (yml : Yml) :
    (sortedEnums yml).Pairwise
      (fun a b => stringsCompare (PascalCase a.Name) (PascalCase b.Name) ≤ 0) :=
  sortStableFunc_sorted (fun e : Enum => PascalCase e.Name) yml.Enums

theorem nonDecreasing_map_of_sorted {α : Type} (key : α → GoString) (l : List α)
    (h : l.Pairwise (fun a b => stringsCompare (key a) (key b) ≤ 0)) :
    NonDecreasing (l.map key) := by
  unfold NonDecreasing
  exact List.pairwise_map.2 h

theorem filter_partition_perm {α : Type} (p : α → Bool) (l : List α) :
    (l.filter (fun a => !p a) ++ l.filter p).Perm l := by
  induction l with
  | nil => simp
  | cons a l ih =>
    by_cases h : p a = true
    · simp only [List.filter_cons, h, Bool.not_true, Bool.false_eq_true, if_false, if_true]
      exact List.perm_middle.trans (List.Perm.cons a ih)
    · simp only [Bool.not_eq_true] at h
      simp only [List.filter_cons, h, Bool.not_false, Bool.false_eq_true, if_false, if_true,
        List.cons_append]
      exact List.Perm.cons a ih

/-- C1 as the code has it. `writeEnums` emits the enums that are not bitmasks
first and the bitmask enums after them; both groups together are the enums of
the schema, and within each group the capitalized names are in non-decreasing
byte-wise lexicographic order, whatever the input order. When all the enums of
the schema agree on the bitmask flag, the whole sequence of emitted names is
non-decreasing. The text of `writeEnums` is the sequence of the typedef blocks
of the enums in this order. -/
theorem emittedEnumNames_sorted_by_group (yml : Yml) :
    (∀ rt : GoRuntime, writeEnums rt yml
        = emitAll (fun e => if e.Bitmask then writeBitmaskEnum rt e else writeEnum e)
            (plainEnums yml ++ bitmaskEnums yml))
    ∧ emittedEnumNames yml
        = (plainEnums yml).map (fun e => PascalCase e.Name)
          ++ (bitmaskEnums yml).map (fun e => PascalCase e.Name)
    ∧ (plainEnums yml ++ bitmaskEnums yml).Perm yml.Enums
    ∧ (∀ e ∈ plainEnums yml, e.Bitmask = false)
    ∧ (∀ e ∈ bitmaskEnums yml, e.Bitmask = true)
    ∧ NonDecreasing ((plainEnums yml).map (fun e => PascalCase e.Name))
    ∧ NonDecreasing ((bitmaskEnums yml).map (fun e => PascalCase e.Name))
    ∧ ((∀ e ∈ yml.Enums, ∀ e' ∈ yml.Enums, e.Bitmask = e'.Bitmask) →
        NonDecreasing (emittedEnumNames yml)) := by
  have hs := sortedEnums_sorted yml
  have hplain : NonDecreasing ((plainEnums yml).map (fun e => PascalCase e.Name)) :=
    nonDecreasing_map_of_sorted (fun e : Enum => PascalCase e.Name) _ (hs.filter _)
  have hbit : NonDecreasing ((bitmaskEnums yml).map (fun e => PascalCase e.Name)) :=
    nonDecreasing_map_of_sorted (fun e : Enum => PascalCase e.Name) _ (hs.filter _)
  have hpf : ∀ e ∈ plainEnums yml, e.Bitmask = false := by
    intro e he
    simpa [plainEnums] using (List.mem_filter.1 he).2
  have hbt : ∀ e ∈ bitmaskEnums yml, e.Bitmask = true := by
    intro e he
    simpa [bitmaskEnums] using (List.mem_filter.1 he).2
  refine ⟨?_, rfl, ?_, ?_, ?_, hplain, hbit, ?_⟩
  · intro rt
    rw [emitAll_append,
      emitAll_congr _ writeEnum (plainEnums yml) (fun e he => by simp [hpf e he]),
      emitAll_congr _ (writeBitmaskEnum rt) (bitmaskEnums yml) (fun e he => by simp [hbt e he])]
    rfl
  · exact (filter_partition_perm (fun e : Enum => e.Bitmask) (sortedEnums yml)).trans
      (sortStableFunc_perm _ _)
  · intro e he
    simpa [plainEnums] using (List.mem_filter.1 he).2
  · intro e he
    simpa [bitmaskEnums] using (List.mem_filter.1 he).2
  · intro hall
    unfold emittedEnumNames
    cases hp : plainEnums yml with
    | nil => simpa [hp] using hbit
    | cons e es =>
      have he : e ∈ sortedEnums yml ∧ e.Bitmask = false := by
        have : e ∈ plainEnums yml := by rw [hp]; exact List.mem_cons_self _ _
        simpa [plainEnums] using List.mem_filter.1 this
      have hb : bitmaskEnums yml = [] := by
        unfold bitmaskEnums
        rw [List.filter_eq_nil_iff]
        intro e' he'
        have h1 := hall e ((mem_sortStableFunc _ _ _).1 he.1) e' ((mem_sortStableFunc _ _ _).1 he')
        rw [← h1, he.2]
        simp
      rw [hb, ← hp]
      simpa using hplain

/-- Witness of C1 on a schema with two enums that are not bitmasks. -/
theorem emittedEnumNames_sorted_by_group_witness :
    (∀ e ∈ plainEnumsSchema.Enums, ∀ e' ∈ plainEnumsSchema.Enums, e.Bitmask = e'.Bitmask)
    ∧ NonDecreasing (emittedEnumNames plainEnumsSchema)
    ∧ emittedEnumNames plainEnumsSchema = [str "AddressMode", str "TextureFormat"] :=
  ⟨by decide, (emittedEnumNames_sorted_by_group plainEnumsSchema).2.2.2.2.2.2.2 (by decide),
    by decide⟩

/-- Counterexample to C1. On the schema with the non-bitmask enum `b` and the
bitmask enum `a`, `writeEnums` writes the typedef of `WGPUB` before the one of
`WGPUA`: the emitted names `B`, `A` are not in non-decreasing order. -/
theorem emittedEnumNames_counterexample :
    emittedEnumNames mixedEnumsSchema = [str "B", str "A"]
    ∧ ¬ NonDecreasing (emittedEnumNames mixedEnumsSchema)
    ∧ writeEnums exampleRuntime mixedEnumsSchema
        = some (str "/**\n */\ntypedef enum WGPUB \x7b\n    WGPUB_Force32 = 0x7FFFFFFF\n\x7d WGPUB WGPU_ENUM_ATTRIBUTE;\n\n/**\n */\ntypedef enum WGPUA \x7b\n    WGPUA_Force32 = 0x7FFFFFFF\n\x7d WGPUA WGPU_ENUM_ATTRIBUTE;\ntypedef WGPUFlags WGPUAFlags WGPU_ENUM_ATTRIBUTE;\n\n") := by
  refine ⟨by decide, by decide, by decide⟩

/-- C2 as the code has it. The methods that `writeProcs` emits for an object
are its declared methods, sorted into non-decreasing order of capitalized
name, followed by `Reference` and then `Release`: the two synthetic methods
are appended after the sort and take no part in it. -/
theorem emittedMethodNames_sorted_then_synthetic (o : Object) :
    emittedMethodNames o
        = (sortStableFunc (fun a b => compareNames a.Name b.Name) o.Methods).map
            (fun m => PascalCase m.Name) ++ [str "Reference", str "Release"]
    ∧ (sortStableFunc (fun a b => compareNames a.Name b.Name) o.Methods).Perm o.Methods
    ∧ NonDecreasing ((sortStableFunc (fun a b => compareNames a.Name b.Name) o.Methods).map
        (fun m => PascalCase m.Name)) := by
  refine ⟨?_, sortStableFunc_perm _ _, ?_⟩
  · have e : syntheticMethods.map (fun m => PascalCase m.Name)
        = [str "Reference", str "Release"] := by decide
    simp [emittedMethodNames, procMethods, e]
  · exact nonDecreasing_map_of_sorted (fun m : Function => PascalCase m.Name) _
      (sortStableFunc_sorted (fun m : Function => PascalCase m.Name) o.Methods)

/-- Counterexample to C2. For an object whose only declared method is
`set_label`, `writeProcs` emits `SetLabel`, `Reference`, `Release` in this
order, in the typedefs and in the declarations: `SetLabel` comes before
`Reference`, so the list is not in non-decreasing order. -/
theorem emittedMethodNames_counterexample :
    emittedMethodNames labelledObject = [str "SetLabel", str "Reference", str "Release"]
    ∧ ¬ NonDecreasing (emittedMethodNames labelledObject)
    ∧ writeObjectProcs labelledObject
        = some (str "\n// Procs of Buffer\ntypedef void (*WGPUProcBufferSetLabel)(WGPUBuffer buffer, char const * label) WGPU_FUNCTION_ATTRIBUTE;\ntypedef void (*WGPUProcBufferReference)(WGPUBuffer buffer) WGPU_FUNCTION_ATTRIBUTE;\ntypedef void (*WGPUProcBufferRelease)(WGPUBuffer buffer) WGPU_FUNCTION_ATTRIBUTE;\n")
    ∧ writeObjectMethods labelledObject
        = some (str "\n// Methods of Buffer\nWGPU_EXPORT void wgpuBufferSetLabel(WGPUBuffer buffer, char const * label) WGPU_FUNCTION_ATTRIBUTE;\nWGPU_EXPORT void wgpuBufferReference(WGPUBuffer buffer) WGPU_FUNCTION_ATTRIBUTE;\nWGPU_EXPORT void wgpuBufferRelease(WGPUBuffer buffer) WGPU_FUNCTION_ATTRIBUTE;\n") := by
  refine ⟨by decide, by decide, by decide, by decide⟩

/-! ## The two passes of `writeStructs` -/

theorem hasStructMember_eq_false_iff (s : Struct) :
    hasStructMember s = false ↔ ∀ m ∈ s.Members, HasPrefix m.Typ (str "struct.") = false := by
  simp [hasStructMember]

theorem hasStructMember_eq_true_iff (s : Struct) :
    hasStructMember s = true ↔ ∃ m ∈ s.Members, HasPrefix m.Typ (str "struct.") = true := by
  simp [hasStructMember]

theorem mem_pass1Structs (yml : Yml) (s : Struct) :
    s ∈ pass1Structs yml ↔ s ∈ yml.Structs ∧ hasStructMember s = false := by
  simp [pass1Structs, sortedStructs, mem_sortStableFunc]

theorem mem_skippedStructs (yml : Yml) (s : Struct) :
    s ∈ skippedStructs yml ↔ s ∈ yml.Structs ∧ hasStructMember s = true := by
  simp [skippedStructs, sortedStructs, mem_sortStableFunc]

theorem writeSkippedStruct_eq (s : Struct) : writeSkippedStruct s = writeStruct s := rfl

theorem emitAll_writeSkippedStruct (l : List Struct) :
    emitAll writeSkippedStruct l = emitAll writeStruct l :=
  emitAll_congr _ _ l (fun s _ => writeSkippedStruct_eq s)

theorem HasPrefix_append (p n : GoString) : HasPrefix (p ++ n) p = true := by
  simp [HasPrefix]

/-- C4 as the code has it. A struct of the schema is emitted in pass 1 if and
only if none of its members has a type starting with `struct.`, whatever the
pointer qualifier of the member; pass 2 holds exactly the structs with at
least one member whose type starts with `struct.`, be it embedded by value or
referred to through a pointer. -/
theorem pass1_iff_no_struct_typed_member (yml : Yml) (s : Struct) :
    (s ∈ pass1Structs yml ↔
      s ∈ yml.Structs ∧ ∀ m ∈ s.Members, HasPrefix m.Typ (str "struct.") = false)
    ∧ (s ∈ skippedStructs yml ↔
      s ∈ yml.Structs ∧ ∃ m ∈ s.Members, HasPrefix m.Typ (str "struct.") = true) := by
  rw [mem_pass1Structs, mem_skippedStructs, hasStructMember_eq_false_iff,
    hasStructMember_eq_true_iff]
  exact ⟨Iff.rfl, Iff.rfl⟩

/-- Counterexample to C4. The only struct-typed member of `chain_user` is an
immutable pointer, so no member of it embeds a struct by value; yet
`writeStructs` does not emit it in pass 1 but in pass 2. -/
theorem pass1_counterexample :
    chainUserStruct ∈ pointerStructsSchema.Structs
    ∧ (∀ m ∈ chainUserStruct.Members, ¬ embedsStructByValue m)
    ∧ chainUserStruct ∉ pass1Structs pointerStructsSchema
    ∧ chainUserStruct ∈ skippedStructs pointerStructsSchema
    ∧ pass1Structs pointerStructsSchema = [extentStruct]
    ∧ skippedStructs pointerStructsSchema = [chainUserStruct] := by
  decide

/-- C3. When a struct `A` of the schema has no member of a struct type and a
struct `B` of the schema has a member of type `struct.A` with no pointer
qualifier, `writeStructs` visits `A` before `B`, and every text it writes
holds the typedef block of `A` before the typedef block of `B`, whatever the
names of the two and the input order. The run does write a text when the
block of every struct of the schema can be written. -/
theorem writeStructs_dependency_first (yml : Yml) (A B : Struct)
    (hA : A ∈ yml.Structs) (hB : B ∈ yml.Structs)
    (hAm : ∀ m ∈ A.Members, HasPrefix m.Typ (str "struct.") = false)
    (m : StructMember) (hm : m ∈ B.Members) (hmt : m.Typ = str "struct." ++ A.Name)
    (_hmp : m.Pointer = PointerTypeNone) :
    (∃ l₁ l₂ l₃, pass1Structs yml ++ skippedStructs yml = l₁ ++ A :: l₂ ++ B :: l₃)
    ∧ (∀ out, writeStructs yml = some out →
        ∃ a b pre mid post, writeStruct A = some a ∧ writeStruct B = some b
          ∧ out = pre ++ a ++ mid ++ b ++ post)
    ∧ ((∀ s ∈ yml.Structs, writeStruct s ≠ none) → writeStructs yml ≠ none) := by
  have h1 : A ∈ pass1Structs yml :=
    (mem_pass1Structs yml A).2 ⟨hA, (hasStructMember_eq_false_iff A).2 hAm⟩
  have h2 : B ∈ skippedStructs yml :=
    (mem_skippedStructs yml B).2 ⟨hB, (hasStructMember_eq_true_iff B).2
      ⟨m, hm, by rw [hmt]; exact HasPrefix_append _ _⟩⟩
  refine ⟨?_, ?_, ?_⟩
  · obtain ⟨l₁, l₂, e₁⟩ := List.append_of_mem h1
    obtain ⟨l₃, l₄, e₂⟩ := List.append_of_mem h2
    exact ⟨l₁, l₂ ++ l₃, l₄, by rw [e₁, e₂]; simp⟩
  · intro out hout
    unfold writeStructs at hout
    rw [emitAll_writeSkippedStruct] at hout
    cases hp1 : emitAll writeStruct (pass1Structs yml) with
    | none => simp [hp1] at hout
    | some x =>
      cases hp2 : emitAll writeStruct (skippedStructs yml) with
      | none => simp [hp1, hp2] at hout
      | some y =>
        simp only [hp1, hp2, Option.some.injEq] at hout
        obtain ⟨hdr, hout⟩ : ∃ hdr : GoString, hdr ++ x ++ y = out := ⟨_, hout⟩
        obtain ⟨a, pre₁, post₁, ha, hx⟩ := emitAll_of_mem writeStruct _ A h1 x hp1
        obtain ⟨b, pre₂, post₂, hb, hy⟩ := emitAll_of_mem writeStruct _ B h2 y hp2
        refine ⟨a, b, hdr ++ pre₁, post₁ ++ pre₂, post₂, ha, hb, ?_⟩
        rw [← hout, hx, hy]
        simp only [List.append_assoc]
  · intro hall
    have hn1 : emitAll writeStruct (pass1Structs yml) ≠ none := fun h => by
      obtain ⟨s, hs, hn⟩ := (emitAll_eq_none_iff _ _).1 h
      exact hall s ((mem_pass1Structs yml s).1 hs).1 hn
    have hn2 : emitAll writeStruct (skippedStructs yml) ≠ none := fun h => by
      obtain ⟨s, hs, hn⟩ := (emitAll_eq_none_iff _ _).1 h
      exact hall s ((mem_skippedStructs yml s).1 hs).1 hn
    obtain ⟨x, hx⟩ := Option.ne_none_iff_exists'.1 hn1
    obtain ⟨y, hy⟩ := Option.ne_none_iff_exists'.1 hn2
    unfold writeStructs
    rw [emitAll_writeSkippedStruct, hx, hy]
    simp

/-- Witness of C3 on the schema that lists `copy_view`, which embeds
`extent` by value, before `extent`: the run succeeds and the block of
`extent` precedes the block of `copy_view`. -/
theorem writeStructs_dependency_first_witness :
    (writeStructs nestedStructsSchema).isSome = true
    ∧ pass1Structs nestedStructsSchema ++ skippedStructs nestedStructsSchema
        = [extentStruct, copyViewStruct]
    ∧ ((∃ l₁ l₂ l₃, pass1Structs nestedStructsSchema ++ skippedStructs nestedStructsSchema
          = l₁ ++ extentStruct :: l₂ ++ copyViewStruct :: l₃)
      ∧ (∀ out, writeStructs nestedStructsSchema = some out →
        ∃ a b pre mid post, writeStruct extentStruct = some a
          ∧ writeStruct copyViewStruct = some b ∧ out = pre ++ a ++ mid ++ b ++ post)
      ∧ ((∀ s ∈ nestedStructsSchema.Structs, writeStruct s ≠ none) →
          writeStructs nestedStructsSchema ≠ none)) :=
  ⟨by decide, by decide,
    writeStructs_dependency_first nestedStructsSchema extentStruct copyViewStruct
      (by decide) (by decide) (by decide)
      { Name := str "size", Typ := str "struct.extent", Pointer := [], Optional := false,
        Doc := [] }
      (by decide) (by decide) (by decide)⟩

/-! ## Abort on a type token that is not recognized -/

theorem writeArgs_eq_none (args : List FunctionArg)
    (h : ∃ arg ∈ args, CType arg.Typ arg.Pointer = none) : writeArgs args = none := by
  induction args with
  | nil => obtain ⟨a, ha, _⟩ := h; cases ha
  | cons b rest ih =>
    obtain ⟨a, ha, hc⟩ := h
    rcases List.mem_cons.1 ha with hab | har
    · subst hab
      simp [writeArgs, hc]
    · have := ih ⟨a, har, hc⟩
      cases hb : CType b.Typ b.Pointer <;> simp [writeArgs, hb, this]

theorem writeStruct_eq_none (s : Struct)
    (h : ∃ m ∈ s.Members, CType m.Typ m.Pointer = none) : writeStruct s = none := by
  obtain ⟨m, hm, hc⟩ := h
  have h1 : writeStructMember m = none := by
    unfold writeStructMember
    rw [hc]
    cases writeDoc m.Doc 4 <;> rfl
  have h2 : emitAll writeStructMember s.Members = none :=
    (emitAll_eq_none_iff _ _).2 ⟨m, hm, h1⟩
  unfold writeStruct
  rw [h2]
  cases writeDoc s.Doc 0 <;> cases writeStructKind s.Typ <;> rfl

theorem writeStructs_eq_none (yml : Yml) (s : Struct) (hs : s ∈ yml.Structs)
    (h : writeStruct s = none) : writeStructs yml = none := by
  unfold writeStructs
  rw [emitAll_writeSkippedStruct]
  by_cases hm : hasStructMember s = true
  · have : emitAll writeStruct (skippedStructs yml) = none :=
      (emitAll_eq_none_iff _ _).2 ⟨s, (mem_skippedStructs yml s).2 ⟨hs, hm⟩, h⟩
    rw [this]
    cases emitAll writeStruct (pass1Structs yml) <;> rfl
  · have : emitAll writeStruct (pass1Structs yml) = none :=
      (emitAll_eq_none_iff _ _).2 ⟨s, (mem_pass1Structs yml s).2 ⟨hs, by simpa using hm⟩, h⟩
    rw [this]

theorem writeCallback_eq_none (yml : Yml) (cb : Function) (hcb : cb ∈ yml.Callbacks)
    (h : ∃ arg ∈ cb.Args, CType arg.Typ arg.Pointer = none) : writeCallback yml = none := by
  have h1 : writeCallbackOne cb = none := by
    unfold writeCallbackOne
    rw [writeArgs_eq_none cb.Args h]
    cases writeDoc cb.Doc 0 with
    | none => rfl
    | some d => by_cases hr : cb.Returns.Typ = str "c_void" <;> simp [hr]
  exact (emitAll_eq_none_iff _ _).2
    ⟨cb, (mem_sortStableFunc _ _ _).2 hcb, h1⟩

theorem writeProcs_eq_none (yml : Yml) (o : Object) (ho : o ∈ yml.Objects) (method : Function)
    (hm : method ∈ o.Methods) (h1 : writeProcTypedef o method = none) :
    writeProcs yml = none := by
  have h2 : method ∈ procMethods o :=
    List.mem_append_left _ ((mem_sortStableFunc _ _ _).2 hm)
  have h3 : writeObjectProcs o = none := by
    unfold writeObjectProcs
    rw [(emitAll_eq_none_iff _ _).2 ⟨method, h2, h1⟩]
  have h4 : emitAll writeObjectProcs (sortedObjects yml) = none :=
    (emitAll_eq_none_iff _ _).2 ⟨o, (mem_sortStableFunc _ _ _).2 ho, h3⟩
  unfold writeProcs
  rw [h4]

theorem writeHeader_eq_none_of_structs (rt : GoRuntime) (yml : Yml)
    (h : writeStructs yml = none) : writeHeader rt yml = none := by
  unfold writeHeader
  exact andThen_eq_none_right _ <| andThen_eq_none_right _ <| andThen_eq_none_right _ <|
    andThen_eq_none_right _ <| andThen_eq_none_right _ <| andThen_eq_none_right _ <|
    andThen_eq_none_left _ h

theorem writeHeader_eq_none_of_callback (rt : GoRuntime) (yml : Yml)
    (h : writeCallback yml = none) : writeHeader rt yml = none := by
  unfold writeHeader
  exact andThen_eq_none_right _ <| andThen_eq_none_right _ <| andThen_eq_none_right _ <|
    andThen_eq_none_right _ <| andThen_eq_none_right _ <| andThen_eq_none_left _ h

theorem writeHeader_eq_none_of_procs (rt : GoRuntime) (yml : Yml)
    (h : writeProcs yml = none) : writeHeader rt yml = none := by
  unfold writeHeader
  exact andThen_eq_none_right _ <| andThen_eq_none_right _ <| andThen_eq_none_right _ <|
    andThen_eq_none_right _ <| andThen_eq_none_right _ <| andThen_eq_none_right _ <|
    andThen_eq_none_right _ <| andThen_eq_none_left _ h

/-- C9. `CType` aborts, whatever the pointer qualifier, exactly on the type
tokens that are neither one of the eleven primitive tokens nor start with one
of the prefixes `enum.`, `struct.`, `callback.`, `object.`; and `writeHeader`
aborts on every schema in which a struct member, a callback argument, a method
argument or a method return carries such a token. -/
theorem CType_abort_iff_unrecognized :
    (∀ (t : GoString) (p : PointerType), CType t p = none ↔ ¬ Recognized t)
    ∧ ∀ (rt : GoRuntime) (yml : Yml), HasUnrecognizedToken yml → writeHeader rt yml = none := by
  refine ⟨CType_eq_none_iff, fun rt yml h => ?_⟩
  rcases h with ⟨s, hs, m, hm, hr⟩ | ⟨cb, hcb, arg, ha, hr⟩ | ⟨o, ho, method, hm, arg, ha, hr⟩
    | ⟨o, ho, method, hm, hr⟩
  · exact writeHeader_eq_none_of_structs rt yml
      (writeStructs_eq_none yml s hs
        (writeStruct_eq_none s ⟨m, hm, (CType_eq_none_iff _ _).2 hr⟩))
  · exact writeHeader_eq_none_of_callback rt yml
      (writeCallback_eq_none yml cb hcb ⟨arg, ha, (CType_eq_none_iff _ _).2 hr⟩)
  · refine writeHeader_eq_none_of_procs rt yml (writeProcs_eq_none yml o ho method hm ?_)
    unfold writeProcTypedef
    rw [writeArgs_eq_none method.Args ⟨arg, ha, (CType_eq_none_iff _ _).2 hr⟩]
    cases CType method.Returns.Typ method.Returns.Pointer <;> rfl
  · refine writeHeader_eq_none_of_procs rt yml (writeProcs_eq_none yml o ho method hm ?_)
    unfold writeProcTypedef
    rw [(CType_eq_none_iff _ _).2 hr]

/-- Witness of C9 on a schema with a struct member of the unknown type
`uint8`. -/
theorem CType_abort_iff_unrecognized_witness :
    HasUnrecognizedToken unknownTokenSchema
    ∧ CType (str "uint8") PointerTypeNone = none
    ∧ writeHeader exampleRuntime unknownTokenSchema = none :=
  ⟨by decide, (CType_abort_iff_unrecognized.1 (str "uint8") PointerTypeNone).2 (by decide),
    CType_abort_iff_unrecognized.2 exampleRuntime unknownTokenSchema (by decide)⟩

/-! ## Determinism under reordering -/

theorem sortedEnums_eq_of_perm (a b : Yml) (hp : b.Enums.Perm a.Enums)
    (hnd : (a.Enums.map (fun e => PascalCase e.Name)).Nodup) :
    sortedEnums b = sortedEnums a :=
  sortStableFunc_eq_of_perm (fun e : Enum => PascalCase e.Name) _ _ hp hnd

theorem sortedCallbacks_eq_of_perm (a b : Yml) (hp : b.Callbacks.Perm a.Callbacks)
    (hnd : (a.Callbacks.map (fun c => PascalCase c.Name)).Nodup) :
    sortedCallbacks b = sortedCallbacks a :=
  sortStableFunc_eq_of_perm (fun c : Function => PascalCase c.Name) _ _ hp hnd

theorem sortedStructs_eq_of_perm (a b : Yml) (hp : b.Structs.Perm a.Structs)
    (hnd : (a.Structs.map (fun s => PascalCase s.Name)).Nodup) :
    sortedStructs b = sortedStructs a :=
  sortStableFunc_eq_of_perm (fun s : Struct => PascalCase s.Name) _ _ hp hnd

theorem sortedObjects_eq_of_perm (a b : Yml) (hp : b.Objects.Perm a.Objects)
    (hnd : (a.Objects.map (fun o => PascalCase o.Name)).Nodup) :
    sortedObjects b = sortedObjects a :=
  sortStableFunc_eq_of_perm (fun o : Object => PascalCase o.Name) _ _ hp hnd

/-- C5 as the code has it. For every schema whose capitalized entity names
(the sort keys) are unique within each category, and for every reordering of
its lists of enums, callbacks, structs and objects, `writeHeader` gives the
same result as for the original ordering: the same text, or an abort in both
runs. -/
theorem writeHeader_reordering (rt : GoRuntime) (a b : Yml) (hu : UniqueCapitalizedNames a)
    (hr : Reordering a b) : writeHeader rt b = writeHeader rt a := by
  obtain ⟨hc, _, hg, he, hcb, hs, ho⟩ := hr
  obtain ⟨ue, uc, us, uo⟩ := hu
  have e1 := sortedEnums_eq_of_perm a b he ue
  have e2 := sortedCallbacks_eq_of_perm a b hcb uc
  have e3 := sortedStructs_eq_of_perm a b hs us
  have e4 := sortedObjects_eq_of_perm a b ho uo
  have w1 : writePreamble b = writePreamble a := by unfold writePreamble; rw [hc]
  have w2 : writeConstants rt b = writeConstants rt a := by unfold writeConstants; rw [hg]
  have w3 : writeTypeAliases b = writeTypeAliases a := rfl
  have w4 : writeForwardDecls b = writeForwardDecls a := by
    unfold writeForwardDecls; rw [e3, e4]
  have w5 : writeEnums rt b = writeEnums rt a := by
    unfold writeEnums plainEnums bitmaskEnums; rw [e1]
  have w6 : writeCallback b = writeCallback a := by unfold writeCallback; rw [e2]
  have w7 : writeStructs b = writeStructs a := by
    unfold writeStructs pass1Structs skippedStructs; rw [e3]
  have w8 : writeProcs b = writeProcs a := by unfold writeProcs; rw [e4]
  have w9 : writeFooter b = writeFooter a := rfl
  unfold writeHeader
  rw [w1, w2, w3, w4, w5, w6, w7, w8, w9]

/-- Witness of C5 on the schema with the structs `copy_view` and `extent`
and the same schema with the two structs exchanged. -/
theorem writeHeader_reordering_witness :
    UniqueCapitalizedNames nestedStructsSchema
    ∧ Reordering nestedStructsSchema nestedStructsSwapped
    ∧ nestedStructsSwapped ≠ nestedStructsSchema
    ∧ (writeHeader exampleRuntime nestedStructsSchema).isSome = true
    ∧ writeHeader exampleRuntime nestedStructsSwapped
        = writeHeader exampleRuntime nestedStructsSchema :=
  ⟨by decide, by decide, by decide, by decide,
    writeHeader_reordering exampleRuntime nestedStructsSchema nestedStructsSwapped
      (by decide) (by decide)⟩

theorem andThen_some_left_cancel (x : GoString) (a b : Option GoString)
    (h : andThen (some x) a = andThen (some x) b) : a = b := by
  cases a <;> cases b <;> simp_all [andThen]

theorem andThen_some_right_cancel (z : GoString) (a b : Option GoString)
    (h : andThen a (some z) = andThen b (some z)) : a = b := by
  cases a <;> cases b <;> simp_all [andThen]

theorem andThen_isSome (a b : Option GoString) (h : (andThen a b).isSome = true) :
    (∃ x, a = some x) ∧ ∃ y, b = some y := by
  cases a <;> cases b <;> simp_all [andThen]

theorem andThen_eq_some (a b : Option GoString) (w : GoString) (h : andThen a b = some w) :
    (∃ x, a = some x) ∧ ∃ y, b = some y := by
  cases a <;> cases b <;> simp_all [andThen]

/-- Two schemas that differ in their enums only and give the same header
give the same enum section. -/
theorem writeEnums_eq_of_writeHeader_eq (rt : GoRuntime) (a b : Yml)
    (hc : b.Copyright = a.Copyright) (hg : b.Global = a.Global)
    (hcb : b.Callbacks = a.Callbacks) (hs : b.Structs = a.Structs)
    (ho : b.Objects = a.Objects) (hsome : (writeHeader rt a).isSome = true)
    (h : writeHeader rt b = writeHeader rt a) : writeEnums rt b = writeEnums rt a := by
  have w1 : writePreamble b = writePreamble a := by unfold writePreamble; rw [hc]
  have w2 : writeConstants rt b = writeConstants rt a := by unfold writeConstants; rw [hg]
  have w3 : writeTypeAliases b = writeTypeAliases a := rfl
  have w4 : writeForwardDecls b = writeForwardDecls a := by
    unfold writeForwardDecls sortedObjects sortedStructs; rw [hs, ho]
  have w6 : writeCallback b = writeCallback a := by
    unfold writeCallback sortedCallbacks; rw [hcb]
  have w7 : writeStructs b = writeStructs a := by
    unfold writeStructs pass1Structs skippedStructs sortedStructs; rw [hs]
  have w8 : writeProcs b = writeProcs a := by unfold writeProcs sortedObjects; rw [ho]
  have w9 : writeFooter b = writeFooter a := rfl
  unfold writeHeader at h hsome
  rw [w1, w2, w3, w4, w6, w7, w8, w9] at h
  obtain ⟨⟨p, hp⟩, ⟨_, h1⟩⟩ := andThen_isSome _ _ hsome
  rw [hp] at h
  have h := andThen_some_left_cancel _ _ _ h
  obtain ⟨⟨c, hc'⟩, ⟨_, h2⟩⟩ := andThen_eq_some _ _ _ h1
  rw [hc'] at h
  have h := andThen_some_left_cancel _ _ _ h
  obtain ⟨⟨t, ht⟩, ⟨_, h3⟩⟩ := andThen_eq_some _ _ _ h2
  rw [ht] at h
  have h := andThen_some_left_cancel _ _ _ h
  obtain ⟨⟨f, hf⟩, ⟨_, h4⟩⟩ := andThen_eq_some _ _ _ h3
  rw [hf] at h
  have h := andThen_some_left_cancel _ _ _ h
  obtain ⟨_, ⟨z, hz⟩⟩ := andThen_eq_some _ _ _ h4
  rw [hz] at h
  exact andThen_some_right_cancel _ _ _ h

/-- Counterexample to C5. The enums `a1` and `a_1` have different names, so
the entity names of the schema are unique within each category, but both
capitalize to `A1`: the stable sort keeps them in input order, and the schema
with the two enums exchanged gives another header. -/
theorem writeHeader_reordering_counterexample :
    UniqueNames collidingEnumsSchema
    ∧ Reordering collidingEnumsSchema collidingEnumsSwapped
    ∧ PascalCase (str "a1") = PascalCase (str "a_1")
    ∧ (writeHeader exampleRuntime collidingEnumsSchema).isSome = true
    ∧ writeEnums exampleRuntime collidingEnumsSchema
        = some (str "/**\n */\ntypedef enum WGPUA1 \x7b\n    /**\n     */\n    WGPUA1_X = 0x00000000,\n    WGPUA1_Force32 = 0x7FFFFFFF\n\x7d WGPUA1 WGPU_ENUM_ATTRIBUTE;\n\n/**\n */\ntypedef enum WGPUA1 \x7b\n    /**\n     */\n    WGPUA1_Y = 0x00000000,\n    WGPUA1_Force32 = 0x7FFFFFFF\n\x7d WGPUA1 WGPU_ENUM_ATTRIBUTE;\n\n")
    ∧ writeEnums exampleRuntime collidingEnumsSwapped
        = some (str "/**\n */\ntypedef enum WGPUA1 \x7b\n    /**\n     */\n    WGPUA1_Y = 0x00000000,\n    WGPUA1_Force32 = 0x7FFFFFFF\n\x7d WGPUA1 WGPU_ENUM_ATTRIBUTE;\n\n/**\n */\ntypedef enum WGPUA1 \x7b\n    /**\n     */\n    WGPUA1_X = 0x00000000,\n    WGPUA1_Force32 = 0x7FFFFFFF\n\x7d WGPUA1 WGPU_ENUM_ATTRIBUTE;\n\n")
    ∧ writeHeader exampleRuntime collidingEnumsSwapped
        ≠ writeHeader exampleRuntime collidingEnumsSchema := by
  refine ⟨by decide, by decide, by decide, by decide, by decide, by decide, fun h => ?_⟩
  have he := writeEnums_eq_of_writeHeader_eq exampleRuntime collidingEnumsSchema
    collidingEnumsSwapped rfl rfl rfl rfl rfl (by decide) h
  revert he
  decide

/-! ## Injectivity of `PascalCase` on lower-case names -/

theorem lower_append_unique (w v R S : GoString) (hw : ∀ c ∈ w, isLower c)
    (hv : ∀ c ∈ v, isLower c) (hR : ∀ c ∈ R.head?, 65 ≤ c ∧ c ≤ 90)
    (hS : ∀ c ∈ S.head?, 65 ≤ c ∧ c ≤ 90) (h : w ++ R = v ++ S) : w = v ∧ R = S := by
  induction w generalizing v with
  | nil =>
    cases v with
    | nil => exact ⟨rfl, by simpa using h⟩
    | cons d v =>
      exfalso
      have hd : isLower d := hv d (List.mem_cons_self _ _)
      unfold isLower at hd
      cases R with
      | nil => simp at h
      | cons r R =>
        have hr := hR r (by simp)
        simp only [List.nil_append, List.cons_append, List.cons.injEq] at h
        omega
  | cons c w ih =>
    cases v with
    | nil =>
      exfalso
      have hc : isLower c := hw c (List.mem_cons_self _ _)
      unfold isLower at hc
      cases S with
      | nil => simp at h
      | cons r S =>
        have hr := hS r (by simp)
        simp only [List.nil_append, List.cons_append, List.cons.injEq] at h
        omega
    | cons d v =>
      simp only [List.cons_append, List.cons.injEq] at h
      obtain ⟨h1, h2⟩ := ih v (fun x hx => hw x (List.mem_cons_of_mem _ hx))
        (fun x hx => hv x (List.mem_cons_of_mem _ hx)) h.2
      exact ⟨by rw [h.1, h1], h2⟩

theorem upperFirst_words_head (ws : List GoString)
    (hws : ∀ u ∈ ws, u ≠ [] ∧ ∀ c ∈ u, isLower c) :
    ∀ c ∈ ((ws.map upperFirst).flatten).head?, 65 ≤ c ∧ c ≤ 90 := by
  cases ws with
  | nil => simp
  | cons w ws =>
    obtain ⟨hne, hl⟩ := hws w (List.mem_cons_self _ _)
    cases w with
    | nil => exact absurd rfl hne
    | cons c w =>
      have hc : isLower c := hl c (List.mem_cons_self _ _)
      unfold isLower at hc
      intro x hx
      simp only [List.map_cons, List.flatten_cons, upperFirst, List.cons_append, List.head?_cons,
        Option.mem_def, Option.some.injEq] at hx
      subst hx
      unfold asciiUpper
      rw [if_pos hc]
      omega

theorem upperFirst_words_injective (ws vs : List GoString)
    (hws : ∀ u ∈ ws, u ≠ [] ∧ ∀ c ∈ u, isLower c)
    (hvs : ∀ u ∈ vs, u ≠ [] ∧ ∀ c ∈ u, isLower c)
    (h : (ws.map upperFirst).flatten = (vs.map upperFirst).flatten) : ws = vs := by
  induction ws generalizing vs with
  | nil =>
    cases vs with
    | nil => rfl
    | cons v vs =>
      obtain ⟨hne, _⟩ := hvs v (List.mem_cons_self _ _)
      cases v with
      | nil => exact absurd rfl hne
      | cons d v => simp [upperFirst] at h
  | cons w ws ih =>
    obtain ⟨hwne, hwl⟩ := hws w (List.mem_cons_self _ _)
    cases vs with
    | nil =>
      cases w with
      | nil => exact absurd rfl hwne
      | cons c w => simp [upperFirst] at h
    | cons v vs =>
      obtain ⟨hvne, hvl⟩ := hvs v (List.mem_cons_self _ _)
      cases w with
      | nil => exact absurd rfl hwne
      | cons c w =>
        cases v with
        | nil => exact absurd rfl hvne
        | cons d v =>
          have hc : isLower c := hwl c (List.mem_cons_self _ _)
          have hd : isLower d := hvl d (List.mem_cons_self _ _)
          unfold isLower at hc hd
          simp only [List.map_cons, List.flatten_cons, upperFirst, List.cons_append,
            List.cons.injEq] at h
          obtain ⟨h1, h2⟩ := h
          have hcd : c = d := by
            unfold asciiUpper at h1
            rw [if_pos hc, if_pos hd] at h1
            omega
          obtain ⟨e1, e2⟩ := lower_append_unique w v _ _
            (fun x hx => hwl x (List.mem_cons_of_mem _ hx))
            (fun x hx => hvl x (List.mem_cons_of_mem _ hx))
            (upperFirst_words_head ws (fun u hu => hws u (List.mem_cons_of_mem _ hu)))
            (upperFirst_words_head vs (fun u hu => hvs u (List.mem_cons_of_mem _ hu))) h2
          rw [hcd, e1, ih vs (fun u hu => hws u (List.mem_cons_of_mem _ hu))
            (fun u hu => hvs u (List.mem_cons_of_mem _ hu)) e2]

theorem isAlnum_of_isLower {c : Nat} (h : isLower c) : isAlnum c := by
  unfold isLower at h
  unfold isAlnum
  omega

/-- C20. `PascalCase` is injective on well-formed lower-case names: two
identifiers, each made of one or more non-empty words of lower-case ASCII
letters joined by single underscores, have the same capitalized name only when
they are the same identifier. -/
theorem PascalCase_injective_on_lower_names (a b : GoString) (ha : IsLowerName a)
    (hb : IsLowerName b) : PascalCase a = PascalCase b ↔ a = b := by
  constructor
  · intro h
    obtain ⟨w, ws, hws, rfl⟩ := ha
    obtain ⟨v, vs, hvs, rfl⟩ := hb
    unfold PascalCase at h
    rw [caseLoop_true_words (w :: ws) (by simp)
        (fun u hu => ⟨(hws u hu).1, fun c hc => isAlnum_of_isLower ((hws u hu).2 c hc)⟩),
      caseLoop_true_words (v :: vs) (by simp)
        (fun u hu => ⟨(hvs u hu).1, fun c hc => isAlnum_of_isLower ((hvs u hu).2 c hc)⟩)] at h
    rw [upperFirst_words_injective (w :: ws) (v :: vs) hws hvs h]
  · intro h
    rw [h]

/-- Witness of C20 on the names `bind_group` and `bindgroup`, which differ
and have different capitalized names. -/
theorem PascalCase_injective_on_lower_names_witness :
    (PascalCase (str "bind_group") = PascalCase (str "bindgroup")
      ↔ str "bind_group" = str "bindgroup")
    ∧ PascalCase (str "bind_group") ≠ PascalCase (str "bindgroup") :=
  ⟨PascalCase_injective_on_lower_names (str "bind_group") (str "bindgroup")
      ⟨str "bind", [str "group"], by decide, by decide⟩
      ⟨str "bindgroup", [], by decide, by decide⟩,
    by decide⟩

/-! ## The comment formatter -/

theorem MultilineComment_eq (text : GoString) (indent : Nat) :
    MultilineComment text (indent : Int)
      = if DocFits text then some (commentBlock text indent) else none := by
  unfold MultilineComment DocFits commentBlock
  simp only [Int.toNat_ofNat]
  by_cases h : ∀ line ∈ scanLines (TrimSpace text), line.length < MaxScanTokenSize
  · rw [if_pos h, if_neg]
    simp only [List.any_eq_true, decide_eq_true_eq, not_exists, not_and, not_le]
    exact h
  · rw [if_neg h, if_pos]
    simp only [List.any_eq_true, decide_eq_true_eq]
    simp only [not_forall, not_lt] at h
    obtain ⟨l, hl, hlen⟩ := h
    exact ⟨l, hl, hlen⟩

theorem writeDoc_eq (doc : GoString) (indent : Nat) :
    writeDoc doc (indent : Int)
      = if DocFits doc then some (commentBlock doc indent ++ str "\n") else none := by
  unfold writeDoc
  rw [MultilineComment_eq]
  by_cases h : DocFits doc <;> simp [h, docsEnabled]

theorem writeDoc_of_fits (doc : GoString) (indent : Nat) (h : DocFits doc) :
    writeDoc doc (indent : Int) = some (commentBlock doc indent ++ str "\n") := by
  rw [writeDoc_eq, if_pos h]

theorem writeDoc_eq_none_iff (doc : GoString) (indent : Nat) :
    writeDoc doc (indent : Int) = none ↔ ¬ DocFits doc := by
  rw [writeDoc_eq]
  by_cases h : DocFits doc <;> simp [h]

theorem writeDoc_zero (doc : GoString) :
    writeDoc doc 0 = if DocFits doc then some (commentBlock doc 0 ++ str "\n") else none :=
  writeDoc_eq doc 0

theorem writeDoc_four (doc : GoString) :
    writeDoc doc 4 = if DocFits doc then some (commentBlock doc 4 ++ str "\n") else none :=
  writeDoc_eq doc 4

theorem trimSpaces_of_width_zero (encs : List GoString) (n : Nat) (s : GoString)
    (h : spaceWidth encs s = 0) : trimSpaces encs n s = s := by
  cases n <;> simp [trimSpaces, h]

theorem scanLines_replicate (n : Nat) :
    scanLines (List.replicate (n + 1) 97) = [List.replicate (n + 1) 97] := by
  induction n with
  | zero => simp [scanLines]
  | succ n ih =>
    rw [List.replicate_succ, scanLines, if_neg (by decide), ih]

theorem spaceWidth_letter (encs : List GoString) (rest : GoString)
    (h : ∀ e ∈ encs, e ≠ [] ∧ e.head? ≠ some 97) : spaceWidth encs (97 :: rest) = 0 := by
  unfold spaceWidth
  have hf : encs.find? (fun e => HasPrefix (97 :: rest) e) = none := by
    rw [List.find?_eq_none]
    intro e he
    obtain ⟨hne, hh⟩ := h e he
    cases e with
    | nil => exact absurd rfl hne
    | cons x e =>
      simp only [List.head?_cons, ne_eq, Option.some.injEq] at hh
      have hx : ¬ (97 = x) := fun h => hh h.symm
      simp [HasPrefix, List.take_succ_cons, hx]
  simp [asciiSpace, hf]

theorem TrimSpace_replicate (n : Nat) :
    TrimSpace (List.replicate (n + 1) 97) = List.replicate (n + 1) 97 := by
  unfold TrimSpace
  have h1 : spaceWidth unicodeSpaces (List.replicate (n + 1) 97) = 0 := by
    rw [List.replicate_succ]
    exact spaceWidth_letter _ _ (by decide)
  have h2 : spaceWidth (unicodeSpaces.map List.reverse) (List.replicate (n + 1) 97) = 0 := by
    rw [List.replicate_succ]
    exact spaceWidth_letter _ _ (by decide)
  simp only [trimSpaces_of_width_zero _ _ _ h1, List.reverse_replicate,
    trimSpaces_of_width_zero _ _ _ h2]

theorem scanLines_TrimSpace_longLine :
    scanLines (TrimSpace longLine) = [longLine] := by
  have e : longLine = List.replicate (65535 + 1) 97 := rfl
  rw [e, TrimSpace_replicate, scanLines_replicate]

theorem not_docFits_longLine : ¬ DocFits longLine := by
  intro h
  have h1 := h longLine (by rw [scanLines_TrimSpace_longLine]; exact List.mem_singleton_self _)
  have h2 : longLine.length = MaxScanTokenSize := List.length_replicate _ _
  omega

/-! ## The typedef block of a struct -/

theorem emitAll_eq_some_map {α : Type} (f : α → Option GoString) (g : α → GoString)
    (l : List α) (out : GoString) (h : emitAll f l = some out)
    (hg : ∀ a ∈ l, ∀ x, f a = some x → x = g a) : out = (l.map g).flatten := by
  induction l generalizing out with
  | nil =>
    simp only [emitAll, Option.some.injEq] at h
    simp [← h]
  | cons a l ih =>
    cases hfa : f a with
    | none => simp [emitAll, hfa] at h
    | some x =>
      cases hl : emitAll f l with
      | none => simp [emitAll, hfa, hl] at h
      | some y =>
        simp only [emitAll, hfa, hl, Option.some.injEq] at h
        rw [← h, hg a (List.mem_cons_self _ _) x hfa,
          ih y hl (fun b hb => hg b (List.mem_cons_of_mem _ hb))]
        simp

theorem emitAll_eq_some_of_forall {α : Type} (f : α → Option GoString) (g : α → GoString)
    (l : List α) (h : ∀ a ∈ l, f a = some (g a)) : emitAll f l = some (l.map g).flatten := by
  induction l with
  | nil => rfl
  | cons a l ih =>
    simp only [emitAll]
    rw [h a (List.mem_cons_self _ _), ih (fun b hb => h b (List.mem_cons_of_mem _ hb))]
    simp

theorem memberLine_optional (member : StructMember) (t : GoString)
    (ho : member.Optional = true) :
    memberLine member t
      = str "    WGPU_NULLABLE " ++ t ++ str " " ++ CamelCase member.Name ++ str ";\n" := by
  have e : str "    WGPU_NULLABLE " = str "    " ++ str "WGPU_NULLABLE " := by decide
  unfold memberLine
  rw [e, if_pos ho]

theorem memberLine_required (member : StructMember) (t : GoString)
    (ho : member.Optional = false) :
    memberLine member t = str "    " ++ t ++ str " " ++ CamelCase member.Name ++ str ";\n" := by
  unfold memberLine
  rw [if_neg (by simp [ho])]
  simp only [List.append_nil]

theorem writeStructMember_of_fits (member : StructMember) (hd : DocFits member.Doc)
    (t : GoString) (ht : CType member.Typ member.Pointer = some t) :
    writeStructMember member = some (commentBlock member.Doc 4 ++ str "\n" ++ memberLine member t) := by
  unfold writeStructMember
  rw [writeDoc_four, if_pos hd, ht]
  by_cases ho : member.Optional = true
  · simp only [ho, if_true, memberLine_optional member t ho, List.append_assoc]
  · simp only [Bool.not_eq_true] at ho
    simp only [ho, Bool.false_eq_true, if_false, memberLine_required member t ho,
      List.append_assoc]

theorem writeStructMember_of_some (member : StructMember) (out : GoString)
    (h : writeStructMember member = some out) :
    DocFits member.Doc ∧ out = renderMember member := by
  have hf : DocFits member.Doc := by
    by_contra hf
    unfold writeStructMember at h
    rw [writeDoc_four, if_neg hf] at h
    simp at h
  refine ⟨hf, ?_⟩
  cases ht : CType member.Typ member.Pointer with
  | none =>
    unfold writeStructMember at h
    rw [ht] at h
    cases hw : writeDoc member.Doc 4 <;> simp [hw] at h
  | some t =>
    rw [writeStructMember_of_fits member hf t ht] at h
    unfold renderMember
    rw [ht, ← Option.some.inj h]
    simp only [Option.getD_some, List.append_assoc]

theorem CType_of_recognized (t : GoString) (p : PointerType) (h : Recognized t) :
    ∃ x, CType t p = some x :=
  Option.ne_none_iff_exists'.1 (fun hn => ((CType_eq_none_iff t p).1 hn) h)

theorem writeStructKind_eq_none (kind : GoString) (h : kind ∉ structKinds) :
    writeStructKind kind = none := by
  unfold structKinds at h
  simp only [List.mem_cons, List.mem_singleton, List.not_mem_nil, or_false, not_or] at h
  obtain ⟨h1, h2, h3, h4, h5⟩ := h
  unfold writeStructKind
  rw [if_neg h1, if_neg h2, if_neg h3, if_neg h4, if_neg h5]

theorem writeStructKind_of_mem (kind : GoString) (h : kind ∈ structKinds) :
    ∃ k, writeStructKind kind = some k := by
  unfold structKinds at h
  simp only [List.mem_cons, List.mem_singleton, List.not_mem_nil, or_false] at h
  rcases h with h | h | h | h | h <;> subst h <;> exact Option.isSome_iff_exists.1 (by decide)

theorem writeStruct_of_some (s : Struct) (out : GoString) (h : writeStruct s = some out) :
    ∃ k, writeStructKind s.Typ = some k ∧ out = renderStruct s k := by
  unfold writeStruct at h
  cases hd : writeDoc s.Doc 0 with
  | none => simp [hd] at h
  | some d =>
    cases hk : writeStructKind s.Typ with
    | none => simp [hd, hk] at h
    | some k =>
      cases hm : emitAll writeStructMember s.Members with
      | none => simp [hd, hk, hm] at h
      | some ms =>
        simp only [hd, hk, hm, Option.some.injEq] at h
        have hf : DocFits s.Doc := by
          by_contra hf
          rw [writeDoc_zero, if_neg hf] at hd
          cases hd
        have h0 := hd
        rw [writeDoc_zero, if_pos hf] at h0
        have hms := emitAll_eq_some_map writeStructMember renderMember s.Members ms hm
          (fun m _ x hx => (writeStructMember_of_some m x hx).2)
        refine ⟨k, rfl, ?_⟩
        unfold renderStruct
        rw [← h, ← Option.some.inj h0, hms]

theorem writeStruct_of_renders (s : Struct) (h : StructRenders s) :
    ∃ k, writeStructKind s.Typ = some k ∧ writeStruct s = some (renderStruct s k) := by
  obtain ⟨hd, hk, hm⟩ := h
  obtain ⟨k, hk'⟩ := writeStructKind_of_mem s.Typ hk
  have h0 : writeDoc s.Doc 0 = some (commentBlock s.Doc 0 ++ str "\n") := by
    rw [writeDoc_zero, if_pos hd]
  have hms : emitAll writeStructMember s.Members = some (s.Members.map renderMember).flatten := by
    apply emitAll_eq_some_of_forall
    intro m hmem
    obtain ⟨t, ht⟩ := CType_of_recognized m.Typ m.Pointer (hm m hmem).2
    rw [writeStructMember_of_fits m (hm m hmem).1 t ht]
    unfold renderMember
    rw [ht]
    simp only [Option.getD_some, List.append_assoc]
  refine ⟨k, hk', ?_⟩
  unfold writeStruct renderStruct
  rw [h0, hk', hms]

/-- C17. The structural kind alone determines the leading field that
`writeStructs` writes before the members of a struct, in either pass:
`standalone` gives none, `base_in` gives `WGPUChainedStruct const *
nextInChain;`, `extension_in` gives `WGPUChainedStruct chain;`, `base_out`
gives `WGPUChainedStructOut * nextInChain;` and `extension_out` gives
`WGPUChainedStructOut chain;`. The typedef block of a struct is the comment
block, the opening line, this leading field, the members in authored order
and the closing line. A struct of any other kind, the empty string included,
makes `writeStructs` abort. -/
theorem writeStruct_leading_field :
    writeStructKind (str "standalone") = some []
    ∧ writeStructKind (str "base_in") = some (str "    WGPUChainedStruct const * nextInChain;\n")
    ∧ writeStructKind (str "extension_in") = some (str "    WGPUChainedStruct chain;\n")
    ∧ writeStructKind (str "base_out") = some (str "    WGPUChainedStructOut * nextInChain;\n")
    ∧ writeStructKind (str "extension_out") = some (str "    WGPUChainedStructOut chain;\n")
    ∧ writeStructKind [] = none
    ∧ (∀ kind, kind ∉ structKinds → writeStructKind kind = none)
    ∧ (∀ s, writeSkippedStruct s = writeStruct s)
    ∧ (∀ s out, writeStruct s = some out →
        ∃ k, writeStructKind s.Typ = some k ∧ out = renderStruct s k)
    ∧ (∀ s, StructRenders s →
        ∃ k, writeStructKind s.Typ = some k ∧ writeStruct s = some (renderStruct s k))
    ∧ (∀ yml s, s ∈ yml.Structs → s.Typ ∉ structKinds → writeStructs yml = none) := by
  refine ⟨by decide, by decide, by decide, by decide, by decide, by decide,
    writeStructKind_eq_none, writeSkippedStruct_eq, writeStruct_of_some, writeStruct_of_renders,
    ?_⟩
  intro yml s hs hk
  apply writeStructs_eq_none yml s hs
  unfold writeStruct
  rw [writeStructKind_eq_none s.Typ hk]
  cases writeDoc s.Doc 0 <;> rfl

/-- Witness of C17 on the struct `buffer_descriptor` of the kind `base_in`
and on a schema with a struct of the unknown kind `extension`. -/
theorem writeStruct_leading_field_witness :
    writeStruct baseInStruct
        = some (str "/**\n * A buffer.\n */\ntypedef struct WGPUBufferDescriptor \x7b\n    WGPUChainedStruct const * nextInChain;\n    /**\n     */\n    uint64_t size;\n\x7d WGPUBufferDescriptor WGPU_STRUCTURE_ATTRIBUTE;\n\n")
    ∧ (∃ k, writeStructKind baseInStruct.Typ = some k
        ∧ writeStruct baseInStruct = some (renderStruct baseInStruct k))
    ∧ writeStructs unknownKindSchema = none :=
  ⟨by decide, writeStruct_leading_field.2.2.2.2.2.2.2.2.2.1 baseInStruct (by decide),
    writeStruct_leading_field.2.2.2.2.2.2.2.2.2.2 unknownKindSchema unknownKindStruct
      (by decide) (by decide)⟩

/-! ## Every struct once -/

theorem sortedStructs_sorted (yml : Yml) :
    (sortedStructs yml).Pairwise
      (fun a b => stringsCompare (PascalCase a.Name) (PascalCase b.Name) ≤ 0) :=
  sortStableFunc_sorted (fun s : Struct => PascalCase s.Name) yml.Structs

theorem writeStructs_eq_emitAll (yml : Yml) :
    writeStructs yml
      = (emitAll writeStruct (pass1Structs yml ++ skippedStructs yml)).map
          (fun body => chainedStructsText ++ body) := by
  unfold writeStructs
  rw [emitAll_writeSkippedStruct, emitAll_append]
  cases emitAll writeStruct (pass1Structs yml) <;>
    cases emitAll writeStruct (skippedStructs yml) <;>
    simp [andThen, chainedStructsText]

/-- C19 as the code has it. The structs that `writeStructs` visits in pass 1
followed by those of pass 2 are a permutation of the structs of the schema,
each pass is in non-decreasing order of capitalized name, and both passes
write the same typedef block for a struct. Every text that `writeStructs`
writes is the two chain-link structs followed by the typedef blocks of the
structs in this order, each exactly once; and it writes this text for every
schema whose struct kinds and member types are all recognized and whose
documentation texts all fit the scanner (no line of 65536 bytes or more). -/
theorem writeStructs_each_struct_once (yml : Yml) :
    (pass1Structs yml ++ skippedStructs yml).Perm yml.Structs
    ∧ NonDecreasing ((pass1Structs yml).map (fun s => PascalCase s.Name))
    ∧ NonDecreasing ((skippedStructs yml).map (fun s => PascalCase s.Name))
    ∧ (∀ s, writeSkippedStruct s = writeStruct s)
    ∧ (∀ out, writeStructs yml = some out →
        out = chainedStructsText
          ++ ((pass1Structs yml ++ skippedStructs yml).map
              (fun s => renderStruct s ((writeStructKind s.Typ).getD []))).flatten)
    ∧ ((∀ s ∈ yml.Structs, StructRenders s) →
        writeStructs yml = some (chainedStructsText
          ++ ((pass1Structs yml ++ skippedStructs yml).map
              (fun s => renderStruct s ((writeStructKind s.Typ).getD []))).flatten)) := by
  have hperm : (pass1Structs yml ++ skippedStructs yml).Perm yml.Structs :=
    (filter_partition_perm (fun s : Struct => hasStructMember s) (sortedStructs yml)).trans
      (sortStableFunc_perm _ _)
  refine ⟨hperm, ?_, ?_, writeSkippedStruct_eq, ?_, ?_⟩
  · exact nonDecreasing_map_of_sorted (fun s : Struct => PascalCase s.Name) _
      ((sortedStructs_sorted yml).filter _)
  · exact nonDecreasing_map_of_sorted (fun s : Struct => PascalCase s.Name) _
      ((sortedStructs_sorted yml).filter _)
  · intro out hout
    rw [writeStructs_eq_emitAll] at hout
    cases hb : emitAll writeStruct (pass1Structs yml ++ skippedStructs yml) with
    | none => simp [hb] at hout
    | some body =>
      simp only [hb, Option.map_some', Option.some.injEq] at hout
      rw [← hout, emitAll_eq_some_map writeStruct
        (fun s => renderStruct s ((writeStructKind s.Typ).getD [])) _ body hb (fun s _ x hx => by
          obtain ⟨k, hk, hx'⟩ := writeStruct_of_some s x hx
          show x = renderStruct s ((writeStructKind s.Typ).getD [])
          rw [hk, hx']
          rfl)]
  · intro hall
    rw [writeStructs_eq_emitAll, emitAll_eq_some_of_forall writeStruct
      (fun s => renderStruct s ((writeStructKind s.Typ).getD [])) _ (fun s hs => by
        obtain ⟨k, hk, hw⟩ := writeStruct_of_renders s (hall s (hperm.subset hs))
        show writeStruct s = some (renderStruct s ((writeStructKind s.Typ).getD []))
        rw [hk, hw]
        rfl)]
    rfl

theorem writeStruct_eq_none_of_doc (s : Struct) (h : ¬ DocFits s.Doc) :
    writeStruct s = none := by
  unfold writeStruct
  rw [writeDoc_zero, if_neg h]

theorem MultilineComment_eq_none_of_doc (text : GoString) (h : ¬ DocFits text) :
    MultilineComment text 0 = none := by
  have h0 : MultilineComment text 0
      = if DocFits text then some (commentBlock text 0) else none :=
    MultilineComment_eq text 0
  rw [h0, if_neg h]

/-- Witness of C19 on the schema that lists `copy_view` before the struct
`extent` that it embeds: both are written once, `extent` first. -/
theorem writeStructs_each_struct_once_witness :
    pass1Structs nestedStructsSchema ++ skippedStructs nestedStructsSchema
        = [extentStruct, copyViewStruct]
    ∧ writeStructs nestedStructsSchema = some (chainedStructsText
          ++ ((pass1Structs nestedStructsSchema ++ skippedStructs nestedStructsSchema).map
              (fun s => renderStruct s ((writeStructKind s.Typ).getD []))).flatten) :=
  ⟨by decide, (writeStructs_each_struct_once nestedStructsSchema).2.2.2.2.2 (by decide)⟩

/-- Counterexample to C19. The only struct of the schema is standalone and
has no member, so the struct kinds and member types of the schema are all
recognized; its documentation is one line of 65536 bytes, on which the scanner
of `MultilineComment` fails: `writeStructs` aborts and the struct is not
written. -/
theorem writeStructs_each_struct_once_counterexample :
    (∀ s ∈ longDocStructSchema.Structs,
      s.Typ ∈ structKinds ∧ ∀ m ∈ s.Members, Recognized m.Typ)
    ∧ longDocStruct ∈ longDocStructSchema.Structs
    ∧ MultilineComment longDocStruct.Doc 0 = none
    ∧ writeStructs longDocStructSchema = none := by
  refine ⟨?_, List.mem_singleton_self _,
    MultilineComment_eq_none_of_doc longDocStruct.Doc not_docFits_longLine, ?_⟩
  · intro s hs
    have : s = longDocStruct := List.mem_singleton.1 hs
    subst this
    exact ⟨by decide, fun m hm => absurd hm (List.not_mem_nil m)⟩
  · exact writeStructs_eq_none longDocStructSchema longDocStruct (List.mem_singleton_self _)
      (writeStruct_eq_none_of_doc longDocStruct not_docFits_longLine)

/-! ## The line of a struct member -/

theorem renderStruct_of_mem (s : Struct) (k : GoString) (member : StructMember)
    (hm : member ∈ s.Members) :
    ∃ pre post, renderStruct s k = pre ++ renderMember member ++ post := by
  obtain ⟨l₁, l₂, e⟩ := List.append_of_mem hm
  unfold renderStruct
  rw [e]
  refine ⟨commentBlock s.Doc 0 ++ str "\n" ++ str "typedef struct WGPU" ++ PascalCase s.Name
      ++ str " \x7b\n" ++ k ++ (l₁.map renderMember).flatten,
    (l₂.map renderMember).flatten ++ str "\x7d WGPU" ++ PascalCase s.Name
      ++ str " WGPU_STRUCTURE_ATTRIBUTE;\n\n", ?_⟩
  simp only [List.map_append, List.map_cons, List.flatten_append, List.flatten_cons,
    List.append_assoc]

theorem writeStruct_member_text (s : Struct) (out : GoString) (member : StructMember)
    (t : GoString) (ht : CType member.Typ member.Pointer = some t) (hm : member ∈ s.Members)
    (h : writeStruct s = some out) :
    ∃ pre post, out = pre ++ (commentBlock member.Doc 4 ++ str "\n" ++ memberLine member t)
      ++ post := by
  obtain ⟨k, _, hout⟩ := writeStruct_of_some s out h
  obtain ⟨pre, post, e⟩ := renderStruct_of_mem s k member hm
  refine ⟨pre, post, ?_⟩
  rw [hout, e]
  unfold renderMember
  rw [ht]
  rfl

/-- C16 as the code has it. For a struct member with a recognized type, what
`writeStructs` writes for the member, in the first loop and in the second
loop alike, is its comment block and then the member line: four spaces,
`WGPU_NULLABLE ` exactly when the member is optional, `CType` of its type and
pointer qualifier, a space, `CamelCase` of its name and `;`; so optionality
does not change the rendered type. For every type other than `string`, an
optional member with an immutable pointer is `WGPU_NULLABLE T const * name;`
and a member with a mutable pointer that is not optional is `T * name;`, `T`
being the unqualified type. A member of type `string` has its type rendered as
`char const *` whatever its pointer qualifier. The line is written whenever
the documentation of the member fits the scanner. -/
theorem writeStructMember_line (member : StructMember) (ht : Recognized member.Typ) :
    ∃ t, CType member.Typ member.Pointer = some t
      ∧ (∀ out, writeStructMember member = some out →
          out = commentBlock member.Doc 4 ++ str "\n" ++ memberLine member t)
      ∧ (DocFits member.Doc →
          writeStructMember member
            = some (commentBlock member.Doc 4 ++ str "\n" ++ memberLine member t))
      ∧ (∀ s out, member ∈ s.Members → writeStruct s = some out →
          ∃ pre post,
            out = pre ++ (commentBlock member.Doc 4 ++ str "\n" ++ memberLine member t) ++ post)
      ∧ (∀ s out, member ∈ s.Members → writeSkippedStruct s = some out →
          ∃ pre post,
            out = pre ++ (commentBlock member.Doc 4 ++ str "\n" ++ memberLine member t) ++ post)
      ∧ (member.Typ ≠ str "string" →
          ∃ T, CType member.Typ PointerTypeNone = some T
            ∧ (member.Pointer = PointerTypeImmutable → member.Optional = true →
                memberLine member t
                  = str "    WGPU_NULLABLE " ++ T ++ str " const * " ++ CamelCase member.Name
                    ++ str ";\n")
            ∧ (member.Pointer = PointerTypeMutable → member.Optional = false →
                memberLine member t
                  = str "    " ++ T ++ str " * " ++ CamelCase member.Name ++ str ";\n"))
      ∧ (member.Typ = str "string" → t = str "char const *") := by
  obtain ⟨t, ht'⟩ := CType_of_recognized member.Typ member.Pointer ht
  refine ⟨t, ht', ?_, fun hd => writeStructMember_of_fits member hd t ht', ?_, ?_, ?_, ?_⟩
  · intro out hout
    obtain ⟨hd, _⟩ := writeStructMember_of_some member out hout
    rw [writeStructMember_of_fits member hd t ht'] at hout
    exact (Option.some.inj hout).symm
  · intro s out hm hout
    exact writeStruct_member_text s out member t ht' hm hout
  · intro s out hm hout
    rw [writeSkippedStruct_eq] at hout
    exact writeStruct_member_text s out member t ht' hm hout
  · intro hs
    obtain ⟨base, hb⟩ := CType_of_recognized member.Typ PointerTypeNone ht
    refine ⟨base, hb, ?_, ?_⟩
    · intro hp ho
      rw [hp, CType_eq_map_none _ _ hs, hb, Option.map_some', appendModifiers_immutable] at ht'
      have e2 : str " const * " = str " const *" ++ str " " := by decide
      rw [memberLine_optional member t ho, ← Option.some.inj ht', e2]
      simp only [List.append_assoc]
    · intro hp ho
      rw [hp, CType_eq_map_none _ _ hs, hb, Option.map_some', appendModifiers_mutable] at ht'
      have e2 : str " * " = str " *" ++ str " " := by decide
      rw [memberLine_required member t ho, ← Option.some.inj ht', e2]
      simp only [List.append_assoc]
  · intro hs
    rw [hs, CType_string] at ht'
    exact (Option.some.inj ht').symm

/-- Witness of C16 on the optional member `entry_count` of type `uint32`
behind an immutable pointer, written as
`WGPU_NULLABLE uint32_t const * entryCount;`. -/
theorem writeStructMember_line_witness :
    writeStructMember optionalPointerMember
        = some (str "    /**\n     */\n    WGPU_NULLABLE uint32_t const * entryCount;\n")
    ∧ ∃ t, CType optionalPointerMember.Typ optionalPointerMember.Pointer = some t
      ∧ (∀ out, writeStructMember optionalPointerMember = some out →
          out = commentBlock optionalPointerMember.Doc 4 ++ str "\n"
            ++ memberLine optionalPointerMember t)
      ∧ (DocFits optionalPointerMember.Doc →
          writeStructMember optionalPointerMember
            = some (commentBlock optionalPointerMember.Doc 4 ++ str "\n"
                ++ memberLine optionalPointerMember t))
      ∧ (∀ s out, optionalPointerMember ∈ s.Members → writeStruct s = some out →
          ∃ pre post,
            out = pre ++ (commentBlock optionalPointerMember.Doc 4 ++ str "\n"
              ++ memberLine optionalPointerMember t) ++ post)
      ∧ (∀ s out, optionalPointerMember ∈ s.Members → writeSkippedStruct s = some out →
          ∃ pre post,
            out = pre ++ (commentBlock optionalPointerMember.Doc 4 ++ str "\n"
              ++ memberLine optionalPointerMember t) ++ post)
      ∧ (optionalPointerMember.Typ ≠ str "string" →
          ∃ T, CType optionalPointerMember.Typ PointerTypeNone = some T
            ∧ (optionalPointerMember.Pointer = PointerTypeImmutable →
                optionalPointerMember.Optional = true →
                memberLine optionalPointerMember t
                  = str "    WGPU_NULLABLE " ++ T ++ str " const * "
                    ++ CamelCase optionalPointerMember.Name ++ str ";\n")
            ∧ (optionalPointerMember.Pointer = PointerTypeMutable →
                optionalPointerMember.Optional = false →
                memberLine optionalPointerMember t
                  = str "    " ++ T ++ str " * " ++ CamelCase optionalPointerMember.Name
                    ++ str ";\n"))
      ∧ (optionalPointerMember.Typ = str "string" → t = str "char const *") :=
  ⟨by decide, writeStructMember_line optionalPointerMember (by decide)⟩

/-- Counterexample to C16. A member of the recognized type `string` with the
mutable pointer qualifier that is not optional is written as
`char const * label;`: this is not the unqualified type `char const *`
followed by ` * label;`, and it is the line of the same member with the
immutable qualifier. The optional member of type `string` with the immutable
qualifier is written as `WGPU_NULLABLE char const * label;`, not as the
unqualified type followed by ` const * label;`. -/
theorem writeStructMember_line_counterexample :
    Recognized mutableStringMember.Typ
    ∧ mutableStringMember.Pointer = PointerTypeMutable
    ∧ mutableStringMember.Optional = false
    ∧ CType mutableStringMember.Typ PointerTypeNone = some (str "char const *")
    ∧ writeStructMember mutableStringMember
        = some (str "    /**\n     */\n    char const * label;\n")
    ∧ writeStructMember mutableStringMember
        ≠ some (str "    /**\n     */\n" ++ str "    " ++ str "char const *" ++ str " * "
            ++ CamelCase mutableStringMember.Name ++ str ";\n")
    ∧ writeStructMember
          { Name := str "label", Typ := str "string", Pointer := PointerTypeImmutable,
            Optional := false, Doc := [] }
        = writeStructMember mutableStringMember
    ∧ immutableStringMember.Pointer = PointerTypeImmutable
    ∧ immutableStringMember.Optional = true
    ∧ writeStructMember immutableStringMember
        = some (str "    /**\n     */\n    WGPU_NULLABLE char const * label;\n")
    ∧ writeStructMember immutableStringMember
        ≠ some (str "    /**\n     */\n" ++ str "    WGPU_NULLABLE " ++ str "char const *"
            ++ str " const * " ++ CamelCase immutableStringMember.Name ++ str ";\n") := by
  decide

/-! ## Procedure typedefs and function declarations -/

theorem writeArgs_of_some (args : List FunctionArg) (vs : List GoString)
    (h : writeArgs args = some vs) : vs = args.map argText := by
  induction args generalizing vs with
  | nil =>
    simp only [writeArgs, Option.some.injEq] at h
    simp [← h]
  | cons a rest ih =>
    cases ht : CType a.Typ a.Pointer with
    | none => simp [writeArgs, ht] at h
    | some t =>
      cases hr : writeArgs rest with
      | none => simp [writeArgs, ht, hr] at h
      | some ws =>
        simp only [writeArgs, ht, hr, Option.some.injEq] at h
        rw [← h, ih ws hr]
        simp [argText, ht]

theorem writeArgs_of_recognized (args : List FunctionArg)
    (h : ∀ arg ∈ args, Recognized arg.Typ) : writeArgs args = some (args.map argText) := by
  cases hw : writeArgs args with
  | some vs => rw [writeArgs_of_some args vs hw]
  | none =>
    exfalso
    induction args with
    | nil => simp [writeArgs] at hw
    | cons a rest ih =>
      obtain ⟨t, ht⟩ := CType_of_recognized a.Typ a.Pointer (h a (List.mem_cons_self _ _))
      cases hr : writeArgs rest with
      | none => exact ih (fun b hb => h b (List.mem_cons_of_mem _ hb)) hr
      | some ws => simp [writeArgs, ht, hr] at hw

theorem writeProcTypedef_of_some (o : Object) (method : Function) (out : GoString)
    (h : writeProcTypedef o method = some out) :
    out = typedefLine (returnTypeOf method) (PascalCase o.Name) (PascalCase method.Name)
      (parameterList o method) := by
  unfold writeProcTypedef at h
  cases ht : CType method.Returns.Typ method.Returns.Pointer with
  | none => simp [ht] at h
  | some R =>
    cases ha : writeArgs method.Args with
    | none => simp [ht, ha] at h
    | some vs =>
      simp only [ht, ha, Option.some.injEq] at h
      rw [← h, writeArgs_of_some _ _ ha]
      simp only [typedefLine, returnTypeOf, parameterList, objectHandle, ht, Option.getD_some,
        List.append_assoc]

theorem writeProcDecl_of_some (o : Object) (method : Function) (out : GoString)
    (h : writeProcDecl o method = some out) :
    out = declLine (returnTypeOf method) (PascalCase o.Name) (PascalCase method.Name)
      (parameterList o method) := by
  unfold writeProcDecl at h
  cases ht : CType method.Returns.Typ method.Returns.Pointer with
  | none => simp [ht] at h
  | some R =>
    cases ha : writeArgs method.Args with
    | none => simp [ht, ha] at h
    | some vs =>
      simp only [ht, ha, Option.some.injEq] at h
      rw [← h, writeArgs_of_some _ _ ha]
      simp only [declLine, returnTypeOf, parameterList, objectHandle, ht, Option.getD_some,
        List.append_assoc]

theorem writeProcTypedef_of_recognized (o : Object) (method : Function)
    (h : MethodRecognized method) :
    writeProcTypedef o method
      = some (typedefLine (returnTypeOf method) (PascalCase o.Name) (PascalCase method.Name)
          (parameterList o method)) := by
  obtain ⟨R, hR⟩ := CType_of_recognized method.Returns.Typ method.Returns.Pointer h.1
  cases hw : writeProcTypedef o method with
  | some out => rw [writeProcTypedef_of_some o method out hw]
  | none =>
    unfold writeProcTypedef at hw
    rw [hR, writeArgs_of_recognized method.Args h.2] at hw
    cases hw

theorem writeProcDecl_of_recognized (o : Object) (method : Function)
    (h : MethodRecognized method) :
    writeProcDecl o method
      = some (declLine (returnTypeOf method) (PascalCase o.Name) (PascalCase method.Name)
          (parameterList o method)) := by
  obtain ⟨R, hR⟩ := CType_of_recognized method.Returns.Typ method.Returns.Pointer h.1
  cases hw : writeProcDecl o method with
  | some out => rw [writeProcDecl_of_some o method out hw]
  | none =>
    unfold writeProcDecl at hw
    rw [hR, writeArgs_of_recognized method.Args h.2] at hw
    cases hw

theorem writeProcTypedef_eq_none_iff (o : Object) (method : Function) :
    writeProcTypedef o method = none ↔ writeProcDecl o method = none := by
  unfold writeProcTypedef writeProcDecl
  cases CType method.Returns.Typ method.Returns.Pointer <;>
    cases writeArgs method.Args <;> simp

theorem procMethods_recognized (o : Object) (h : ∀ m ∈ o.Methods, MethodRecognized m) :
    ∀ m ∈ procMethods o, MethodRecognized m := by
  intro m hm
  unfold procMethods at hm
  rcases List.mem_append.1 hm with h1 | h1
  · exact h m ((mem_sortStableFunc _ _ _).1 h1)
  · have hs : ∀ x ∈ syntheticMethods, MethodRecognized x := by decide
    exact hs m h1

theorem writeObjectProcs_of_some (o : Object) (x : GoString) (h : writeObjectProcs o = some x) :
    x = objectProcsText o := by
  unfold writeObjectProcs at h
  cases hm : emitAll (writeProcTypedef o) (procMethods o) with
  | none => simp [hm] at h
  | some ms =>
    simp only [hm, Option.some.injEq] at h
    rw [← h, emitAll_eq_some_map (writeProcTypedef o) _ _ ms hm
      (fun m _ y hy => writeProcTypedef_of_some o m y hy)]
    rfl

theorem writeObjectMethods_of_some (o : Object) (x : GoString)
    (h : writeObjectMethods o = some x) : x = objectMethodsText o := by
  unfold writeObjectMethods at h
  cases hm : emitAll (writeProcDecl o) (procMethods o) with
  | none => simp [hm] at h
  | some ms =>
    simp only [hm, Option.some.injEq] at h
    rw [← h, emitAll_eq_some_map (writeProcDecl o) _ _ ms hm
      (fun m _ y hy => writeProcDecl_of_some o m y hy)]
    rfl

theorem writeObjectProcs_of_recognized (o : Object)
    (h : ∀ m ∈ o.Methods, MethodRecognized m) : writeObjectProcs o = some (objectProcsText o) := by
  unfold writeObjectProcs
  rw [emitAll_eq_some_of_forall (writeProcTypedef o) _ _
    (fun m hm => writeProcTypedef_of_recognized o m (procMethods_recognized o h m hm))]
  rfl

theorem writeObjectMethods_of_recognized (o : Object)
    (h : ∀ m ∈ o.Methods, MethodRecognized m) :
    writeObjectMethods o = some (objectMethodsText o) := by
  unfold writeObjectMethods
  rw [emitAll_eq_some_of_forall (writeProcDecl o) _ _
    (fun m hm => writeProcDecl_of_recognized o m (procMethods_recognized o h m hm))]
  rfl

theorem stringsJoin_singleton (x sep : GoString) : stringsJoin [x] sep = x := by
  simp [stringsJoin, List.intercalate]

theorem synthetic_typedefLines (o : Object) :
    syntheticMethods.map (fun m =>
        typedefLine (returnTypeOf m) (PascalCase o.Name) (PascalCase m.Name) (parameterList o m))
      = [typedefLine (str "void") (PascalCase o.Name) (str "Reference") (objectHandle o),
         typedefLine (str "void") (PascalCase o.Name) (str "Release") (objectHandle o)] := by
  have e1 : returnTypeOf syntheticMethods[0] = str "void" := by decide
  have e2 : returnTypeOf syntheticMethods[1] = str "void" := by decide
  have n1 : PascalCase (syntheticMethods[0]).Name = str "Reference" := by decide
  have n2 : PascalCase (syntheticMethods[1]).Name = str "Release" := by decide
  have a1 : (syntheticMethods[0]).Args = [] := by decide
  have a2 : (syntheticMethods[1]).Args = [] := by decide
  have hs : syntheticMethods = [syntheticMethods[0], syntheticMethods[1]] := by decide
  rw [hs]
  simp only [List.map_cons, List.map_nil, parameterList]
  rw [e1, e2, n1, n2, a1, a2]
  simp only [List.map_nil, stringsJoin_singleton]

theorem synthetic_declLines (o : Object) :
    syntheticMethods.map (fun m =>
        declLine (returnTypeOf m) (PascalCase o.Name) (PascalCase m.Name) (parameterList o m))
      = [declLine (str "void") (PascalCase o.Name) (str "Reference") (objectHandle o),
         declLine (str "void") (PascalCase o.Name) (str "Release") (objectHandle o)] := by
  have e1 : returnTypeOf syntheticMethods[0] = str "void" := by decide
  have e2 : returnTypeOf syntheticMethods[1] = str "void" := by decide
  have n1 : PascalCase (syntheticMethods[0]).Name = str "Reference" := by decide
  have n2 : PascalCase (syntheticMethods[1]).Name = str "Release" := by decide
  have a1 : (syntheticMethods[0]).Args = [] := by decide
  have a2 : (syntheticMethods[1]).Args = [] := by decide
  have hs : syntheticMethods = [syntheticMethods[0], syntheticMethods[1]] := by decide
  rw [hs]
  simp only [List.map_cons, List.map_nil, parameterList]
  rw [e1, e2, n1, n2, a1, a2]
  simp only [List.map_nil, stringsJoin_singleton]

/-- C14. For an object with `n` declared methods whose types are all
recognized, `writeProcs` writes for that object `n + 2` typedefs of function
pointers and `n + 2` function declarations: one for each declared method, then
one `Reference` and one `Release`, each of the two with the return type `void`
and the handle of the object, `WGPU<Object> <objectCamelName>`, as its only
parameter. -/
theorem writeProcs_n_plus_two (o : Object) (h : ∀ m ∈ o.Methods, MethodRecognized m) :
    writeObjectProcs o
        = some (str "\n" ++ str "// Procs of " ++ PascalCase o.Name ++ str "\n"
          ++ ((sortStableFunc (fun a b => compareNames a.Name b.Name) o.Methods).map (fun m =>
                typedefLine (returnTypeOf m) (PascalCase o.Name) (PascalCase m.Name)
                  (parameterList o m))
              ++ [typedefLine (str "void") (PascalCase o.Name) (str "Reference") (objectHandle o),
                  typedefLine (str "void") (PascalCase o.Name) (str "Release")
                    (objectHandle o)]).flatten)
    ∧ writeObjectMethods o
        = some (str "\n" ++ str "// Methods of " ++ PascalCase o.Name ++ str "\n"
          ++ ((sortStableFunc (fun a b => compareNames a.Name b.Name) o.Methods).map (fun m =>
                declLine (returnTypeOf m) (PascalCase o.Name) (PascalCase m.Name)
                  (parameterList o m))
              ++ [declLine (str "void") (PascalCase o.Name) (str "Reference") (objectHandle o),
                  declLine (str "void") (PascalCase o.Name) (str "Release")
                    (objectHandle o)]).flatten)
    ∧ ((sortStableFunc (fun a b => compareNames a.Name b.Name) o.Methods).map (fun m =>
            typedefLine (returnTypeOf m) (PascalCase o.Name) (PascalCase m.Name)
              (parameterList o m))
          ++ [typedefLine (str "void") (PascalCase o.Name) (str "Reference") (objectHandle o),
              typedefLine (str "void") (PascalCase o.Name) (str "Release")
                (objectHandle o)]).length = o.Methods.length + 2
    ∧ ((sortStableFunc (fun a b => compareNames a.Name b.Name) o.Methods).map (fun m =>
            declLine (returnTypeOf m) (PascalCase o.Name) (PascalCase m.Name)
              (parameterList o m))
          ++ [declLine (str "void") (PascalCase o.Name) (str "Reference") (objectHandle o),
              declLine (str "void") (PascalCase o.Name) (str "Release")
                (objectHandle o)]).length = o.Methods.length + 2
    ∧ (sortStableFunc (fun a b => compareNames a.Name b.Name) o.Methods).Perm o.Methods
    ∧ objectHandle o = str "WGPU" ++ PascalCase o.Name ++ str " " ++ CamelCase o.Name
    ∧ ∀ yml out, o ∈ yml.Objects → writeProcs yml = some out →
        ∃ procs methods pre mid post, writeObjectProcs o = some procs
          ∧ writeObjectMethods o = some methods ∧ out = pre ++ procs ++ mid ++ methods ++ post := by
  have hlen := (sortStableFunc_perm (fun a b : Function => compareNames a.Name b.Name)
    o.Methods).length_eq
  refine ⟨?_, ?_, ?_, ?_, sortStableFunc_perm _ _, rfl, ?_⟩
  · rw [writeObjectProcs_of_recognized o h, ← synthetic_typedefLines o, ← List.map_append]
    rfl
  · rw [writeObjectMethods_of_recognized o h, ← synthetic_declLines o, ← List.map_append]
    rfl
  · simp [hlen]
  · simp [hlen]
  · intro yml out ho hout
    unfold writeProcs at hout
    cases ha : emitAll writeObjectProcs (sortedObjects yml) with
    | none => simp [ha] at hout
    | some a =>
      cases hb : emitAll writeObjectMethods (sortedObjects yml) with
      | none => simp [ha, hb] at hout
      | some b =>
        simp only [ha, hb, Option.some.injEq] at hout
        have hmem : o ∈ sortedObjects yml := (mem_sortStableFunc _ _ _).2 ho
        obtain ⟨x, p1, q1, hx, ea⟩ := emitAll_of_mem writeObjectProcs _ o hmem a ha
        obtain ⟨y, p2, q2, hy, eb⟩ := emitAll_of_mem writeObjectMethods _ o hmem b hb
        refine ⟨x, y, procsHeaderText ++ p1, q1 ++ procsMiddleText ++ p2,
          q2 ++ procsFooterText, hx, hy, ?_⟩
        rw [← hout, ea, eb]
        simp only [procsHeaderText, procsMiddleText, procsFooterText, List.append_assoc]

/-- Witness of C14 on the object `buffer` with the one declared method
`set_label`: three typedefs and three declarations. -/
theorem writeProcs_n_plus_two_witness :
    labelledObject.Methods.length + 2 = 3
    ∧ writeObjectProcs labelledObject
        = some (str "\n// Procs of Buffer\ntypedef void (*WGPUProcBufferSetLabel)(WGPUBuffer buffer, char const * label) WGPU_FUNCTION_ATTRIBUTE;\ntypedef void (*WGPUProcBufferReference)(WGPUBuffer buffer) WGPU_FUNCTION_ATTRIBUTE;\ntypedef void (*WGPUProcBufferRelease)(WGPUBuffer buffer) WGPU_FUNCTION_ATTRIBUTE;\n")
    ∧ ((sortStableFunc (fun a b => compareNames a.Name b.Name) labelledObject.Methods).map
          (fun m => typedefLine (returnTypeOf m) (PascalCase labelledObject.Name)
            (PascalCase m.Name) (parameterList labelledObject m))
        ++ [typedefLine (str "void") (PascalCase labelledObject.Name) (str "Reference")
              (objectHandle labelledObject),
            typedefLine (str "void") (PascalCase labelledObject.Name) (str "Release")
              (objectHandle labelledObject)]).length = labelledObject.Methods.length + 2 :=
  ⟨by decide, by decide, (writeProcs_n_plus_two labelledObject (by decide)).2.2.1⟩

/-- C15. The declaration section of `writeProcs` mirrors the typedef section.
A method gives a typedef line exactly when it gives a declaration line, and
the two lines have the same return type, object name, method name and
parameter list, the parameter list being the handle of the object followed by
the declared arguments in authored order. Every text of `writeProcs` is the
typedef lines of the methods of the sorted objects, then the declaration lines
of the same methods in the same order; it is written for every schema whose
method types are all recognized. -/
theorem writeProcs_declarations_mirror_typedefs (yml : Yml) :
    (∀ o method, writeProcTypedef o method = none ↔ writeProcDecl o method = none)
    ∧ (∀ o method line, writeProcTypedef o method = some line →
        line = typedefLine (returnTypeOf method) (PascalCase o.Name) (PascalCase method.Name)
            (parameterList o method)
        ∧ writeProcDecl o method
            = some (declLine (returnTypeOf method) (PascalCase o.Name) (PascalCase method.Name)
                (parameterList o method)))
    ∧ (∀ o method, parameterList o method
        = stringsJoin ((str "WGPU" ++ PascalCase o.Name ++ str " " ++ CamelCase o.Name)
            :: method.Args.map argText) (str ", "))
    ∧ (∀ out, writeProcs yml = some out →
        out = procsHeaderText
          ++ ((sortedObjects yml).map (fun o =>
              str "\n" ++ str "// Procs of " ++ PascalCase o.Name ++ str "\n"
                ++ ((procMethods o).map (fun m =>
                    typedefLine (returnTypeOf m) (PascalCase o.Name) (PascalCase m.Name)
                      (parameterList o m))).flatten)).flatten
          ++ procsMiddleText
          ++ ((sortedObjects yml).map (fun o =>
              str "\n" ++ str "// Methods of " ++ PascalCase o.Name ++ str "\n"
                ++ ((procMethods o).map (fun m =>
                    declLine (returnTypeOf m) (PascalCase o.Name) (PascalCase m.Name)
                      (parameterList o m))).flatten)).flatten
          ++ procsFooterText)
    ∧ ((∀ o ∈ yml.Objects, ∀ m ∈ o.Methods, MethodRecognized m) → writeProcs yml ≠ none) := by
  refine ⟨writeProcTypedef_eq_none_iff, ?_, fun _ _ => rfl, ?_, ?_⟩
  · intro o method line hl
    refine ⟨writeProcTypedef_of_some o method line hl, ?_⟩
    cases hd : writeProcDecl o method with
    | none =>
      rw [(writeProcTypedef_eq_none_iff o method).2 hd] at hl
      cases hl
    | some d => rw [writeProcDecl_of_some o method d hd]
  · intro out hout
    unfold writeProcs at hout
    cases ha : emitAll writeObjectProcs (sortedObjects yml) with
    | none => simp [ha] at hout
    | some a =>
      cases hb : emitAll writeObjectMethods (sortedObjects yml) with
      | none => simp [ha, hb] at hout
      | some b =>
        simp only [ha, hb, Option.some.injEq] at hout
        rw [← hout, emitAll_eq_some_map writeObjectProcs objectProcsText _ a ha
            (fun o _ x hx => writeObjectProcs_of_some o x hx),
          emitAll_eq_some_map writeObjectMethods objectMethodsText _ b hb
            (fun o _ x hx => writeObjectMethods_of_some o x hx)]
        rfl
  · intro hall hn
    unfold writeProcs at hn
    have h1 : emitAll writeObjectProcs (sortedObjects yml)
        = some ((sortedObjects yml).map objectProcsText).flatten :=
      emitAll_eq_some_of_forall _ _ _ (fun o ho =>
        writeObjectProcs_of_recognized o (hall o ((mem_sortStableFunc _ _ _).1 ho)))
    have h2 : emitAll writeObjectMethods (sortedObjects yml)
        = some ((sortedObjects yml).map objectMethodsText).flatten :=
      emitAll_eq_some_of_forall _ _ _ (fun o ho =>
        writeObjectMethods_of_recognized o (hall o ((mem_sortStableFunc _ _ _).1 ho)))
    rw [h1, h2] at hn
    cases hn

/-- Witness of C15 on the schema with the object `buffer` and its method
`set_label`. -/
theorem writeProcs_declarations_mirror_typedefs_witness :
    writeProcs labelledObjectSchema
        = some (procsHeaderText
          ++ str "\n// Procs of Buffer\ntypedef void (*WGPUProcBufferSetLabel)(WGPUBuffer buffer, char const * label) WGPU_FUNCTION_ATTRIBUTE;\ntypedef void (*WGPUProcBufferReference)(WGPUBuffer buffer) WGPU_FUNCTION_ATTRIBUTE;\ntypedef void (*WGPUProcBufferRelease)(WGPUBuffer buffer) WGPU_FUNCTION_ATTRIBUTE;\n"
          ++ procsMiddleText
          ++ str "\n// Methods of Buffer\nWGPU_EXPORT void wgpuBufferSetLabel(WGPUBuffer buffer, char const * label) WGPU_FUNCTION_ATTRIBUTE;\nWGPU_EXPORT void wgpuBufferReference(WGPUBuffer buffer) WGPU_FUNCTION_ATTRIBUTE;\nWGPU_EXPORT void wgpuBufferRelease(WGPUBuffer buffer) WGPU_FUNCTION_ATTRIBUTE;\n"
          ++ procsFooterText)
    ∧ writeProcs labelledObjectSchema ≠ none :=
  ⟨by decide,
    (writeProcs_declarations_mirror_typedefs labelledObjectSchema).2.2.2.2 (by decide)⟩

/-! ## Encoding of the enums -/

theorem parseUint_eq (s : GoString) :
    parseUint s = if IsUint64Literal s then some (decimalValue s) else none := by
  unfold parseUint IsUint64Literal decimalValue
  by_cases h1 : s = []
  · simp [h1]
  · by_cases h2 : ∀ c ∈ s, 48 ≤ c ∧ c ≤ 57
    · have h2' : (s.all fun c => decide (48 ≤ c ∧ c ≤ 57)) = true := by
        simpa using h2
      by_cases h3 : s.foldl (fun acc c => 10 * acc + (c - 48)) 0 < 2 ^ 64
      · rw [if_neg h1, if_pos h2', if_pos h3, if_pos ⟨h1, h2, h3⟩]
      · rw [if_neg h1, if_pos h2', if_neg h3, if_neg (fun h => h3 h.2.2)]
    · have h2' : ¬ (s.all fun c => decide (48 ≤ c ∧ c ≤ 57)) = true := by
        simpa using h2
      rw [if_neg h1, if_neg h2', if_neg (fun h => h2 h.2.1)]

theorem writeEnumEntry_eq (enumName : GoString) (implicit : Nat) (entry : EnumEntries) :
    writeEnumEntry enumName implicit entry
      = if EntryRenders entry then
          some (commentBlock entry.Doc 4 ++ str "\n"
            ++ entryLine enumName entry (entryValue implicit entry))
        else none := by
  unfold writeEnumEntry EntryRenders entryValue entryLine
  rw [writeDoc_four, parseUint_eq]
  by_cases hd : DocFits entry.Doc
  · by_cases hv : entry.Value = []
    · simp [hd, hv]
    · by_cases hl : IsUint64Literal entry.Value
      · simp [hd, hv, hl]
      · simp [hd, hv, hl]
  · simp [hd]

theorem emitAll_entries (enumName : GoString) (implicit : Nat → Nat)
    (entries : List EnumEntries) (he : ∀ e ∈ entries, EntryRenders e) :
    emitAll (fun p => writeEnumEntry enumName (implicit p.1) p.2) entries.enum
      = some (renderEntries enumName implicit entries) := by
  unfold renderEntries
  apply emitAll_eq_some_of_forall
  intro p hp
  rw [writeEnumEntry_eq, if_pos (he p.2 (List.snd_mem_of_mem_enum hp))]

theorem emitAll_entries_eq_none (enumName : GoString) (implicit : Nat → Nat)
    (entries : List EnumEntries) (he : ¬ ∀ e ∈ entries, EntryRenders e) :
    emitAll (fun p => writeEnumEntry enumName (implicit p.1) p.2) entries.enum = none := by
  simp only [not_forall] at he
  obtain ⟨e, hmem, hne⟩ := he
  rw [emitAll_eq_none_iff]
  have hm : e ∈ entries.enum.map Prod.snd := by rw [List.enum_map_snd]; exact hmem
  obtain ⟨p, hp, hpe⟩ := List.mem_map.1 hm
  refine ⟨p, hp, ?_⟩
  rw [writeEnumEntry_eq, if_neg (by rw [hpe]; exact hne)]

theorem writeEnum_eq (enum : Enum) :
    writeEnum enum = if EnumRenders enum then some (renderEnum enum) else none := by
  unfold writeEnum
  rw [writeDoc_zero]
  by_cases hd : DocFits enum.Doc
  · by_cases he : ∀ e ∈ enum.Entries, EntryRenders e
    · have hes : emitAll (fun p => writeEnumEntry (PascalCase enum.Name) p.1 p.2)
          enum.Entries.enum = some (renderEntries (PascalCase enum.Name) (fun i => i)
            enum.Entries) := emitAll_entries _ (fun i => i) _ he
      rw [if_pos hd, if_pos ⟨hd, he⟩, hes]
      simp only [renderEnum, List.append_assoc]
    · have hes : emitAll (fun p => writeEnumEntry (PascalCase enum.Name) p.1 p.2)
          enum.Entries.enum = none := emitAll_entries_eq_none _ (fun i => i) _ he
      rw [if_pos hd, if_neg (fun h => he h.2), hes]
  · rw [if_neg hd, if_neg (fun h => hd h.1)]

theorem writeBitmaskEnum_eq (rt : GoRuntime) (enum : Enum) :
    writeBitmaskEnum rt enum
      = if EnumRenders enum then some (renderBitmaskEnum rt enum) else none := by
  unfold writeBitmaskEnum
  rw [writeDoc_zero]
  by_cases hd : DocFits enum.Doc
  · by_cases he : ∀ e ∈ enum.Entries, EntryRenders e
    · rw [if_pos hd, if_pos ⟨hd, he⟩, emitAll_entries _ (bitmaskValue rt) _ he]
      simp only [renderBitmaskEnum, List.append_assoc]
    · rw [if_pos hd, if_neg (fun h => he h.2), emitAll_entries_eq_none _ (bitmaskValue rt) _ he]
  · rw [if_neg hd, if_neg (fun h => hd h.1)]

theorem writeEnum_eq_none_iff (enum : Enum) : writeEnum enum = none ↔ ¬ EnumRenders enum := by
  rw [writeEnum_eq]
  by_cases h : EnumRenders enum <;> simp [h]

theorem writeBitmaskEnum_eq_none_iff (rt : GoRuntime) (enum : Enum) :
    writeBitmaskEnum rt enum = none ↔ ¬ EnumRenders enum := by
  rw [writeBitmaskEnum_eq]
  by_cases h : EnumRenders enum <;> simp [h]

theorem mem_plainEnums (yml : Yml) (e : Enum) :
    e ∈ plainEnums yml ↔ e ∈ yml.Enums ∧ e.Bitmask = false := by
  simp [plainEnums, sortedEnums, mem_sortStableFunc]

theorem mem_bitmaskEnums (yml : Yml) (e : Enum) :
    e ∈ bitmaskEnums yml ↔ e ∈ yml.Enums ∧ e.Bitmask = true := by
  simp [bitmaskEnums, sortedEnums, mem_sortStableFunc]

theorem writeEnums_eq_none_iff (rt : GoRuntime) (yml : Yml) :
    writeEnums rt yml = none ↔ ∃ enum ∈ yml.Enums, ¬ EnumRenders enum := by
  have hsplit : writeEnums rt yml = none ↔
      emitAll writeEnum (plainEnums yml) = none
        ∨ emitAll (writeBitmaskEnum rt) (bitmaskEnums yml) = none := by
    unfold writeEnums
    cases emitAll writeEnum (plainEnums yml) <;>
      cases emitAll (writeBitmaskEnum rt) (bitmaskEnums yml) <;> simp
  rw [hsplit, emitAll_eq_none_iff, emitAll_eq_none_iff]
  constructor
  · rintro (⟨e, he, hn⟩ | ⟨e, he, hn⟩)
    · exact ⟨e, ((mem_plainEnums yml e).1 he).1, (writeEnum_eq_none_iff e).1 hn⟩
    · exact ⟨e, ((mem_bitmaskEnums yml e).1 he).1, (writeBitmaskEnum_eq_none_iff rt e).1 hn⟩
  · rintro ⟨e, he, hn⟩
    by_cases hb : e.Bitmask = true
    · exact Or.inr ⟨e, (mem_bitmaskEnums yml e).2 ⟨he, hb⟩,
        (writeBitmaskEnum_eq_none_iff rt e).2 hn⟩
    · exact Or.inl ⟨e, (mem_plainEnums yml e).2 ⟨he, by simpa using hb⟩,
        (writeEnum_eq_none_iff e).2 hn⟩

theorem not_enumRenders_iff (enum : Enum) :
    ¬ EnumRenders enum ↔
      ¬ DocFits enum.Doc ∨ ∃ entry ∈ enum.Entries,
        ¬ DocFits entry.Doc ∨ (entry.Value ≠ [] ∧ ¬ IsUint64Literal entry.Value) := by
  unfold EnumRenders EntryRenders
  constructor
  · intro h
    by_cases hd : DocFits enum.Doc
    · right
      by_contra hc
      apply h
      refine ⟨hd, fun entry he => ?_⟩
      by_contra hne
      apply hc
      refine ⟨entry, he, ?_⟩
      by_cases hf : DocFits entry.Doc
      · right
        constructor
        · intro hv
          exact hne ⟨hf, Or.inl hv⟩
        · intro hl
          exact hne ⟨hf, Or.inr hl⟩
      · exact Or.inl hf
    · exact Or.inl hd
  · rintro (hd | ⟨entry, he, hf | ⟨hv, hl⟩⟩) h
    · exact hd h.1
    · exact hf (h.2 entry he).1
    · rcases (h.2 entry he).2 with h1 | h1
      · exact hv h1
      · exact hl h1

/-- C11. `writeEnums` writes the entries of an enum that is not a bitmask in
authored order; the entry at the 0-based position `i` is given the value `i`
when it states no value, whatever the other entries state, and its explicit
decimal value when it states one; the entries are followed by the entry
`WGPU<Enum>_Force32 = 0x7FFFFFFF`. The entries `a`, `b`, `c` without values
are encoded as 0, 1, 2 and followed by that entry. The block is written
whenever the documentation texts fit the scanner and the explicit values are
well-formed. -/
theorem writeEnum_encoding :
    (∀ enum out, writeEnum enum = some out → out = renderEnum enum)
    ∧ (∀ enum, EnumRenders enum → writeEnum enum = some (renderEnum enum))
    ∧ (∀ i entry, entry.Value = [] → entryValue i entry = i)
    ∧ (∀ i entry v, entry.Value ≠ [] → parseUint entry.Value = some v → entryValue i entry = v)
    ∧ writeEnum abcEnum
        = some (str "/**\n */\ntypedef enum WGPUKind \x7b\n    /**\n     */\n    WGPUKind_A = 0x00000000,\n    /**\n     */\n    WGPUKind_B = 0x00000001,\n    /**\n     */\n    WGPUKind_C = 0x00000002,\n    WGPUKind_Force32 = 0x7FFFFFFF\n\x7d WGPUKind WGPU_ENUM_ATTRIBUTE;\n\n")
    ∧ writeEnum explicitValueEnum
        = some (str "/**\n */\ntypedef enum WGPUMode \x7b\n    /**\n     */\n    WGPUMode_A = 0x00000000,\n    /**\n     */\n    WGPUMode_B = 0x00000010,\n    /**\n     */\n    WGPUMode_C = 0x00000002,\n    WGPUMode_Force32 = 0x7FFFFFFF\n\x7d WGPUMode WGPU_ENUM_ATTRIBUTE;\n\n")
    ∧ (∀ rt yml enum out, enum ∈ yml.Enums → enum.Bitmask = false →
        writeEnums rt yml = some out → ∃ pre post, out = pre ++ renderEnum enum ++ post) := by
  have h1 : ∀ enum out, writeEnum enum = some out → out = renderEnum enum := by
    intro enum out h
    rw [writeEnum_eq] at h
    by_cases hr : EnumRenders enum
    · rw [if_pos hr] at h
      exact (Option.some.inj h).symm
    · rw [if_neg hr] at h
      cases h
  refine ⟨h1, fun enum hr => by rw [writeEnum_eq, if_pos hr], ?_, ?_, by decide, by decide, ?_⟩
  · intro i entry hv
    unfold entryValue
    rw [if_pos hv]
  · intro i entry v hv hp
    unfold entryValue
    rw [if_neg hv]
    rw [parseUint_eq] at hp
    by_cases hl : IsUint64Literal entry.Value
    · rw [if_pos hl] at hp
      exact Option.some.inj hp
    · rw [if_neg hl] at hp
      cases hp
  · intro rt yml enum out he hb hout
    unfold writeEnums at hout
    cases ha : emitAll writeEnum (plainEnums yml) with
    | none => simp [ha] at hout
    | some a =>
      cases hbm : emitAll (writeBitmaskEnum rt) (bitmaskEnums yml) with
      | none => simp [ha, hbm] at hout
      | some b =>
        simp only [ha, hbm, Option.some.injEq] at hout
        obtain ⟨x, pre, post, hx, ea⟩ :=
          emitAll_of_mem writeEnum _ enum ((mem_plainEnums yml enum).2 ⟨he, hb⟩) a ha
        refine ⟨pre, post ++ b, ?_⟩
        rw [← hout, ea, h1 enum x hx]
        simp only [List.append_assoc]

/-- Witness of C11 on the enum `mode`, whose entry at position 1 has the
explicit value `16` and whose entry at position 2 has none. -/
theorem writeEnum_encoding_witness :
    EnumRenders explicitValueEnum
    ∧ writeEnum explicitValueEnum = some (renderEnum explicitValueEnum)
    ∧ entryValue 1 { Name := str "b", Value := str "16", Doc := [] } = 16
    ∧ entryValue 2 { Name := str "c", Value := [], Doc := [] } = 2 :=
  ⟨by decide, writeEnum_encoding.2.1 explicitValueEnum (by decide),
    writeEnum_encoding.2.2.2.1 1 { Name := str "b", Value := str "16", Doc := [] } 16
      (by decide) (by decide),
    writeEnum_encoding.2.2.1 2 { Name := str "c", Value := [], Doc := [] } rfl⟩

theorem two_pow_and_two_pow (a b : Nat) (h : a ≠ b) : 2 ^ a &&& 2 ^ b = 0 := by
  apply Nat.eq_of_testBit_eq
  intro i
  rw [Nat.testBit_and, Nat.testBit_two_pow, Nat.testBit_two_pow, Nat.zero_testBit]
  by_cases h1 : a = i
  · have h2 : ¬ b = i := fun hb => h (h1.trans hb.symm)
    simp [h2]
  · simp [h1]

theorem bitmaskValue_of_le (rt : GoRuntime) (i : Nat) (h : i ≤ 64) :
    bitmaskValue rt i = if i = 0 then 0 else 2 ^ (i - 1) := by
  unfold bitmaskValue
  by_cases h0 : i = 0
  · rw [if_pos h0, if_pos h0]
  · rw [if_neg h0, if_pos h, if_neg h0]

/-- C12 as the code has it. In a bitmask enum an entry that states no value
is given 0 at the 0-based position 0 and `2^(i-1)` at a position `i` from 1
to 64, so the values at these positions are single bits that are pairwise
disjoint; the entries `undefined`, `x`, `y` are encoded as `0x00000000`,
`0x00000001`, `0x00000002`. Beyond position 64 the power does not fit the
64-bit unsigned integer it is converted to. -/
theorem writeBitmaskEnum_encoding :
    (∀ rt i, i ≤ 64 → bitmaskValue rt i = if i = 0 then 0 else 2 ^ (i - 1))
    ∧ (∀ rt i j, 1 ≤ i → i < j → j ≤ 64 → bitmaskValue rt i &&& bitmaskValue rt j = 0)
    ∧ (∀ rt i, bitmaskValue rt i < 2 ^ 64)
    ∧ (∀ rt enum out, writeBitmaskEnum rt enum = some out → out = renderBitmaskEnum rt enum)
    ∧ (∀ rt enum, EnumRenders enum →
        writeBitmaskEnum rt enum = some (renderBitmaskEnum rt enum))
    ∧ (∀ rt i entry, entry.Value = [] → entryValue (bitmaskValue rt i) entry = bitmaskValue rt i)
    ∧ writeBitmaskEnum exampleRuntime undefinedXYEnum
        = some (str "/**\n */\ntypedef enum WGPUUsage \x7b\n    /**\n     */\n    WGPUUsage_Undefined = 0x00000000,\n    /**\n     */\n    WGPUUsage_X = 0x00000001,\n    /**\n     */\n    WGPUUsage_Y = 0x00000002,\n    WGPUUsage_Force32 = 0x7FFFFFFF\n\x7d WGPUUsage WGPU_ENUM_ATTRIBUTE;\ntypedef WGPUFlags WGPUUsageFlags WGPU_ENUM_ATTRIBUTE;\n\n") := by
  refine ⟨bitmaskValue_of_le, ?_, ?_, ?_, fun rt enum hr => by rw [writeBitmaskEnum_eq, if_pos hr],
    ?_, by decide⟩
  · intro rt i j hi hij hj
    rw [bitmaskValue_of_le rt i (by omega), bitmaskValue_of_le rt j hj,
      if_neg (by omega), if_neg (by omega)]
    exact two_pow_and_two_pow _ _ (by omega)
  · intro rt i
    unfold bitmaskValue
    by_cases h0 : i = 0
    · rw [if_pos h0]
      exact Nat.two_pow_pos 64
    · rw [if_neg h0]
      by_cases h : i ≤ 64
      · rw [if_pos h]
        exact Nat.pow_lt_pow_right (by decide) (by omega)
      · rw [if_neg h]
        exact Nat.mod_lt _ (Nat.two_pow_pos 64)
  · intro rt enum out h
    rw [writeBitmaskEnum_eq] at h
    by_cases hr : EnumRenders enum
    · rw [if_pos hr] at h
      exact (Option.some.inj h).symm
    · rw [if_neg hr] at h
      cases h
  · intro rt i entry hv
    unfold entryValue
    rw [if_pos hv]

/-- Witness of C12 on the positions 1 and 2 of the enum `usage`. -/
theorem writeBitmaskEnum_encoding_witness :
    bitmaskValue exampleRuntime 1 = 1 ∧ bitmaskValue exampleRuntime 2 = 2
    ∧ bitmaskValue exampleRuntime 1 &&& bitmaskValue exampleRuntime 2 = 0
    ∧ writeBitmaskEnum exampleRuntime undefinedXYEnum
        = some (renderBitmaskEnum exampleRuntime undefinedXYEnum) :=
  ⟨writeBitmaskEnum_encoding.1 exampleRuntime 1 (by decide),
    writeBitmaskEnum_encoding.1 exampleRuntime 2 (by decide),
    writeBitmaskEnum_encoding.2.1 exampleRuntime 1 2 (by decide) (by decide) (by decide),
    writeBitmaskEnum_encoding.2.2.2.2.1 exampleRuntime undefinedXYEnum (by decide)⟩

/-- Counterexample to C12. In a bitmask enum with 66 entries that state no
value, the entry at position 65 is not given `2^64`, whatever the runtime:
its value is a 64-bit unsigned integer, so it is below `2^64`. -/
theorem writeBitmaskEnum_counterexample :
    wideBitmaskEnum.Bitmask = true
    ∧ wideBitmaskEnum.Entries.length = 66
    ∧ (∀ e ∈ wideBitmaskEnum.Entries, e.Value = [])
    ∧ (¬ ∃ rt, bitmaskValue rt 65 = 2 ^ (65 - 1))
    ∧ writeEnumEntry (PascalCase wideBitmaskEnum.Name) (bitmaskValue exampleRuntime 65)
          { Name := str "bit", Value := [], Doc := [] }
        = some (str "    /**\n     */\n    WGPUWide_Bit = 0x00000000,\n") := by
  refine ⟨rfl, by decide, by decide, ?_, by decide⟩
  rintro ⟨rt, h⟩
  have hlt : bitmaskValue rt 65 < 2 ^ 64 := by
    unfold bitmaskValue
    rw [if_neg (by decide), if_neg (by decide)]
    exact Nat.mod_lt _ (Nat.two_pow_pos 64)
  rw [h] at hlt
  exact absurd hlt (by decide)

/-- C13 as the code has it. `writeEnums` aborts if and only if, in some enum
of the schema (bitmask or not), an entry has a non-empty explicit value that
is not a well-formed unsigned base-10 integer literal representable in 64
bits, or the documentation of the enum or of one of its entries has a line of
65536 bytes or more, on which the scanner of `MultilineComment` fails. An
entry with an empty value and a documentation that fits never causes an
abort. -/
theorem writeEnums_abort_iff (rt : GoRuntime) (yml : Yml) :
    (writeEnums rt yml = none ↔
      ∃ enum ∈ yml.Enums, ¬ DocFits enum.Doc ∨ ∃ entry ∈ enum.Entries,
        ¬ DocFits entry.Doc ∨ (entry.Value ≠ [] ∧ ¬ IsUint64Literal entry.Value))
    ∧ (∀ s, parseUint s = none ↔ ¬ IsUint64Literal s)
    ∧ (∀ enumName implicit entry, entry.Value = [] → DocFits entry.Doc →
        writeEnumEntry enumName implicit entry ≠ none) := by
  refine ⟨?_, ?_, ?_⟩
  · rw [writeEnums_eq_none_iff]
    constructor
    · rintro ⟨e, he, hn⟩
      exact ⟨e, he, (not_enumRenders_iff e).1 hn⟩
    · rintro ⟨e, he, hn⟩
      exact ⟨e, he, (not_enumRenders_iff e).2 hn⟩
  · intro s
    rw [parseUint_eq]
    by_cases h : IsUint64Literal s <;> simp [h]
  · intro enumName implicit entry hv hd
    rw [writeEnumEntry_eq, if_pos ⟨hd, Or.inl hv⟩]
    simp

/-- Witness of C13 on a schema with an entry of the explicit value `0x10`,
which is not a decimal literal. -/
theorem writeEnums_abort_iff_witness :
    ¬ IsUint64Literal (str "0x10") ∧ writeEnums exampleRuntime malformedValueSchema = none :=
  ⟨by decide, (writeEnums_abort_iff exampleRuntime malformedValueSchema).1.2 (by decide)⟩

/-- Counterexample to C13. The only enum of the schema has no entry, so no
entry has a malformed explicit value; its documentation is one line of 65536
bytes, and `writeEnums` aborts. -/
theorem writeEnums_abort_counterexample :
    (∀ enum ∈ longDocEnumSchema.Enums, ∀ entry ∈ enum.Entries,
      entry.Value = [] ∨ IsUint64Literal entry.Value)
    ∧ writeEnums exampleRuntime longDocEnumSchema = none := by
  constructor
  · intro enum he entry hentry
    have : enum = longDocEnum := List.mem_singleton.1 he
    subst this
    exact absurd hentry (List.not_mem_nil entry)
  · exact (writeEnums_eq_none_iff exampleRuntime longDocEnumSchema).2
      ⟨longDocEnum, List.mem_singleton_self _, fun h => not_docFits_longLine h.1⟩

/-! ## The lines of the comment block -/

theorem spaceWidth_pos_of_ne_zero (encs : List GoString) (s : GoString)
    (h : spaceWidth encs s ≠ 0) : s ≠ [] := by
  intro hs
  subst hs
  exact h rfl

theorem trimSpaces_width_zero (encs : List GoString) (n : Nat) (s : GoString)
    (h : s.length ≤ n) : spaceWidth encs (trimSpaces encs n s) = 0 := by
  induction n generalizing s with
  | zero =>
    have : s = [] := List.length_eq_zero.1 (Nat.le_zero.1 h)
    subst this
    rfl
  | succ n ih =>
    unfold trimSpaces
    by_cases hw : spaceWidth encs s = 0
    · rw [if_pos hw]
      exact hw
    · rw [if_neg hw]
      apply ih
      have hne := spaceWidth_pos_of_ne_zero encs s hw
      have hl : 0 < s.length := List.length_pos.2 hne
      rw [List.length_drop]
      omega

theorem head_not_space_of_width_zero (encs : List GoString) (s : GoString)
    (h : spaceWidth encs s = 0) (c : Nat) (hc : s.head? = some c) : asciiSpace c = false := by
  cases s with
  | nil => cases hc
  | cons x s =>
    simp only [List.head?_cons, Option.some.injEq] at hc
    subst hc
    unfold spaceWidth at h
    by_cases hx : asciiSpace x = true
    · simp [hx] at h
    · simpa using hx

theorem TrimSpace_getLast (text : GoString) : (TrimSpace text).getLast? ≠ some 10 := by
  intro h
  unfold TrimSpace at h
  simp only [List.getLast?_reverse] at h
  have hz := trimSpaces_width_zero (unicodeSpaces.map List.reverse)
    (trimSpaces unicodeSpaces text.length text).length
    (trimSpaces unicodeSpaces text.length text).reverse (by simp)
  have := head_not_space_of_width_zero _ _ hz 10 h
  exact absurd this (by decide)

theorem scanLines_eq_nil (t : GoString) (h : scanLines t = []) : t = [] := by
  cases t with
  | nil => rfl
  | cons c s =>
    unfold scanLines at h
    by_cases hc : c = 10
    · rw [if_pos hc] at h
      cases h
    · rw [if_neg hc] at h
      cases hs : scanLines s <;> simp [hs] at h

theorem scanLines_no_newline (t : GoString) : ∀ l ∈ scanLines t, 10 ∉ l := by
  induction t with
  | nil => intro l hl; simp [scanLines] at hl
  | cons c s ih =>
    intro l hl
    unfold scanLines at hl
    by_cases hc : c = 10
    · rw [if_pos hc] at hl
      rcases List.mem_cons.1 hl with h | h
      · subst h
        simp
      · exact ih l h
    · rw [if_neg hc] at hl
      cases hs : scanLines s with
      | nil =>
        simp only [hs, List.mem_singleton] at hl
        subst hl
        simpa using fun h : 10 = c => hc h.symm
      | cons x xs =>
        simp only [hs, List.mem_cons] at hl
        rcases hl with h | h
        · subst h
          have hx := ih x (by rw [hs]; exact List.mem_cons_self _ _)
          simp only [List.mem_cons, not_or]
          exact ⟨fun h => hc h.symm, hx⟩
        · exact ih l (by rw [hs]; exact List.mem_cons_of_mem _ h)

theorem intercalate_cons_cons (sep x y : GoString) (ys : List GoString) :
    List.intercalate sep (x :: y :: ys) = x ++ sep ++ List.intercalate sep (y :: ys) := by
  simp [List.intercalate, List.intersperse]

theorem scanLines_intercalate (t : GoString) (h : t.getLast? ≠ some 10) :
    List.intercalate [10] (scanLines t) = t := by
  induction t with
  | nil => simp [scanLines, List.intercalate]
  | cons c s ih =>
    unfold scanLines
    by_cases hc : c = 10
    · subst hc
      rw [if_pos rfl]
      cases s with
      | nil => exact absurd rfl h
      | cons d s =>
        have hl : (d :: s).getLast? ≠ some 10 := by
          rwa [List.getLast?_cons_cons] at h
        have ih' := ih hl
        cases hs : scanLines (d :: s) with
        | nil => exact absurd (scanLines_eq_nil _ hs) (by simp)
        | cons x xs =>
          rw [hs] at ih'
          rw [intercalate_cons_cons, ih']
          rfl
    · rw [if_neg hc]
      cases s with
      | nil => simp [scanLines, List.intercalate]
      | cons d s =>
        have hl : (d :: s).getLast? ≠ some 10 := by
          rwa [List.getLast?_cons_cons] at h
        have ih' := ih hl
        cases hs : scanLines (d :: s) with
        | nil => exact absurd (scanLines_eq_nil _ hs) (by simp)
        | cons x xs =>
          rw [hs] at ih'
          simp only []
          cases xs with
          | nil =>
            simp only [List.intercalate, List.intersperse, List.flatten_cons, List.flatten_nil,
              List.append_nil] at ih' ⊢
            rw [ih']
          | cons y ys =>
            rw [intercalate_cons_cons] at ih' ⊢
            rw [← ih']
            simp

theorem count_newline_dropCR (l : GoString) (h : 10 ∉ l) : (dropCR l).count 10 = 0 := by
  unfold dropCR
  rw [List.count_eq_zero]
  split
  · intro hm
    exact h (List.mem_of_mem_dropLast hm)
  · exact h

theorem count_newline_lines (lines : List GoString) (indent : Nat)
    (h : ∀ l ∈ lines, 10 ∉ l) :
    ((lines.map (fun line =>
        List.replicate indent 32 ++ str " * " ++ dropCR line ++ str "\n")).flatten).count 10
      = lines.length := by
  induction lines with
  | nil => rfl
  | cons l ls ih =>
    have h1 : (List.replicate indent 32).count 10 = 0 := by
      rw [List.count_eq_zero]
      intro hm
      have := List.eq_of_mem_replicate hm
      omega
    have h2 : (str " * ").count 10 = 0 := by decide
    have h3 : (str "\n").count 10 = 1 := by decide
    simp only [List.map_cons, List.flatten_cons, List.count_append, List.length_cons, h1, h2, h3,
      count_newline_dropCR l (h l (List.mem_cons_self _ _)),
      ih (fun x hx => h x (List.mem_cons_of_mem _ hx))]
    omega

theorem count_newline_commentBlock (text : GoString) (indent : Nat) :
    (commentBlock text indent).count 10 = (scanLines (TrimSpace text)).length + 1 := by
  have h1 : (List.replicate indent 32).count 10 = 0 := by
    rw [List.count_eq_zero]
    intro hm
    have := List.eq_of_mem_replicate hm
    omega
  have h2 : (str "/**\n").count 10 = 1 := by decide
  have h3 : (str " */").count 10 = 0 := by decide
  unfold commentBlock
  simp only [List.count_append, h1, h2, h3,
    count_newline_lines _ indent (scanLines_no_newline (TrimSpace text))]
  omega

theorem spaceWidth_whiteSpaceRune (r rest : GoString) (hr : r ∈ whiteSpaceRunes) :
    spaceWidth unicodeSpaces (r ++ rest) = r.length ∧ r.length ≠ 0 := by
  simp only [whiteSpaceRunes, unicodeSpaces, List.cons_append, List.nil_append, List.mem_cons,
    List.mem_singleton, List.not_mem_nil, or_false] at hr
  rcases hr with h | h | h | h | h | h | h | h | h | h | h | h | h | h | h | h | h | h | h
    | h | h | h | h | h | h <;> subst h <;>
    simp [spaceWidth, asciiSpace, unicodeSpaces, HasPrefix]

theorem trimSpaces_whitespace (runes : List GoString) (n : Nat)
    (hr : ∀ r ∈ runes, r ∈ whiteSpaceRunes) (hn : runes.flatten.length ≤ n) :
    trimSpaces unicodeSpaces n runes.flatten = [] := by
  induction runes generalizing n with
  | nil => cases n <;> rfl
  | cons r rs ih =>
    obtain ⟨hw, hne⟩ := spaceWidth_whiteSpaceRune r rs.flatten (hr r (List.mem_cons_self _ _))
    rw [List.flatten_cons] at hn ⊢
    rw [List.length_append] at hn
    cases n with
    | zero => omega
    | succ n =>
      unfold trimSpaces
      rw [hw, if_neg hne, List.drop_left]
      exact ih n (fun x hx => hr x (List.mem_cons_of_mem _ hx)) (by omega)

theorem TrimSpace_whitespace (text : GoString) (h : IsWhitespaceOnly text) :
    TrimSpace text = [] := by
  obtain ⟨runes, hr, rfl⟩ := h
  unfold TrimSpace
  rw [trimSpaces_whitespace runes _ hr (Nat.le_refl _)]
  rfl

/-- C18 as the code has it. For a text none of whose lines, once the text is
trimmed, has 65536 bytes or more, `MultilineComment(text, n)` is `n` spaces
and `/**`, then for each line of the trimmed text in order `n` spaces, ` * `
and the line without its final carriage return, then `n` spaces and ` */`;
the lines are what the trimmed text is cut into at its newlines. For an empty
or white-space-only text the result is `n` spaces, `/**`, a newline, `n`
spaces and ` */`, and in general it has two lines more than the trimmed text.
When a line has 65536 bytes or more the scanner fails and `MultilineComment`
aborts. -/
theorem MultilineComment_block (text : GoString) (n : Nat) :
    (DocFits text →
      MultilineComment text n
        = some (List.replicate n 32 ++ str "/**\n"
          ++ ((scanLines (TrimSpace text)).map (fun line =>
              List.replicate n 32 ++ str " * " ++ dropCR line ++ str "\n")).flatten
          ++ List.replicate n 32 ++ str " */"))
    ∧ (¬ DocFits text → MultilineComment text n = none)
    ∧ (∀ line ∈ scanLines (TrimSpace text), 10 ∉ line)
    ∧ List.intercalate [10] (scanLines (TrimSpace text)) = TrimSpace text
    ∧ (IsWhitespaceOnly text →
        MultilineComment text n
          = some (List.replicate n 32 ++ str "/**\n" ++ List.replicate n 32 ++ str " */"))
    ∧ (∀ out, MultilineComment text n = some out →
        out.count 10 + 1 = (scanLines (TrimSpace text)).length + 2) := by
  have hm := MultilineComment_eq text n
  refine ⟨fun h => ?_, fun h => ?_, scanLines_no_newline _,
    scanLines_intercalate _ (TrimSpace_getLast text), fun h => ?_, fun out hout => ?_⟩
  · rw [hm, if_pos h]
    rfl
  · rw [hm, if_neg h]
  · have ht := TrimSpace_whitespace text h
    have hf : DocFits text := by
      unfold DocFits
      rw [ht]
      intro line hl
      simp [scanLines] at hl
    rw [hm, if_pos hf]
    unfold commentBlock
    rw [ht]
    simp [scanLines]
  · rw [hm] at hout
    by_cases hf : DocFits text
    · rw [if_pos hf] at hout
      rw [← Option.some.inj hout, count_newline_commentBlock]
    · rw [if_neg hf] at hout
      cases hout

/-- Witness of C18 on a text of two lines, the first ended by a carriage
return and a newline, between white space, at the indent 4. -/
theorem MultilineComment_block_witness :
    MultilineComment (str "  \n Hello\r\nWorld \n\t") 4
        = some (str "    /**\n     * Hello\n     * World\n     */")
    ∧ MultilineComment (str "  \n Hello\r\nWorld \n\t") (4 : Nat)
        = some (List.replicate 4 32 ++ str "/**\n"
          ++ ((scanLines (TrimSpace (str "  \n Hello\r\nWorld \n\t"))).map (fun line =>
              List.replicate 4 32 ++ str " * " ++ dropCR line ++ str "\n")).flatten
          ++ List.replicate 4 32 ++ str " */")
    ∧ MultilineComment (str " \t\n") (4 : Nat)
        = some (List.replicate 4 32 ++ str "/**\n" ++ List.replicate 4 32 ++ str " */") :=
  ⟨by decide, (MultilineComment_block (str "  \n Hello\r\nWorld \n\t") 4).1 (by decide),
    (MultilineComment_block (str " \t\n") 4).2.2.2.2.1
      ⟨[[32], [9], [10]], by decide, by decide⟩⟩

/-- Counterexample to C18. On a text of one line of 65536 letters `a`, which
has no white space to trim, `MultilineComment` returns no comment: the scanner
fails on the line and the function aborts. -/
theorem MultilineComment_counterexample :
    longLine.length = 65536 ∧ (∀ c ∈ longLine, c = 97)
    ∧ scanLines (TrimSpace longLine) = [longLine]
    ∧ MultilineComment longLine 0 = none :=
  ⟨List.length_replicate _ _, fun _ hc => List.eq_of_mem_replicate hc,
    scanLines_TrimSpace_longLine, MultilineComment_eq_none_of_doc longLine not_docFits_longLine⟩

end WebgpuHeadersGen
